import Mathlib

/-!
# Mono3D device and bank-parallel controller

A shallow embedding of `src/dram/impl/Mono3D.cpp` and
`src/dram_controller/impl/bank_parallel_dram_controller.cpp`.

Integers of the program (`int`, `Clk_t`, `Addr_t`) are `Int`; statistics counters
(`size_t`) and `uint32_t` values are `Nat` (no wrap-around is modelled, the
counters only ever grow by one).
-/

namespace Ramulator

/-! ## Device: static tables of `Mono3D.cpp` -/

/-- Commands of the device, in the order of `m_commands`. -/
inductive Command where
  | ACT
  | PRE
  | RD
  | WR
  | RDA
  | WRA
  deriving DecidableEq, Repr

/-- Hierarchy levels, in the order of `m_levels`. -/
inductive Level where
  | channel
  | rank
  | bankgroup
  | bank
  | row
  | column
  deriving DecidableEq, Repr

/-- Index of a level inside an address vector (`m_levels["..."]`). -/
def Level.idx : Level → Nat
  | .channel => 0
  | .rank => 1
  | .bankgroup => 2
  | .bank => 3
  | .row => 4
  | .column => 5

/-- Address vectors (`AddrVec_t`): one integer per level, `-1` is the wildcard. -/
abbrev AddrVec := List Int

/-- Component `addr_vec[i]`; a well-formed vector has one entry for each of the six levels. -/
def addrAt (a : AddrVec) (i : Nat) : Int := a.getD i 0

/-- Command metadata (`DRAMCommandMeta`): open? close? access? refresh? -/
structure DRAMCommandMeta where
  is_opening : Bool
  is_closing : Bool
  is_accessing : Bool
  is_refreshing : Bool
  deriving DecidableEq, Repr

/-- Table `m_command_meta`. -/
def m_command_meta : Command → DRAMCommandMeta
  | .ACT => ⟨true, false, false, false⟩
  | .PRE => ⟨false, true, false, false⟩
  | .RD => ⟨false, false, true, false⟩
  | .WR => ⟨false, false, true, false⟩
  | .RDA => ⟨false, true, true, false⟩
  | .WRA => ⟨false, true, true, false⟩

/-- Table `m_command_scopes`. -/
def m_command_scopes : Command → Level
  | .ACT => .row
  | .PRE => .bank
  | .RD => .column
  | .WR => .column
  | .RDA => .column
  | .WRA => .column

/-- Table `m_request_translations`, indexed by the request type id in the order of
`m_requests` (read = 0, write = 1, open-row = 2, close-row = 3); any other id is
outside the table. -/
def m_request_translations (type_id : Int) : Option Command :=
  if type_id = 0 then some .RD
  else if type_id = 1 then some .WR
  else if type_id = 2 then some .ACT
  else if type_id = 3 then some .PRE
  else none

/-- Node states, in the order of `m_states`. -/
inductive State where
  | Opened
  | Closed
  | NA
  | Refreshing
  deriving DecidableEq, Repr

/-- Table `m_init_states`. -/
def m_init_states : Level → State
  | .channel => .NA
  | .rank => .NA
  | .bankgroup => .NA
  | .bank => .Closed
  | .row => .Closed
  | .column => .NA

/-- The timing vector `m_timing_vals`, one field per entry of `m_timings`. -/
structure TimingVals where
  rate : Int
  nBL : Int
  nCL : Int
  nRCD : Int
  nRP : Int
  nRAS : Int
  nRC : Int
  nWR : Int
  nRTP : Int
  nCWL : Int
  nWTR : Int
  nRTW : Int
  nCCDS : Int
  nRRDS : Int
  nFAW : Int
  tCK_ps : Int
  deriving DecidableEq, Repr

/-- The preset `Mono3D_Default` of `timing_presets`. -/
def Mono3D_Default : TimingVals :=
  ⟨2000, 1, 10, 10, 10, 24, 34, 10, 5, 8, 5, 5, 1, 4, 16, 1000⟩

/-- One entry of the list handed to `populate_timingcons`; `window` defaults to 1. -/
structure TimingConsEntry where
  level : Level
  preceding : List Command
  following : List Command
  latency : Int
  window : Nat := 1
  deriving DecidableEq, Repr

/-- The list of rules that `set_timing_vals` passes to `populate_timingcons`,
in source order. -/
def timing_cons (V : TimingVals) : List TimingConsEntry :=
  [ { level := .channel, preceding := [.ACT], following := [.ACT], latency := V.nRRDS },
    { level := .channel, preceding := [.ACT], following := [.ACT], latency := V.nFAW, window := 4 },
    { level := .channel, preceding := [.RD, .RDA], following := [.RD, .RDA], latency := V.nBL },
    { level := .channel, preceding := [.WR, .WRA], following := [.WR, .WRA], latency := V.nBL },
    { level := .channel, preceding := [.RD, .RDA], following := [.RD, .RDA], latency := V.nCCDS },
    { level := .channel, preceding := [.WR, .WRA], following := [.WR, .WRA], latency := V.nCCDS },
    { level := .channel, preceding := [.RD, .RDA], following := [.WR, .WRA], latency := V.nRTW },
    { level := .channel, preceding := [.WR, .WRA], following := [.RD, .RDA], latency := V.nWTR },
    { level := .bank, preceding := [.ACT], following := [.ACT], latency := V.nRC },
    { level := .bank, preceding := [.ACT], following := [.RD, .RDA, .WR, .WRA], latency := V.nRCD },
    { level := .bank, preceding := [.ACT], following := [.PRE], latency := V.nRAS },
    { level := .bank, preceding := [.PRE], following := [.ACT], latency := V.nRP },
    { level := .bank, preceding := [.RD], following := [.PRE], latency := V.nRTP },
    { level := .bank, preceding := [.WR], following := [.PRE], latency := V.nCWL + V.nBL + V.nWR },
    { level := .bank, preceding := [.RDA], following := [.ACT], latency := V.nRTP + V.nRP },
    { level := .bank, preceding := [.WRA], following := [.ACT],
      latency := V.nCWL + V.nBL + V.nWR + V.nRP } ]

/-! ## Device: node state and the timing engine -/

/-- Modelled from the spec: the per-node record of `DRAMNodeBase` (`dram/node.h` is not
among the sources). Section 3 gives each node a state, an optional opened row id
(banks only), the fence `next_valid_cycle[command]` and a bounded history of recent
issue cycles (most recent first) for windowed rules. -/
structure Node where
  state : State
  row_state : Option Int
  next_valid_cycle : Command → Int
  history : Command → List Int

/-- The device state: its clock, the configured timing vector and the node tree.
A node is identified by its level and the address components from the channel down
to that level, so the tree is kept as a map from that key to the node record. -/
structure Mono3D where
  m_clk : Int
  m_timing_vals : TimingVals
  nodes : List Int → Node

/-- Key of the node that an address names at a level: the components from the channel
through that level. -/
def nodeKey (l : Level) (a : AddrVec) : List Int := a.take (l.idx + 1)

/-- Replace the node stored under one key. -/
def setNode (nodes : List Int → Node) (key : List Int) (n : Node) : List Int → Node :=
  fun k => if k = key then n else nodes k

/-- Read latency computed by `set_timing_vals`: `nCL + nBL`. -/
def Mono3D.m_read_latency (d : Mono3D) : Int := d.m_timing_vals.nCL + d.m_timing_vals.nBL

/-- `Mono3D::tick`. -/
def Mono3D.tick (d : Mono3D) : Mono3D := { d with m_clk := d.m_clk + 1 }

/-- Modelled from the spec: `Lambdas::Preq::Bank::RequireRowOpen` (`dram/lambdas.h` is not
among the sources). Section 4.1: bank Closed gives ACT; Opened on the row gives the
access command itself; Opened on a different row gives PRE; Refreshing gives PRE if
a row was open and otherwise the input command. A bank is never in state N/A; the
input command is returned there. -/
def RequireRowOpen (node : Node) (cmd : Command) (a : AddrVec) : Command :=
  match node.state with
  | .Closed => .ACT
  | .Opened => if node.row_state = some (addrAt a Level.row.idx) then cmd else .PRE
  | .Refreshing => if node.row_state.isSome then .PRE else cmd
  | .NA => cmd

/-- Table filled by `set_preqs`: only the bank level has prerequisite functions, and
only for RD, WR, RDA and WRA. -/
def m_preqs : Level → Command → Option (Node → Command → AddrVec → Command)
  | .bank, .RD => some RequireRowOpen
  | .bank, .WR => some RequireRowOpen
  | .bank, .RDA => some RequireRowOpen
  | .bank, .WRA => some RequireRowOpen
  | _, _ => none

/-- `Mono3D::get_preq_command`: the walk from the channel node (not among the sources)
reaches the bank named by the address and applies its entry of `m_preqs`; a command
without an entry is its own prerequisite. -/
def Mono3D.get_preq_command (d : Mono3D) (command : Command) (a : AddrVec) : Command :=
  match m_preqs .bank command with
  | some f => f (d.nodes (nodeKey .bank a)) command a
  | none => command

/-- Key of the node of row `r` below the bank with key `bank`: rows are the children of
a bank. -/
def rowKey (bank : List Int) (r : Int) : List Int := bank ++ [r]

/-- Whether key `k` names a child of the node with key `bank`. -/
def isChildOf (k bank : List Int) : Bool := decide (k ≠ []) && decide (k.dropLast = bank)

/-- Modelled from the spec: `Lambdas::Action::Bank::ACT` (section 4.1, "bank node; rows
updated as children"). The bank becomes Opened and records the target row as its open
row, and the node of the target row becomes Opened. Nothing here closes a row that was
Opened before: an ACT on a bank Opened on another row is the violation section 7
names. -/
def Action.Bank.ACT (nodes : List Int → Node) (bank : List Int) (target_id : Int) :
    List Int → Node :=
  setNode
    (setNode nodes bank { nodes bank with state := .Opened, row_state := some target_id })
    (rowKey bank target_id) { nodes (rowKey bank target_id) with state := .Opened }

/-- Modelled from the spec: `Lambdas::Action::Bank::PRE`. The bank becomes Closed with no
open row, and every row below it becomes Closed. -/
def Action.Bank.PRE (nodes : List Int → Node) (bank : List Int) (_target_id : Int) :
    List Int → Node :=
  fun k =>
    if k = bank then { nodes k with state := .Closed, row_state := none }
    else if isChildOf k bank then { nodes k with state := .Closed }
    else nodes k

/-- Table filled by `set_actions`. An action receives the node tree, the key of the bank
it acts on and the target row. -/
def m_actions : Level → Command →
    Option ((List Int → Node) → List Int → Int → (List Int → Node))
  | .bank, .ACT => some Action.Bank.ACT
  | .bank, .PRE => some Action.Bank.PRE
  | .bank, .RDA => some Action.Bank.PRE
  | .bank, .WRA => some Action.Bank.PRE
  | _, _ => none

/-- Raise the fences of the commands in `following` to at least `future`. -/
def Node.raise (n : Node) (following : List Command) (future : Int) : Node :=
  { n with next_valid_cycle := fun f =>
      if f ∈ following then max (n.next_valid_cycle f) future else n.next_valid_cycle f }

/-- Push an issue cycle into the history ring of a command, keeping at most `k` entries. -/
def Node.push (n : Node) (c : Command) (t : Int) (k : Nat) : Node :=
  { n with history := fun x => if x = c then (t :: n.history c).take k else n.history x }

/-- Modelled from the spec: the effect of one rule of the timing table when command `c`
issues at cycle `t` on address `a` (section 4.1). Every rule whose preceding set holds
`c` acts on the node named by its level and raises the fence of each following command
to `max old (t + latency)`; a rule with window `k` above 1 additionally pushes `t` into
the history ring of `c` at that node, kept at `k` entries, which `check_ready`
consults. -/
def apply_timing_rule (c : Command) (a : AddrVec) (t : Int) (nodes : List Int → Node)
    (r : TimingConsEntry) : List Int → Node :=
  if c ∈ r.preceding then
    if r.window ≤ 1 then
      setNode nodes (nodeKey r.level a) ((nodes (nodeKey r.level a)).raise r.following (t + r.latency))
    else
      setNode nodes (nodeKey r.level a)
        (((nodes (nodeKey r.level a)).raise r.following (t + r.latency)).push c t r.window)
  else nodes

/-- Modelled from the spec: `DRAMNodeBase::update_timing`, all rules of the table applied
in order. -/
def Mono3D.update_timing (d : Mono3D) (c : Command) (a : AddrVec) (clk : Int) : Mono3D :=
  { d with nodes := (timing_cons d.m_timing_vals).foldl (apply_timing_rule c a clk) d.nodes }

/-- Modelled from the spec: `DRAMNodeBase::update_states`, the entry of `m_actions` applied
to the bank named by the address with the row component as target. -/
def Mono3D.update_states (d : Mono3D) (c : Command) (a : AddrVec) (_clk : Int) : Mono3D :=
  match m_actions .bank c with
  | some act => { d with nodes := act d.nodes (nodeKey .bank a) (addrAt a Level.row.idx) }
  | none => d

/-- `Mono3D::issue_command`: timing update, then state update, both at `m_clk`. -/
def Mono3D.issue_command (d : Mono3D) (command : Command) (a : AddrVec) : Mono3D :=
  (d.update_timing command a d.m_clk).update_states command a d.m_clk

/-- Modelled from the spec: admission of a windowed rule (section 4.1). `check_ready` at
cycle `clk` rejects when the history already holds `k` events all within the closed
interval `[clk - latency, clk]`. The ring holds the `k` most recent issue cycles, most
recent first, none of them later than the clock, so the `k` events lie in that interval
exactly when the oldest of them, entry `k - 1`, is at or after `clk - latency`
(`reachable_window_full` proves the two readings equal in every reachable state); a
ring with fewer than `k` entries admits. -/
def window_admits (n : Node) (p : Command) (k : Nat) (latency clk : Int) : Bool :=
  match (n.history p).get? (k - 1) with
  | some oldest => decide (oldest < clk - latency)
  | none => true

/-- The reading of the window rule word for word: the history of `p` holds `k` events,
and the `k` most recent all lie within `[clk - latency, clk]`. -/
def window_full (n : Node) (p : Command) (k : Nat) (latency clk : Int) : Prop :=
  k ≤ (n.history p).length ∧ ∀ e ∈ (n.history p).take k, clk - latency ≤ e ∧ e ≤ clk

/-- Modelled from the spec: what one rule of the table demands of `cmd` at address `a`.
The clock must have reached the fence of `cmd` at the node of the rule, and a rule with
a window above 1 must admit another event after each of its preceding commands. -/
def rule_admits (d : Mono3D) (cmd : Command) (a : AddrVec) (r : TimingConsEntry) : Bool :=
  if cmd ∈ r.following then
    decide ((d.nodes (nodeKey r.level a)).next_valid_cycle cmd ≤ d.m_clk) &&
      (if r.window ≤ 1 then true
       else r.preceding.all fun p =>
        window_admits (d.nodes (nodeKey r.level a)) p r.window r.latency d.m_clk)
  else true

/-- Modelled from the spec: `Mono3D::check_ready`. True iff the clock has reached the fence
of `cmd` at every node the table constrains for it and the sliding windows admit
another event. -/
def Mono3D.check_ready (d : Mono3D) (cmd : Command) (a : AddrVec) : Bool :=
  (timing_cons d.m_timing_vals).all (rule_admits d cmd a)

/-- Modelled from the spec: `Lambdas::RowHit::Bank::RDWR`, the bank is Opened on the row
named by the address. -/
def RowHit.Bank.RDWR (node : Node) (a : AddrVec) : Bool :=
  decide (node.state = .Opened) && decide (node.row_state = some (addrAt a Level.row.idx))

/-- Modelled from the spec: `Lambdas::RowOpen::Bank::RDWR`, the bank is Opened on some row. -/
def RowOpen.Bank.RDWR (node : Node) (_a : AddrVec) : Bool :=
  decide (node.state = .Opened)

/-- Table filled by `set_rowhits`: RD and WR at the bank level. -/
def m_rowhits : Level → Command → Option (Node → AddrVec → Bool)
  | .bank, .RD => some RowHit.Bank.RDWR
  | .bank, .WR => some RowHit.Bank.RDWR
  | _, _ => none

/-- Table filled by `set_rowopens`: RD and WR at the bank level. -/
def m_rowopens : Level → Command → Option (Node → AddrVec → Bool)
  | .bank, .RD => some RowOpen.Bank.RDWR
  | .bank, .WR => some RowOpen.Bank.RDWR
  | _, _ => none

/-- `Mono3D::check_rowbuffer_hit`. -/
def Mono3D.check_rowbuffer_hit (d : Mono3D) (command : Command) (a : AddrVec) : Bool :=
  match m_rowhits .bank command with
  | some f => f (d.nodes (nodeKey .bank a)) a
  | none => false

/-- `Mono3D::check_node_open`. -/
def Mono3D.check_node_open (d : Mono3D) (command : Command) (a : AddrVec) : Bool :=
  match m_rowopens .bank command with
  | some f => f (d.nodes (nodeKey .bank a)) a
  | none => false

/-- The level of the node stored under a key: the key holds the address components from
the channel down to that level. -/
def keyLevel (key : List Int) : Level :=
  match key.length with
  | 2 => .rank
  | 3 => .bankgroup
  | 4 => .bank
  | 5 => .row
  | 6 => .column
  | _ => .channel

/-- Modelled from the spec: the node tree built by `create_nodes` through the constructor
of `DRAMNodeBase`. Every node starts in the state `m_init_states` gives its level (banks
and rows Closed, the other levels N/A), with no open row, no fence and an empty
history. -/
def create_nodes : List Int → Node := fun key =>
  { state := m_init_states (keyLevel key),
    row_state := none,
    next_valid_cycle := fun _ => 0,
    history := fun _ => [] }

/-! ## Controller: data -/

/-- The fields of `Request` that the controller reads or writes. `type_id` follows
`Request::Type` (Read = 0, Write = 1). `command` and `final_command` are always
assigned before they are read, so their unset value never shows. `callback` records
whether a callback is installed. -/
structure Request where
  addr : Int
  addr_vec : AddrVec
  type_id : Int
  source_id : Int
  command : Command
  final_command : Command
  is_stat_updated : Bool
  arrive : Int
  depart : Int
  callback : Bool
  deriving DecidableEq, Repr

/-- `Request::Type::Read`. -/
def Request.Type.Read : Int := 0

/-- `Request::Type::Write`. -/
def Request.Type.Write : Int := 1

/-- Modelled from the spec: `ReqBuffer` (`dram_controller/controller.h` is not among the
sources), a queue of requests with finite capacity. -/
structure ReqBuffer where
  buffer : List Request
  max_size : Nat

/-- `ReqBuffer::size`. -/
def ReqBuffer.size (b : ReqBuffer) : Nat := b.buffer.length

/-- Modelled from the spec: `ReqBuffer::enqueue`. A buffer with free space takes the
request at its back and reports success; a full buffer reports failure and is left
as it was. -/
def ReqBuffer.enqueue (b : ReqBuffer) (r : Request) : Bool × ReqBuffer :=
  if b.size < b.max_size then (true, { b with buffer := b.buffer ++ [r] }) else (false, b)

/-- Modelled from the spec: `ReqBuffer::remove`, erase the entry an iterator points at. -/
def ReqBuffer.remove (b : ReqBuffer) (it : Nat) : ReqBuffer :=
  { b with buffer := b.buffer.eraseIdx it }

/-- Overwrite the entry an iterator points at (a write through `req_it->`). -/
def ReqBuffer.assign (b : ReqBuffer) (it : Nat) (r : Request) : ReqBuffer :=
  { b with buffer := b.buffer.set it r }

/-- The scheduler interface. `compare d r1 r2` is true when `compare(req1, req2)` returns
its second argument and false when it returns the first. -/
structure IScheduler where
  compare : Mono3D → Request → Request → Bool

/-- The row policy interface: `update(true, req_it)` may rewrite the selected request. -/
structure IRowPolicy where
  update : Mono3D → Request → Request

/-- The four request buffers a selected request can come from. -/
inductive BufId where
  | active
  | priority
  | read
  | write
  deriving DecidableEq, Repr

/-- Number of binary digits of `m`, computed by halving; `fuel` bounds the number of
halvings. -/
def bitLengthAux : Nat → Nat → Nat
  | 0, _ => 0
  | fuel + 1, m => if m = 0 then 0 else bitLengthAux fuel (m / 2) + 1

/-- Number of binary digits of `m` (0 for 0). -/
def bitLength (m : Nat) : Nat := bitLengthAux m m

/-- A value of the C++ type `float` (IEEE 754 binary32): NaN, an infinity with its sign,
or a finite value `mant * 2 ^ exp` with its sign. -/
inductive F32 where
  | nan
  | inf (neg : Bool)
  | fin (neg : Bool) (mant : Nat) (exp : Int)
  deriving DecidableEq, Repr

/-- The binary32 value nearest to `± m * 2 ^ e`, ties to the even significand: the
rounding of every `float` operation. The low `drop` bits go, so that at most 24 bits
remain and the exponent of the last place is at least -149 (the subnormal limit); a
result of magnitude `2 ^ 128` or more (it is not 0 and its bit length plus its exponent
exceeds 128) is the infinity. -/
def F32.round (neg : Bool) (m : Nat) (e : Int) : F32 :=
  let drop : Nat := max (bitLength m - 24) (-149 - e).toNat
  let q := m / 2 ^ drop
  let r := m % 2 ^ drop
  let q1 := if 2 ^ drop < 2 * r ∨ (2 * r = 2 ^ drop ∧ q % 2 = 1) then q + 1 else q
  if q1 ≠ 0 ∧ 128 < (bitLength q1 : Int) + (e + drop) then .inf neg else .fin neg q1 (e + drop)

/-- Conversion of an unsigned integer to `float`. -/
def F32.ofNat (n : Nat) : F32 := F32.round false n 0

/-- The `float` product `x * y`. -/
def F32.mul : F32 → F32 → F32
  | .fin s m e, .fin t n f => F32.round (xor s t) (m * n) (e + f)
  | .fin s m _, .inf t => if m = 0 then .nan else .inf (xor s t)
  | .inf s, .fin t n _ => if n = 0 then .nan else .inf (xor s t)
  | .inf s, .inf t => .inf (xor s t)
  | .nan, _ => .nan
  | _, .nan => .nan

/-- The integer `± m`. -/
def signed (neg : Bool) (m : Nat) : Int := if neg then -(m : Int) else (m : Int)

/-- The `float` comparison `x < y`: false when either side is NaN; finite values are
compared after scaling both to the smaller exponent. -/
def F32.lt : F32 → F32 → Bool
  | .fin s m e, .fin t n f =>
    decide (signed s (m * 2 ^ (e - min e f).toNat) < signed t (n * 2 ^ (f - min e f).toNat))
  | .fin _ _ _, .inf t => !t
  | .inf s, .fin _ _ _ => s
  | .inf s, .inf t => s && !t
  | .nan, _ => false
  | _, .nan => false

/-- The exact value `p * 2 ^ e` is a binary32 value: it needs no rounding (the bits below
the 24 leading ones are 0, the last place is not below the subnormal limit) and it is
below `2 ^ 128`. -/
def representable (p : Nat) (e : Int) : Prop :=
  p % 2 ^ (bitLength p - 24) = 0 ∧ -149 ≤ e ∧ (bitLength p : Int) + e ≤ 128

/-- The `float` literal `0.2f`, the default low watermark: `13421773 * 2 ^ (-26)`. -/
def f32_0_2 : F32 := .fin false 13421773 (-26)

/-- The `float` literal `0.8f`, the default high watermark: `13421773 * 2 ^ (-24)`. -/
def f32_0_8 : F32 := .fin false 13421773 (-24)

/-- The `float` nearest to 0.6: `10066330 * 2 ^ (-24)`. -/
def f32_0_6 : F32 := .fin false 10066330 (-24)

/-- State of `BankParallelDRAMController`. The averages written only by `finalize` are
left out. -/
structure Controller where
  m_clk : Int
  m_dram : Mono3D
  pending : List Request
  m_active_buffer : ReqBuffer
  m_priority_buffer : ReqBuffer
  m_read_buffer : ReqBuffer
  m_write_buffer : ReqBuffer
  m_bank_addr_idx : Int
  m_wr_low_watermark : F32
  m_wr_high_watermark : F32
  m_is_write_mode : Bool
  m_bank_parallel_ports : Nat
  s_row_hits : Nat
  s_row_misses : Nat
  s_row_conflicts : Nat
  s_read_row_hits : Nat
  s_read_row_misses : Nat
  s_read_row_conflicts : Nat
  s_write_row_hits : Nat
  s_write_row_misses : Nat
  s_write_row_conflicts : Nat
  s_read_row_hits_per_core : List Nat
  s_read_row_misses_per_core : List Nat
  s_read_row_conflicts_per_core : List Nat
  s_num_read_reqs : Nat
  s_num_write_reqs : Nat
  s_num_other_reqs : Nat
  s_queue_len : Nat
  s_read_queue_len : Nat
  s_write_queue_len : Nat
  s_priority_queue_len : Nat
  s_read_latency : Nat

/-- The buffer a `ReqBuffer*` points at. -/
def Controller.getBuf (c : Controller) : BufId → ReqBuffer
  | .active => c.m_active_buffer
  | .priority => c.m_priority_buffer
  | .read => c.m_read_buffer
  | .write => c.m_write_buffer

/-- Store through a `ReqBuffer*`. -/
def Controller.setBuf (c : Controller) (b : BufId) (v : ReqBuffer) : Controller :=
  match b with
  | .active => { c with m_active_buffer := v }
  | .priority => { c with m_priority_buffer := v }
  | .read => { c with m_read_buffer := v }
  | .write => { c with m_write_buffer := v }

/-! ## Controller: intake -/

/-- The `switch` of `send` that counts the request by type. -/
def Controller.count_request (c : Controller) (type_id : Int) : Controller :=
  if type_id = Request.Type.Read then { c with s_num_read_reqs := c.s_num_read_reqs + 1 }
  else if type_id = Request.Type.Write then { c with s_num_write_reqs := c.s_num_write_reqs + 1 }
  else { c with s_num_other_reqs := c.s_num_other_reqs + 1 }

/-- `BankParallelDRAMController::send`. The result is the returned flag, the request as
the caller sees it afterwards (it is passed by reference) and the new controller
state; an exception is an `error`. -/
def Controller.send (c : Controller) (req : Request) :
    Except String (Bool × Request × Controller) :=
  match m_request_translations req.type_id with
  | none => .error "request type outside m_request_translations"
  | some fc =>
    let req1 := { req with final_command := fc }
    let c1 := c.count_request req1.type_id
    if req1.type_id = Request.Type.Read ∧
        c1.m_write_buffer.buffer.any (fun wreq => decide (wreq.addr = req1.addr)) = true then
      let req2 := { req1 with depart := c1.m_clk + 1 }
      .ok (true, req2, { c1 with pending := c1.pending ++ [req2] })
    else
      let req2 := { req1 with arrive := c1.m_clk }
      if req2.type_id = Request.Type.Read then
        let r := c1.m_read_buffer.enqueue req2
        if r.1 = false then .ok (false, { req2 with arrive := -1 }, { c1 with m_read_buffer := r.2 })
        else .ok (true, req2, { c1 with m_read_buffer := r.2 })
      else if req2.type_id = Request.Type.Write then
        let r := c1.m_write_buffer.enqueue req2
        if r.1 = false then .ok (false, { req2 with arrive := -1 }, { c1 with m_write_buffer := r.2 })
        else .ok (true, req2, { c1 with m_write_buffer := r.2 })
      else .error "Invalid request type!"

/-- `BankParallelDRAMController::priority_send`. -/
def Controller.priority_send (c : Controller) (req : Request) :
    Except String (Bool × Request × Controller) :=
  match m_request_translations req.type_id with
  | none => .error "request type outside m_request_translations"
  | some fc =>
    let req1 := { req with final_command := fc }
    let r := c.m_priority_buffer.enqueue req1
    .ok (r.1, req1, { c with m_priority_buffer := r.2 })

/-! ## Controller: selection -/

/-- `BankParallelDRAMController::set_write_mode`. The watermarks are `float`, the sizes are
integers: in `size > high * max_size` and `size < low * max_size` the sizes are
converted to `float`, the product is the `float` product and the comparison is the
`float` comparison. -/
def Controller.set_write_mode (c : Controller) : Controller :=
  if c.m_is_write_mode = false then
    if F32.lt (F32.mul c.m_wr_high_watermark (F32.ofNat c.m_write_buffer.max_size))
          (F32.ofNat c.m_write_buffer.size) = true ∨
        c.m_read_buffer.size = 0 then
      { c with m_is_write_mode := true }
    else c
  else
    if F32.lt (F32.ofNat c.m_write_buffer.size)
          (F32.mul c.m_wr_low_watermark (F32.ofNat c.m_write_buffer.max_size)) = true ∧
        c.m_read_buffer.size ≠ 0 then
      { c with m_is_write_mode := false }
    else c

/-- `BankParallelDRAMController::bank_key`: the components `0 .. m_bank_addr_idx` of the
address. The source prints them into a string, each followed by a comma, which
determines the list of components and is determined by it. -/
def Controller.bank_key (c : Controller) (a : AddrVec) : List Int :=
  (List.range (c.m_bank_addr_idx + 1).toNat).map (addrAt a)

/-- `BankParallelDRAMController::violates_access_bank_parallelism`; the set of used bank
keys is kept as a list. -/
def Controller.violates_access_bank_parallelism (c : Controller) (req : Request)
    (used_access_banks : List (List Int)) : Bool :=
  if (m_command_meta req.command).is_accessing = false then false
  else decide (c.bank_key req.addr_vec ∈ used_access_banks)

/-- The first loop of `get_best_request_filtered`: every entry gets its prerequisite
command from the device. -/
def Controller.refresh_commands (c : Controller) (b : ReqBuffer) : ReqBuffer :=
  { b with buffer := b.buffer.map fun req =>
      { req with command := c.m_dram.get_preq_command req.final_command req.addr_vec } }

/-- The second loop of `get_best_request_filtered` over the entries paired with their
positions: entries that violate bank parallelism are skipped, the first one left
becomes the candidate and every later one is compared with it by the scheduler. -/
def scan_candidates (compare : Request → Request → Bool) (violates : Request → Bool) :
    List (Nat × Request) → Option (Nat × Request) → Option (Nat × Request)
  | [], candidate => candidate
  | (it, req) :: rest, candidate =>
    if violates req then scan_candidates compare violates rest candidate
    else
      match candidate with
      | none => scan_candidates compare violates rest (some (it, req))
      | some (cit, creq) =>
        scan_candidates compare violates rest
          (if compare creq req then some (it, req) else some (cit, creq))

/-- `BankParallelDRAMController::get_best_request_filtered`: the buffer as the call leaves
it, and the iterator returned (`none` is `buffer.end()`). -/
def Controller.get_best_request_filtered (sched : IScheduler) (c : Controller) (b : ReqBuffer)
    (used_access_banks : List (List Int)) : ReqBuffer × Option (Nat × Request) :=
  if b.size = 0 then (b, none)
  else
    (c.refresh_commands b,
      scan_candidates (sched.compare c.m_dram)
        (fun req => c.violates_access_bank_parallelism req used_access_banks)
        (c.refresh_commands b).buffer.enum none)

/-- The inner loop of the hazard filter: two address vectors match when, at every level
from the channel through the bank, the components are equal or one is `-1`. -/
def Controller.is_matching (c : Controller) (it_rowgroup rowgroup : AddrVec) : Bool :=
  (List.range (c.m_bank_addr_idx + 1).toNat).all fun i =>
    !(addrAt it_rowgroup i != addrAt rowgroup i && addrAt it_rowgroup i != -1 &&
      addrAt rowgroup i != -1)

/-- A selected request: the buffer `req_buffer` points at, the iterator `req_it` and the
request it points at. -/
structure Selected where
  req_buffer : BufId
  req_it : Nat
  req : Request
  deriving DecidableEq, Repr

/-- The hazard filter at the end of `schedule_request_filtered`: a found request whose
command is closing is dropped when an entry of the active buffer matches its address.
`none` is `request_found == false`. -/
def Controller.hazard_filter (c : Controller) (found : Option Selected) : Option Selected :=
  match found with
  | some s =>
    if (m_command_meta s.req.command).is_closing then
      if c.m_active_buffer.buffer.any (fun e => c.is_matching e.addr_vec s.req.addr_vec) then none
      else some s
    else some s
  | none => none

/-- The active-buffer step of `schedule_request_filtered`. -/
def Controller.select_active (sched : IScheduler) (c : Controller)
    (used_access_banks : List (List Int)) : Option Selected × Controller :=
  let r := c.get_best_request_filtered sched c.m_active_buffer used_access_banks
  let c1 := { c with m_active_buffer := r.1 }
  match r.2 with
  | some (it, req) =>
    if c1.m_dram.check_ready req.command req.addr_vec then (some ⟨.active, it, req⟩, c1)
    else (none, c1)
  | none => (none, c1)

/-- The read/write step of `schedule_request_filtered`. -/
def Controller.select_read_write (sched : IScheduler) (c : Controller)
    (used_access_banks : List (List Int)) : Option Selected × Controller :=
  let c1 := c.set_write_mode
  let b : BufId := if c1.m_is_write_mode then .write else .read
  let r := c1.get_best_request_filtered sched (c1.getBuf b) used_access_banks
  let c2 := c1.setBuf b r.1
  match r.2 with
  | some (it, req) =>
    if c2.m_dram.check_ready req.command req.addr_vec then (some ⟨b, it, req⟩, c2)
    else (none, c2)
  | none => (none, c2)

/-- `BankParallelDRAMController::schedule_request_filtered`: the selected request when the
call returns true (`none` when it returns false), and the controller as the call
leaves it. -/
def Controller.schedule_request_filtered (sched : IScheduler) (c : Controller)
    (used_access_banks : List (List Int)) : Option Selected × Controller :=
  let ra := c.select_active sched used_access_banks
  match ra.1 with
  | some s => (ra.2.hazard_filter (some s), ra.2)
  | none =>
    match ra.2.m_priority_buffer.buffer with
    | head :: rest =>
      let req : Request := { head with
        command := ra.2.m_dram.get_preq_command head.final_command head.addr_vec }
      let c2 : Controller := { ra.2 with
        m_priority_buffer := { ra.2.m_priority_buffer with buffer := req :: rest } }
      let request_found := c2.m_dram.check_ready req.command req.addr_vec
      if ((!request_found) && decide (c2.m_priority_buffer.size ≠ 0)) = true then (none, c2)
      else if request_found = false then
        let rw := c2.select_read_write sched used_access_banks
        (rw.2.hazard_filter rw.1, rw.2)
      else (c2.hazard_filter (some ⟨.priority, 0, req⟩), c2)
    | [] =>
      let rw := ra.2.select_read_write sched used_access_banks
      (rw.2.hazard_filter rw.1, rw.2)

/-! ## Controller: the cycle -/

/-- Add one to the counter of a core, as `counters[source_id]++` does. -/
def bump_core (counters : List Nat) (source_id : Int) : List Nat :=
  match counters[source_id.toNat]? with
  | some v => counters.set source_id.toNat (v + 1)
  | none => counters

/-- `BankParallelDRAMController::update_request_stats`: the request with its latch set and
the controller with the counters credited. -/
def Controller.update_request_stats (c : Controller) (req : Request) : Request × Controller :=
  let req1 := { req with is_stat_updated := true }
  if req1.type_id = Request.Type.Read then
    if c.m_dram.check_rowbuffer_hit req1.final_command req1.addr_vec then
      (req1, { c with
        s_read_row_hits := c.s_read_row_hits + 1,
        s_row_hits := c.s_row_hits + 1,
        s_read_row_hits_per_core :=
          if req1.source_id ≠ -1 then bump_core c.s_read_row_hits_per_core req1.source_id
          else c.s_read_row_hits_per_core })
    else if c.m_dram.check_node_open req1.final_command req1.addr_vec then
      (req1, { c with
        s_read_row_conflicts := c.s_read_row_conflicts + 1,
        s_row_conflicts := c.s_row_conflicts + 1,
        s_read_row_conflicts_per_core :=
          if req1.source_id ≠ -1 then bump_core c.s_read_row_conflicts_per_core req1.source_id
          else c.s_read_row_conflicts_per_core })
    else
      (req1, { c with
        s_read_row_misses := c.s_read_row_misses + 1,
        s_row_misses := c.s_row_misses + 1,
        s_read_row_misses_per_core :=
          if req1.source_id ≠ -1 then bump_core c.s_read_row_misses_per_core req1.source_id
          else c.s_read_row_misses_per_core })
  else if req1.type_id = Request.Type.Write then
    if c.m_dram.check_rowbuffer_hit req1.final_command req1.addr_vec then
      (req1, { c with s_write_row_hits := c.s_write_row_hits + 1, s_row_hits := c.s_row_hits + 1 })
    else if c.m_dram.check_node_open req1.final_command req1.addr_vec then
      (req1, { c with
        s_write_row_conflicts := c.s_write_row_conflicts + 1,
        s_row_conflicts := c.s_row_conflicts + 1 })
    else
      (req1, { c with
        s_write_row_misses := c.s_write_row_misses + 1,
        s_row_misses := c.s_row_misses + 1 })
  else (req1, c)

/-- `BankParallelDRAMController::serve_completed_pending`: the controller afterwards and
the request whose callback was invoked, if any. -/
def Controller.serve_completed_pending (c : Controller) : Controller × Option Request :=
  match c.pending with
  | [] => (c, none)
  | req :: rest =>
    if req.depart > c.m_clk then (c, none)
    else
      let c1 :=
        if req.type_id = Request.Type.Read ∧ req.depart - req.arrive > 1 then
          { c with s_read_latency := c.s_read_latency + (req.depart - req.arrive).toNat }
        else c
      ({ c1 with pending := rest }, if req.callback then some req else none)

/-- The part of one iteration of the issue loop of `tick` that follows the row policy and
the plugins, for the selected request `req` at `it` in buffer `b`: statistics, the
device command, the bank bookkeeping, and the move of the request to `pending` or to
the active buffer. The result is the controller, the set of used banks and the command
given to `issue_command` with its address. -/
def Controller.issue_selected (c : Controller) (used_access_banks : List (List Int))
    (b : BufId) (it : Nat) (req : Request) :
    Controller × List (List Int) × (Command × AddrVec) :=
  let su := if req.is_stat_updated = false then c.update_request_stats req else (req, c)
  let req1 := su.1
  let command := req1.command
  let c1 := { su.2 with m_dram := su.2.m_dram.issue_command command req1.addr_vec }
  let used :=
    if (m_command_meta command).is_accessing then c1.bank_key req1.addr_vec :: used_access_banks
    else used_access_banks
  if command = req1.final_command then
    if req1.type_id = Request.Type.Read then
      let req2 := { req1 with depart := c1.m_clk + c1.m_dram.m_read_latency }
      let c2 := { c1 with pending := c1.pending ++ [req2] }
      (c2.setBuf b ((c2.getBuf b).remove it), used, (command, req1.addr_vec))
    else if req1.type_id = Request.Type.Write then
      let req2 := { req1 with depart := c1.m_clk + 1 }
      let c2 := { c1 with pending := c1.pending ++ [req2] }
      (c2.setBuf b ((c2.getBuf b).remove it), used, (command, req1.addr_vec))
    else (c1.setBuf b ((c1.getBuf b).remove it), used, (command, req1.addr_vec))
  else
    let c2 := c1.setBuf b ((c1.getBuf b).assign it req1)
    if (m_command_meta command).is_opening then
      let r := c2.m_active_buffer.enqueue req1
      if r.1 then
        let c3 := { c2 with m_active_buffer := r.2 }
        (c3.setBuf b ((c3.getBuf b).remove it), used, (command, req1.addr_vec))
      else (c2, used, (command, req1.addr_vec))
    else (c2, used, (command, req1.addr_vec))

/-- The outcome of one iteration of the issue loop. -/
structure SlotOutcome where
  ctrl : Controller
  used_access_banks : List (List Int)
  issued : Option (Command × AddrVec)

/-- One iteration of the issue loop of `tick`: selection, the row policy update of the
selected request (plugins only observe), then `issue_selected`. `issued = none` is
the `break`. -/
def Controller.issue_slot (sched : IScheduler) (rowpolicy : IRowPolicy) (c : Controller)
    (used_access_banks : List (List Int)) : SlotOutcome :=
  let r := c.schedule_request_filtered sched used_access_banks
  match r.1 with
  | none => ⟨r.2, used_access_banks, none⟩
  | some s =>
    let o := r.2.issue_selected used_access_banks s.req_buffer s.req_it
      (rowpolicy.update r.2.m_dram s.req)
    ⟨o.1, o.2.1, some o.2.2⟩

/-- The issue loop of `tick` with `budget` iterations left: the controller afterwards and
the commands given to `issue_command`, in order. -/
def Controller.issue_loop (sched : IScheduler) (rowpolicy : IRowPolicy) :
    Nat → Controller → List (List Int) → Controller × List (Command × AddrVec)
  | 0, c, _ => (c, [])
  | budget + 1, c, used_access_banks =>
    match (c.issue_slot sched rowpolicy used_access_banks).issued with
    | none => ((c.issue_slot sched rowpolicy used_access_banks).ctrl, [])
    | some cmd =>
      let rest := Controller.issue_loop sched rowpolicy budget
        (c.issue_slot sched rowpolicy used_access_banks).ctrl
        (c.issue_slot sched rowpolicy used_access_banks).used_access_banks
      (rest.1, cmd :: rest.2)

/-- What one call of `tick` does: the controller afterwards, the commands given to the
device and the request whose callback ran. -/
structure TickResult where
  ctrl : Controller
  issued : List (Command × AddrVec)
  fired : Option Request

/-- `BankParallelDRAMController::tick`; the refresh manager is `NoRefresh`, whose `tick`
does nothing. -/
def Controller.tick (sched : IScheduler) (rowpolicy : IRowPolicy) (c : Controller) : TickResult :=
  let c1 := { c with m_clk := c.m_clk + 1 }
  let c2 := { c1 with
    s_queue_len := c1.s_queue_len + (c1.m_read_buffer.size + c1.m_write_buffer.size +
      c1.m_priority_buffer.size + c1.pending.length),
    s_read_queue_len := c1.s_read_queue_len + (c1.m_read_buffer.size + c1.pending.length),
    s_write_queue_len := c1.s_write_queue_len + c1.m_write_buffer.size,
    s_priority_queue_len := c1.s_priority_queue_len + c1.m_priority_buffer.size }
  let sp := c2.serve_completed_pending
  let issue_budget := max 1 sp.1.m_bank_parallel_ports
  let r := Controller.issue_loop sched rowpolicy issue_budget sp.1 []
  ⟨r.1, r.2, sp.2⟩

/-! ## Notions used in the statements -/

/-- A request with its `command` field put to a fixed value. The selection rewrites
`command` in the buffers it scans; two requests with the same image here are the same
request up to that field. -/
def Request.forget_command (r : Request) : Request := { r with command := .ACT }

/-- The requests a buffer holds, in order, up to their `command` fields. -/
def ReqBuffer.entries (b : ReqBuffer) : List Request := b.buffer.map Request.forget_command

/-- What a selection leaves alone: the clock, the device, `pending`, the bank index, the
port count, the statistics counters read by the theorems, and in every buffer the
capacity and the requests held (up to their `command` fields). -/
def Controller.selection_frame (c c1 : Controller) : Prop :=
  c1.m_clk = c.m_clk ∧ c1.m_dram = c.m_dram ∧ c1.pending = c.pending ∧
  c1.m_bank_addr_idx = c.m_bank_addr_idx ∧
  c1.m_bank_parallel_ports = c.m_bank_parallel_ports ∧
  ∀ b : BufId, (c1.getBuf b).entries = (c.getBuf b).entries ∧
    (c1.getBuf b).max_size = (c.getBuf b).max_size

/-- Two controller states that agree on everything the issue loop reads: the clock, the
device, the four buffers, the bank index, the watermarks, the mode and the port count.
They may differ in `pending` and in the statistics counters. -/
def Controller.same_issue_state (c c1 : Controller) : Prop :=
  c1.m_clk = c.m_clk ∧ c1.m_dram = c.m_dram ∧
  c1.m_active_buffer = c.m_active_buffer ∧ c1.m_priority_buffer = c.m_priority_buffer ∧
  c1.m_read_buffer = c.m_read_buffer ∧ c1.m_write_buffer = c.m_write_buffer ∧
  c1.m_bank_addr_idx = c.m_bank_addr_idx ∧ c1.m_wr_low_watermark = c.m_wr_low_watermark ∧
  c1.m_wr_high_watermark = c.m_wr_high_watermark ∧ c1.m_is_write_mode = c.m_is_write_mode ∧
  c1.m_bank_parallel_ports = c.m_bank_parallel_ports

/-! ## Example states -/

/-- A device just initialised with the default timing preset. -/
def fresh_dram : Mono3D := ⟨0, Mono3D_Default, create_nodes⟩

/-- The address of the cold-read scenario: bank 3, row 7. -/
def addr_b3_r7 : AddrVec := [0, 0, 0, 3, 7, 0]

/-- The fresh device after an ACT on bank 3, row 7. -/
def dram_b3_open : Mono3D := fresh_dram.issue_command .ACT addr_b3_r7


/-- A controller just set up on the fresh device: empty buffers of capacity 32, the
priority buffer of capacity `512 * 3 + 32`, default watermarks, one port. -/
def idle_ctrl : Controller :=
  { m_clk := 0, m_dram := fresh_dram, pending := [],
    m_active_buffer := ⟨[], 32⟩, m_priority_buffer := ⟨[], 512 * 3 + 32⟩,
    m_read_buffer := ⟨[], 32⟩, m_write_buffer := ⟨[], 32⟩,
    m_bank_addr_idx := 3, m_wr_low_watermark := f32_0_2, m_wr_high_watermark := f32_0_8,
    m_is_write_mode := false, m_bank_parallel_ports := 1,
    s_row_hits := 0, s_row_misses := 0, s_row_conflicts := 0,
    s_read_row_hits := 0, s_read_row_misses := 0, s_read_row_conflicts := 0,
    s_write_row_hits := 0, s_write_row_misses := 0, s_write_row_conflicts := 0,
    s_read_row_hits_per_core := [0], s_read_row_misses_per_core := [0],
    s_read_row_conflicts_per_core := [0],
    s_num_read_reqs := 0, s_num_write_reqs := 0, s_num_other_reqs := 0,
    s_queue_len := 0, s_read_queue_len := 0, s_write_queue_len := 0,
    s_priority_queue_len := 0, s_read_latency := 0 }

/-- A request as the front end creates it: no commands chosen yet (the fields hold a
placeholder), `arrive` and `depart` at the sentinel `-1`. -/
def mk_request (type_id addr : Int) (addr_vec : AddrVec) : Request :=
  { addr := addr, addr_vec := addr_vec, type_id := type_id, source_id := 0,
    command := .ACT, final_command := .ACT, is_stat_updated := false,
    arrive := -1, depart := -1, callback := true }

/-- A read of bank 3, row 7. -/
def read_b3_r7 : Request := mk_request Request.Type.Read 1792 addr_b3_r7

/-- A write to bank 3, row 7 (the same address as `read_b3_r7`). -/
def write_b3_r7 : Request := mk_request Request.Type.Write 1792 addr_b3_r7

/-- The idle controller at clock 5 with one write to bank 3, row 7 waiting in the write
buffer. -/
def ctrl_with_write : Controller :=
  { idle_ctrl with
    m_clk := 5,
    m_write_buffer := ⟨[({ write_b3_r7 with final_command := .WR, arrive := 2 } : Request)], 32⟩ }

/-- An open-row request (type id 2 of `m_requests`) for bank 3, row 7, as `priority_send`
stores it: `final_command` ACT. -/
def open_row_b3_r7 : Request := { mk_request 2 1792 addr_b3_r7 with final_command := .ACT }

/-- The idle controller at clock 5 after `priority_send` of the open-row request. -/
def ctrl_open_row : Controller :=
  { idle_ctrl with
    m_clk := 5,
    m_priority_buffer := ⟨[open_row_b3_r7], 512 * 3 + 32⟩ }

/-- A controller in write mode with the low watermark at the `float` nearest to 0.6, one
read waiting, and `writes` writes in a write buffer of capacity `capacity`. -/
def ctrl_low_watermark (capacity writes : Nat) : Controller :=
  { idle_ctrl with
    m_is_write_mode := true,
    m_wr_low_watermark := f32_0_6,
    m_read_buffer := ⟨[read_b3_r7], 32⟩,
    m_write_buffer := ⟨List.replicate writes write_b3_r7, capacity⟩ }

/-- The idle controller at clock 5 whose read buffer, of capacity 1, is full. -/
def ctrl_read_full : Controller :=
  { idle_ctrl with
    m_clk := 5,
    m_read_buffer := ⟨[({ read_b3_r7 with final_command := .RD, arrive := 2 } : Request)], 1⟩ }

/-- A scheduler that prefers the request that arrived first. -/
def fcfs : IScheduler := ⟨fun _ req1 req2 => decide (req2.arrive < req1.arrive)⟩

/-- The row policy that leaves the selected request as it is. -/
def keep_row_open : IRowPolicy := ⟨fun _ req => req⟩

/-- The device at cycle 30 with row 7 open in bank 3 (since cycle 0) and row 1 open in
bank 2 (since cycle 4), right after a RD on bank 2 issued at cycle 30: a WR is fenced
until 30 + nRTW, a PRE on bank 3 has been allowed since 0 + nRAS. -/
def dram_after_read : Mono3D :=
  ({ ({ (fresh_dram.issue_command .ACT addr_b3_r7) with m_clk := 4 } : Mono3D).issue_command
      .ACT [0, 0, 0, 2, 1, 0] with m_clk := 30 } : Mono3D).issue_command .RD [0, 0, 0, 2, 1, 0]

/-- A controller on `dram_after_read`: the active buffer holds a write to the open row 7
of bank 3 (its WR is not ready yet), the priority buffer a read of row 8 of bank 3,
which needs a PRE first. -/
def ctrl_hazard : Controller :=
  { idle_ctrl with
    m_clk := 30,
    m_dram := dram_after_read,
    m_active_buffer := ⟨[({ write_b3_r7 with final_command := .WR, arrive := 2 } : Request)], 32⟩,
    m_priority_buffer :=
      ⟨[({ mk_request Request.Type.Read 2048 [0, 0, 0, 3, 8, 0] with
            final_command := .RD, arrive := 3 } : Request)], 512 * 3 + 32⟩ }

/-- As `ctrl_hazard`, but the write in the active buffer goes to the open row 1 of
bank 2. -/
def ctrl_priority_pre : Controller :=
  { ctrl_hazard with
    m_active_buffer :=
      ⟨[({ mk_request Request.Type.Write 513 [0, 0, 0, 2, 1, 1] with
            final_command := .WR, arrive := 2 } : Request)], 32⟩ }

/-- The read of row 8 of bank 3 at the head of the priority buffer of `ctrl_hazard`, with
PRE as its prerequisite command. -/
def read_b3_r8_pre : Request :=
  { mk_request Request.Type.Read 2048 [0, 0, 0, 3, 8, 0] with
    final_command := .RD, arrive := 3, command := .PRE }

/-- The device at cycle 30 with row 7 of bank 3 open since cycle 0: every fence has
elapsed. -/
def dram_b3_ready : Mono3D := { dram_b3_open with m_clk := 30 }

/-- The read `read_b3_r7` as a buffer holds it after `send` at clock 29. -/
def read_b3_r7_queued : Request := { read_b3_r7 with final_command := .RD, arrive := 29 }

/-- A controller at clock 31 on `dram_b3_ready` whose read buffer holds one read of the
open row. -/
def ctrl_row_hit : Controller :=
  { idle_ctrl with
    m_clk := 31,
    m_dram := dram_b3_ready,
    m_read_buffer := ⟨[read_b3_r7_queued], 32⟩ }

/-- The default timings with a burst length and a CAS-to-CAS gap of zero cycles: the
channel rules then leave a RD ready in the cycle of another RD. -/
def timing_zero_gap : TimingVals := { Mono3D_Default with nBL := 0, nCCDS := 0 }

/-- A device with the timings `timing_zero_gap` at cycle 30, row 7 of bank 3 open since
cycle 0. -/
def dram_zero_gap : Mono3D :=
  { (({ fresh_dram with m_timing_vals := timing_zero_gap } : Mono3D).issue_command
      .ACT addr_b3_r7) with m_clk := 30 }

/-- A controller with two ports on `dram_zero_gap` whose priority buffer holds two reads
of the open row 7 of bank 3 (columns 0 and 1). -/
def ctrl_two_priority_reads : Controller :=
  { idle_ctrl with
    m_clk := 30,
    m_dram := dram_zero_gap,
    m_bank_parallel_ports := 2,
    m_priority_buffer :=
      ⟨[({ mk_request Request.Type.Read 1792 [0, 0, 0, 3, 7, 0] with
            final_command := .RD } : Request),
        ({ mk_request Request.Type.Read 1793 [0, 0, 0, 3, 7, 1] with
            final_command := .RD } : Request)], 512 * 3 + 32⟩ }

/-- The idle controller at clock 1 (device fresh, bank 3 Closed) whose read buffer holds
one read of bank 3, row 7, sent at clock 0. -/
def ctrl_cold_read : Controller :=
  { idle_ctrl with
    m_clk := 1,
    m_read_buffer := ⟨[({ read_b3_r7 with final_command := .RD, arrive := 0 } : Request)], 32⟩ }

/-! ## Device traces and the table of the specification -/

/-- Device states reachable from initialisation (any timing vector, the node tree of
`create_nodes`) by `tick` and `issue_command`. -/
inductive Mono3D.Reachable : Mono3D → Prop where
  | init (tv : TimingVals) : Mono3D.Reachable ⟨0, tv, create_nodes⟩
  | tick {d : Mono3D} : Mono3D.Reachable d → Mono3D.Reachable d.tick
  | issue {d : Mono3D} (cmd : Command) (a : AddrVec) :
      Mono3D.Reachable d → Mono3D.Reachable (d.issue_command cmd a)

/-- Device states reachable from initialisation by `tick` and by `issue_command` on
addresses of six components, where every ACT is issued on a bank that is Closed: the one
case in which `RequireRowOpen` asks for an ACT (section 4.1, "precondition enforced by
prerequisite"). -/
inductive Mono3D.ReachableUnderContract : Mono3D → Prop where
  | init (tv : TimingVals) : Mono3D.ReachableUnderContract ⟨0, tv, create_nodes⟩
  | tick {d : Mono3D} : Mono3D.ReachableUnderContract d → Mono3D.ReachableUnderContract d.tick
  | issue {d : Mono3D} (cmd : Command) (a : AddrVec) :
      a.length = 6 → (cmd = .ACT → (d.nodes (nodeKey .bank a)).state = .Closed) →
      Mono3D.ReachableUnderContract d → Mono3D.ReachableUnderContract (d.issue_command cmd a)

/-- Row `r` of the bank with key `bank` is in the Opened state. -/
def Mono3D.row_opened (d : Mono3D) (bank : List Int) (r : Int) : Prop :=
  (d.nodes (rowKey bank r)).state = .Opened

instance (d : Mono3D) (bank : List Int) (r : Int) : Decidable (d.row_opened bank r) := by
  unfold Mono3D.row_opened
  infer_instance

/-- The timing constraint table as section 4.1 of the specification prints it, row by row:
level, preceding set, following set, latency, window. -/
def spec_timing_table (V : TimingVals) : List TimingConsEntry :=
  [ ⟨.channel, [.ACT], [.ACT], V.nRRDS, 1⟩,
    ⟨.channel, [.ACT], [.ACT], V.nFAW, 4⟩,
    ⟨.channel, [.RD, .RDA], [.RD, .RDA], V.nBL, 1⟩,
    ⟨.channel, [.WR, .WRA], [.WR, .WRA], V.nBL, 1⟩,
    ⟨.channel, [.RD, .RDA], [.RD, .RDA], V.nCCDS, 1⟩,
    ⟨.channel, [.WR, .WRA], [.WR, .WRA], V.nCCDS, 1⟩,
    ⟨.channel, [.RD, .RDA], [.WR, .WRA], V.nRTW, 1⟩,
    ⟨.channel, [.WR, .WRA], [.RD, .RDA], V.nWTR, 1⟩,
    ⟨.bank, [.ACT], [.ACT], V.nRC, 1⟩,
    ⟨.bank, [.ACT], [.RD, .RDA, .WR, .WRA], V.nRCD, 1⟩,
    ⟨.bank, [.ACT], [.PRE], V.nRAS, 1⟩,
    ⟨.bank, [.PRE], [.ACT], V.nRP, 1⟩,
    ⟨.bank, [.RD], [.PRE], V.nRTP, 1⟩,
    ⟨.bank, [.WR], [.PRE], V.nCWL + V.nBL + V.nWR, 1⟩,
    ⟨.bank, [.RDA], [.ACT], V.nRTP + V.nRP, 1⟩,
    ⟨.bank, [.WRA], [.ACT], V.nCWL + V.nBL + V.nWR + V.nRP, 1⟩ ]

/-- One step of a device trace: a clock tick, or a command issued at an address. -/
inductive DeviceEvent where
  | tick
  | issue (cmd : Command) (a : AddrVec)

/-- A trace run on the device. A command is issued only when `check_ready` holds for it;
a trace that issues a command that is not ready is not a run (`none`). -/
def Mono3D.run : Mono3D → List DeviceEvent → Option Mono3D
  | d, [] => some d
  | d, .tick :: es => d.tick.run es
  | d, .issue cmd a :: es =>
    if d.check_ready cmd a then (d.issue_command cmd a).run es else none

/-- The cycles, in order of time, at which a trace that starts at cycle `clk` issues its
ACT commands on the channel with key `ch`. -/
def act_cycles (ch : List Int) : Int → List DeviceEvent → List Int
  | _, [] => []
  | clk, .tick :: es => act_cycles ch (clk + 1) es
  | clk, .issue cmd a :: es =>
    if cmd = .ACT ∧ nodeKey .channel a = ch then clk :: act_cycles ch clk es
    else act_cycles ch clk es

/-- Five ACTs on banks 0 to 4 of channel 0, sixteen cycles apart (at cycles 0, 16, 32,
48 and 64 when started at cycle 0). -/
def five_act_trace : List DeviceEvent :=
  .issue .ACT [0, 0, 0, 0, 1, 0] :: List.replicate 16 .tick ++
  (.issue .ACT [0, 0, 0, 1, 1, 0] :: List.replicate 16 .tick ++
  (.issue .ACT [0, 0, 0, 2, 1, 0] :: List.replicate 16 .tick ++
  (.issue .ACT [0, 0, 0, 3, 1, 0] :: List.replicate 16 .tick ++
  [.issue .ACT [0, 0, 0, 4, 1, 0]])))

/-- An ACT on row 7 of bank 3, thirty-four cycles (`nRC` of the default timings), then an
ACT on row 8 of the same bank. -/
def two_act_trace : List DeviceEvent :=
  .issue .ACT [0, 0, 0, 3, 7, 0] :: List.replicate 34 .tick ++ [.issue .ACT [0, 0, 0, 3, 8, 0]]

/-- The timing vector of the default preset with `nRRDS` and `nFAW` set to 0: the fences
let ACTs on different banks follow each other in the same cycle, so only the window of
four bounds them. -/
def timing_zero_faw : TimingVals := { Mono3D_Default with nRRDS := 0, nFAW := 0 }

/-- Four ACTs on banks 0 to 3 of channel 0 in one cycle, then an ACT on bank 4 in the
next cycle. -/
def four_acts_one_cycle : List DeviceEvent :=
  [.issue .ACT [0, 0, 0, 0, 1, 0], .issue .ACT [0, 0, 0, 1, 1, 0],
   .issue .ACT [0, 0, 0, 2, 1, 0], .issue .ACT [0, 0, 0, 3, 1, 0], .tick,
   .issue .ACT [0, 0, 0, 4, 1, 0]]

/-- Five ACTs on banks 0 to 4 of channel 0, all in one cycle. -/
def five_acts_one_cycle : List DeviceEvent :=
  [.issue .ACT [0, 0, 0, 0, 1, 0], .issue .ACT [0, 0, 0, 1, 1, 0],
   .issue .ACT [0, 0, 0, 2, 1, 0], .issue .ACT [0, 0, 0, 3, 1, 0],
   .issue .ACT [0, 0, 0, 4, 1, 0]]

/-! ## Controller traces -/

/-- One step of a controller trace: a request handed to `send`, a `tick` of the
controller, or a `tick` of its device (the memory system drives both clocks). -/
inductive CtrlEvent where
  | send (req : Request)
  | tick
  | dram_tick

/-- The callbacks invoked along a trace, each with the controller clock of the tick that
invoked it. A `send` that throws ends the simulation. -/
def Controller.fired_along (sched : IScheduler) (rowpolicy : IRowPolicy) :
    Controller → List CtrlEvent → List (Int × Request)
  | _, [] => []
  | c, .send req :: es =>
    match c.send req with
    | .ok r => Controller.fired_along sched rowpolicy r.2.2 es
    | .error _ => []
  | c, .tick :: es =>
    (match (c.tick sched rowpolicy).fired with
      | some req => [((c.tick sched rowpolicy).ctrl.m_clk, req)]
      | none => []) ++
      Controller.fired_along sched rowpolicy (c.tick sched rowpolicy).ctrl es
  | c, .dram_tick :: es =>
    Controller.fired_along sched rowpolicy { c with m_dram := c.m_dram.tick } es

/-- The bookkeeping of arrival times that every state of a trace satisfies, for the
timing vector `tv` of the device: the clock is not negative; a buffered request
arrived no later than now; a pending request arrived no later than now and, when it
is a Read that went through the read buffer (its `arrive` is not the sentinel `-1`),
departs no earlier than `arrive + nCL + nBL`. -/
def Controller.arrivals_ok (tv : TimingVals) (c : Controller) : Prop :=
  0 ≤ c.m_clk ∧ c.m_dram.m_timing_vals = tv ∧
  (∀ (b : BufId) (r : Request), r ∈ (c.getBuf b).buffer → r.arrive ≤ c.m_clk) ∧
  (∀ r : Request, r ∈ c.pending → r.arrive ≤ c.m_clk ∧
    (r.type_id = Request.Type.Read → r.arrive ≠ -1 → r.arrive + (tv.nCL + tv.nBL) ≤ r.depart))

/-- A write to bank 3, row 7, then a read of the same address, then two controller
ticks. -/
def write_then_read_trace : List CtrlEvent :=
  [.send write_b3_r7, .send read_b3_r7, .tick, .tick]

/-! ## Device configuration -/

/-- `Organization` (declared outside the sources): density in Mb, data width `dq`, and
one count per level. -/
structure Organization where
  density : Int
  dq : Int
  count : List Int
  deriving DecidableEq, Repr

/-- The table `org_presets`. -/
def org_presets (name : String) : Option Organization :=
  if name = "Mono3D_DefaultOrg" then some ⟨0, 256, [1, 1, 1, 8, 1 <<< 10, 1 <<< 8]⟩ else none

/-- The table `timing_presets`, as the vectors of the source. -/
def timing_presets (name : String) : Option (List Int) :=
  if name = "Mono3D_Default" then
    some [2000, 1, 10, 10, 10, 24, 34, 10, 5, 8, 5, 5, 1, 4, 16, 1000]
  else none

/-- The options of the group `org`, each as `param(...).optional()` returns it; `count i`
is the option named after level `i`. -/
structure OrgParams where
  preset : Option String
  dq : Option Int
  count : Nat → Option Int
  density : Option Int

/-- The options of the group `timing`: `cycles i` is the option `n<Name>` of entry `i` of
`m_timings` and `ns i` the option `t<Name>` (a `float` in the source, a rational
number here). -/
structure TimingParams where
  preset : Option String
  rate : Option Int
  cycles : Nat → Option Int
  ns : Nat → Option ℚ
  tCK_ps : Option Int

/-- Conversion `size_t(x)` of an `int`: the value modulo `2^64`. -/
def to_size_t (x : Int) : Nat := (x % 2 ^ 64).toNat

/-- Conversion `static_cast<int>(n)` of a `size_t`: the value modulo `2^32`, read as a
signed number. -/
def to_int (n : Nat) : Int :=
  if n % 2 ^ 32 < 2 ^ 31 then ((n % 2 ^ 32 : Nat) : Int) else ((n % 2 ^ 32 : Nat) : Int) - 2 ^ 32

/-- The organization after the preset, `dq`, the level counts and the density have been
applied, before any check: the first half of `set_organization`. `m_organization` is the
member as constructed; its count vector is resized to six entries filled with `-1`. An
unknown preset name throws. -/
def org_after_overrides (m_organization : Organization) (p : OrgParams) :
    Except String Organization :=
  let org0 : Organization :=
    { m_organization with
      count := (m_organization.count ++
        List.replicate (6 - m_organization.count.length) (-1)).take 6 }
  match (match p.preset with
      | some name =>
        match org_presets name with
        | some o => Except.ok o
        | none => Except.error "Unrecognized organization preset!"
      | none => Except.ok org0) with
  | .error e => .error e
  | .ok org1 =>
    let org2 : Organization :=
      match p.dq with
      | some dq => { org1 with dq := dq }
      | none => org1
    let count3 : List Int := (List.range 6).foldl
      (fun count i =>
        match p.count i with
        | some sz => count.set i sz
        | none => count) org2.count
    let org3 : Organization := { org2 with count := count3 }
    match p.density with
    | some density => .ok { org3 with density := density }
    | none => .ok org3

/-- The density in Mb that `set_organization` calculates: the product of the counts from
rank to column and of `dq`, in `size_t` arithmetic, shifted right by 20. -/
def calc_density_mb (org : Organization) : Nat :=
  (to_size_t (org.count.getD Level.rank.idx 0) * to_size_t (org.count.getD Level.bankgroup.idx 0) *
    to_size_t (org.count.getD Level.bank.idx 0) * to_size_t (org.count.getD Level.row.idx 0) *
    to_size_t (org.count.getD Level.column.idx 0) * to_size_t org.dq) % 2 ^ 64 / 2 ^ 20

/-- `Mono3D::set_organization`: the overrides, then the check that every count is
specified, then the density derived or compared. -/
def set_organization (m_organization : Organization) (p : OrgParams) :
    Except String Organization :=
  match org_after_overrides m_organization p with
  | .error e => .error e
  | .ok org =>
    if (List.range 6).any (fun i => org.count.getD i (-1) == -1) then
      .error "organization is not specified!"
    else if org.density ≤ 0 then .ok { org with density := to_int (calc_density_mb org) }
    else if to_size_t org.density ≠ calc_density_mb org then
      .error "Calculated channel density does not equal the provided density!"
    else .ok org

/-- The statement `int tCK_ps = 1E6 / (rate / 2)`: an integer division of the rate, then a
division in double precision truncated to `int`. For a divisor that is not zero the
truncated quotient of the doubles is the truncated quotient of the integers. A zero
divisor (rate 0, 1 or -1) makes the source convert an infinity to `int`, which leaves
the value undefined; the model has 0 there. -/
def rate_to_tCK_ps (rate : Int) : Int := Int.tdiv 1000000 (Int.tdiv rate 2)

/-- The timing vector after the preset and the rate have been applied: the first part of
`set_timing_vals`. An unknown preset name throws, and so does a rate given together
with a preset. -/
def timing_after_rate (p : TimingParams) : Except String (List Int) :=
  match (match p.preset with
      | some name =>
        match timing_presets name with
        | some v => Except.ok (v, true)
        | none => Except.error "Unrecognized timing preset!"
      | none => Except.ok (List.replicate 16 (-1), false)) with
  | .error e => .error e
  | .ok (vals, preset_provided) =>
    match p.rate with
    | some rate =>
      if preset_provided then
        .error "Cannot change the transfer rate when using a timing preset!"
      else .ok (vals.set 0 rate)
    | none => .ok vals

/-- The timing vector after every override, before the final check: `tCK_ps` derived from
the rate when there is one, the entries 1 to 14 overwritten by the values given in
cycles or, failing that and with a `tCK_ps` at hand, by the values given in nanoseconds
rounded by `JEDEC_rounding` (declared outside the sources), then `tCK_ps` overwritten
when given. -/
def timing_after_overrides (JEDEC_rounding : ℚ → Int → Int) (p : TimingParams)
    (vals : List Int) : List Int :=
  let vals1 :=
    if vals.getD 0 (-1) ≠ -1 then vals.set 15 (rate_to_tCK_ps (vals.getD 0 (-1))) else vals
  let tCK_ps := vals1.getD 15 (-1)
  let vals2 := (List.range' 1 14).foldl
    (fun v i =>
      match p.cycles i with
      | some provided_cycles => v.set i provided_cycles
      | none =>
        if tCK_ps ≠ -1 then
          match p.ns i with
          | some provided_ns => v.set i (JEDEC_rounding provided_ns tCK_ps)
          | none => v
        else v) vals1
  match p.tCK_ps with
  | some provided_tck_ps => vals2.set 15 provided_tck_ps
  | none => vals2

/-- `Mono3D::set_timing_vals` up to the sanity check: the timing vector, or the exception
thrown. -/
def set_timing_vals (JEDEC_rounding : ℚ → Int → Int) (p : TimingParams) :
    Except String (List Int) :=
  match timing_after_rate p with
  | .error e => .error e
  | .ok vals =>
    if (timing_after_overrides JEDEC_rounding p vals).any (fun v => v == -1) then
      .error "timing is not specified!"
    else .ok (timing_after_overrides JEDEC_rounding p vals)

/-- `Mono3D::init` as far as the configuration goes: `set_organization`, then
`set_timing_vals`. -/
def Mono3D.init (m_organization : Organization) (JEDEC_rounding : ℚ → Int → Int)
    (po : OrgParams) (pt : TimingParams) : Except String (Organization × List Int) :=
  match set_organization m_organization po with
  | .error e => .error e
  | .ok org =>
    match set_timing_vals JEDEC_rounding pt with
    | .error e => .error e
    | .ok vals => .ok (org, vals)

/-- A configuration of the group `org` with the default preset only. -/
def org_params_default : OrgParams :=
  { preset := some "Mono3D_DefaultOrg", dq := none, count := fun _ => none, density := none }

/-- A configuration of the group `timing` with the default preset only. -/
def timing_params_default : TimingParams :=
  { preset := some "Mono3D_Default", rate := none, cycles := fun _ => none,
    ns := fun _ => none, tCK_ps := none }

/-- A configuration of the group `timing` without preset: rate 2000 and every entry from
`nBL` to `nFAW` given as 5 cycles. -/
def timing_params_rate : TimingParams :=
  { preset := none, rate := some 2000, cycles := fun _ => some 5,
    ns := fun _ => none, tCK_ps := none }

/-- The organization member before `set_organization`: nothing specified. -/
def organization_unset : Organization := ⟨-1, -1, []⟩

/-- The default preset with `nCL` (entry 2) given as `-5` cycles. -/
def timing_params_negative : TimingParams :=
  { preset := some "Mono3D_Default", rate := none,
    cycles := fun i => if i = 2 then some (-5) else none,
    ns := fun _ => none, tCK_ps := none }

/-- The value of entry `i` in the preset `Mono3D_Default`, for the entries from `nBL` to
`nFAW` (1 to 14), as an option given in cycles. -/
def default_cycles : Nat → Option Int
  | 1 => some 1
  | 2 => some 10
  | 3 => some 10
  | 4 => some 10
  | 5 => some 24
  | 6 => some 34
  | 7 => some 10
  | 8 => some 5
  | 9 => some 8
  | 10 => some 5
  | 11 => some 5
  | 12 => some 1
  | 13 => some 4
  | 14 => some 16
  | _ => none

/-- The default preset with every entry from `nBL` to `nFAW` and `tCK_ps` given again with
its default value, and nanosecond options `ns` of any kind. -/
def timing_params_roundtrip (ns : Nat → Option ℚ) : TimingParams :=
  { preset := some "Mono3D_Default", rate := none, cycles := default_cycles,
    ns := ns, tCK_ps := some 1000 }

/-- As `timing_params_roundtrip`, with `rate = 2000` given as well. -/
def timing_params_roundtrip_rate (ns : Nat → Option ℚ) : TimingParams :=
  { timing_params_roundtrip ns with rate := some 2000 }

/-- No preset: all sixteen entries given with the values of `Mono3D_Default`. -/
def timing_params_explicit (ns : Nat → Option ℚ) : TimingParams :=
  { preset := none, rate := some 2000, cycles := default_cycles, ns := ns,
    tCK_ps := some 1000 }

/-- The product `rank * bankgroup * bank * row * column * dq` of an organization, as a
number (no wrap-around): the density in bits of the specification's invariant. -/
def density_bits (org : Organization) : Int :=
  org.count.getD Level.rank.idx 0 * org.count.getD Level.bankgroup.idx 0 *
    org.count.getD Level.bank.idx 0 * org.count.getD Level.row.idx 0 *
    org.count.getD Level.column.idx 0 * org.dq

/-- The default organization preset with 100 rows and 100 columns. -/
def org_params_hundred : OrgParams :=
  { preset := some "Mono3D_DefaultOrg", dq := none,
    count := fun i => if i = 4 ∨ i = 5 then some 100 else none, density := none }

/-- ACTs on banks 0 to 3 of channel 0 at cycles 0, 16, 32 and 48, then a fifth ACT, on
bank 4, tried at cycle 63. -/
def early_fifth_act_trace : List DeviceEvent :=
  .issue .ACT [0, 0, 0, 0, 1, 0] :: List.replicate 16 .tick ++
  (.issue .ACT [0, 0, 0, 1, 1, 0] :: List.replicate 16 .tick ++
  (.issue .ACT [0, 0, 0, 2, 1, 0] :: List.replicate 16 .tick ++
  (.issue .ACT [0, 0, 0, 3, 1, 0] :: List.replicate 15 .tick ++
  [.issue .ACT [0, 0, 0, 4, 1, 0]])))

/-! ## What a controller trace puts out -/

/-- What the controller puts out in a cycle: a command given to the device, or the
callback of a request. -/
inductive CtrlOutput where
  | issued (cycle : Int) (cmd : Command) (a : AddrVec)
  | fired (cycle : Int) (req : Request)
  deriving DecidableEq, Repr

/-- The outputs along a trace, each with the cycle it happens in: the controller clock at
which the tick starts, that is the number of ticks done before on a controller that
starts at clock 0 (a request sent at clock `t` is sent in cycle `t`). Within a tick the
callback comes before the commands. -/
def Controller.outputs_along (sched : IScheduler) (rowpolicy : IRowPolicy) :
    Controller → List CtrlEvent → List CtrlOutput
  | _, [] => []
  | c, .send req :: es =>
    match c.send req with
    | .ok r => Controller.outputs_along sched rowpolicy r.2.2 es
    | .error _ => []
  | c, .tick :: es =>
    (match (c.tick sched rowpolicy).fired with
      | some req => [CtrlOutput.fired c.m_clk req]
      | none => []) ++
      (c.tick sched rowpolicy).issued.map (fun x => CtrlOutput.issued c.m_clk x.1 x.2) ++
      Controller.outputs_along sched rowpolicy (c.tick sched rowpolicy).ctrl es
  | c, .dram_tick :: es =>
    Controller.outputs_along sched rowpolicy { c with m_dram := c.m_dram.tick } es

/-- A number of cycles: in each the controller ticks, then the device. -/
def cycles : Nat → List CtrlEvent
  | 0 => []
  | n + 1 => .tick :: .dram_tick :: cycles n

/-- A number of cycles in the other order: in each the device ticks, then the
controller. -/
def cycles_device_first : Nat → List CtrlEvent
  | 0 => []
  | n + 1 => .dram_tick :: .tick :: cycles_device_first n

/-- A device with the timing vector `tv` at cycle 40: row 5 open in bank 1 since cycle 0,
in bank 2 since cycle 4 and in bank 3 since cycle 8. Every fence has elapsed. -/
def dram_three_open (tv : TimingVals) : Mono3D :=
  { ({ ({ (({ fresh_dram with m_timing_vals := tv } : Mono3D).issue_command
      .ACT [0, 0, 0, 1, 5, 0]) with m_clk := 4 } : Mono3D).issue_command
      .ACT [0, 0, 0, 2, 5, 0] with m_clk := 8 } : Mono3D).issue_command
      .ACT [0, 0, 0, 3, 5, 0] with m_clk := 40 }

/-- A read as the read buffer holds it: `final_command` RD, sent at clock `arrive`. -/
def queued_read (addr : Int) (addr_vec : AddrVec) (arrive : Int) : Request :=
  { mk_request Request.Type.Read addr addr_vec with final_command := .RD, arrive := arrive }

/-- The bank-parallel scenario: two ports, a device with the timing vector `tv` and rows
open in banks 1, 2 and 3, and a read buffer with four reads of open rows, two of them
to bank 3 and the other two to banks 1 and 2. -/
def ctrl_four_reads (tv : TimingVals) : Controller :=
  { idle_ctrl with
    m_clk := 40,
    m_dram := dram_three_open tv,
    m_bank_parallel_ports := 2,
    m_read_buffer :=
      ⟨[queued_read 768 [0, 0, 0, 3, 5, 0] 30, queued_read 769 [0, 0, 0, 3, 5, 1] 31,
        queued_read 256 [0, 0, 0, 1, 5, 0] 32, queued_read 512 [0, 0, 0, 2, 5, 0] 33], 32⟩ }

/-- As `ctrl_with_write` (a write to bank 3, row 7 waiting in the write buffer, clock 5),
with a read of bank 1 in `pending` that departs at cycle 20. -/
def ctrl_write_and_pending : Controller :=
  { ctrl_with_write with
    pending := [({ queued_read 256 [0, 0, 0, 1, 5, 0] 1 with
                   command := .RD, depart := 20 } : Request)] }

/-- The controller a trace leaves behind; `none` when a `send` of the trace throws. -/
def Controller.run_along (sched : IScheduler) (rowpolicy : IRowPolicy) :
    Controller → List CtrlEvent → Option Controller
  | c, [] => some c
  | c, .send req :: es =>
    match c.send req with
    | .ok r => Controller.run_along sched rowpolicy r.2.2 es
    | .error _ => none
  | c, .tick :: es => Controller.run_along sched rowpolicy (c.tick sched rowpolicy).ctrl es
  | c, .dram_tick :: es =>
    Controller.run_along sched rowpolicy { c with m_dram := c.m_dram.tick } es

/-- Nothing is left in the controller: the four buffers and `pending` are empty. -/
def Controller.drained (c : Controller) : Prop :=
  c.pending = [] ∧ ∀ b : BufId, (c.getBuf b).buffer = []

/-- The number of requests the four buffers hold. -/
def Controller.held (c : Controller) : Nat :=
  (c.getBuf .active).size + (c.getBuf .priority).size + (c.getBuf .read).size +
    (c.getBuf .write).size

/-- The number of requests of a buffer whose statistics latch is false: the requests not
yet classified. -/
def ReqBuffer.unlatched (b : ReqBuffer) : Nat :=
  b.buffer.countP (fun r => !r.is_stat_updated)

/-- The number of requests in the four buffers whose statistics latch is false. -/
def Controller.unlatched (c : Controller) : Nat :=
  (c.getBuf .active).unlatched + (c.getBuf .priority).unlatched + (c.getBuf .read).unlatched +
    (c.getBuf .write).unlatched

/-- The number of row classifications credited so far: the sum of the three total
counters. -/
def Controller.classified (c : Controller) : Nat :=
  c.s_row_hits + c.s_row_conflicts + c.s_row_misses

/-- The number of `send` events of a trace. -/
def sends : List CtrlEvent → Nat
  | [] => 0
  | .send _ :: es => sends es + 1
  | .tick :: es => sends es
  | .dram_tick :: es => sends es

/-- The request of the cold-read scenario as its callback receives it: sent at clock 0,
RD issued at controller clock 11, departure at 22. -/
def read_b3_r7_served : Request :=
  { read_b3_r7 with
    command := .RD, final_command := .RD, is_stat_updated := true, arrive := 0, depart := 22 }

/-- A controller at clock 31 on `dram_b3_ready` (row 7 of bank 3 open since cycle 0) whose
active buffer holds a read of row 8 of bank 3: its prerequisite is PRE, which is
ready. -/
def ctrl_active_conflict : Controller :=
  { idle_ctrl with
    m_clk := 31,
    m_dram := dram_b3_ready,
    m_active_buffer :=
      ⟨[({ mk_request Request.Type.Read 2048 [0, 0, 0, 3, 8, 0] with
            final_command := .RD, arrive := 3 } : Request)], 32⟩ }

/-! ## Lemmas on the device -/

theorem setNode_same (nodes : List Int → Node) (key : List Int) (n : Node) :
    setNode nodes key n key = n := by
  simp [setNode]

theorem setNode_other (nodes : List Int → Node) (key k : List Int) (n : Node) (h : k ≠ key) :
    setNode nodes key n k = nodes k := by
  simp [setNode, h]

theorem raise_ge_old (n : Node) (fs : List Command) (future : Int) (f : Command) :
    n.next_valid_cycle f ≤ (n.raise fs future).next_valid_cycle f := by
  unfold Node.raise
  by_cases h : f ∈ fs
  · simp [h]
  · simp [h]

theorem raise_ge_future (n : Node) (fs : List Command) (future : Int) (f : Command)
    (h : f ∈ fs) : future ≤ (n.raise fs future).next_valid_cycle f := by
  unfold Node.raise
  simp [h]

theorem raise_eq_or (n : Node) (fs : List Command) (future : Int) (f : Command) :
    (n.raise fs future).next_valid_cycle f = n.next_valid_cycle f ∨
      (f ∈ fs ∧ (n.raise fs future).next_valid_cycle f = future) := by
  unfold Node.raise
  by_cases h : f ∈ fs
  · simp only [h, if_true]
    rcases le_total (n.next_valid_cycle f) future with h1 | h1
    · right; exact ⟨trivial, max_eq_right h1⟩
    · left; exact max_eq_left h1
  · simp [h]

theorem push_fence (n : Node) (c : Command) (t : Int) (k : Nat) :
    (n.push c t k).next_valid_cycle = n.next_valid_cycle := rfl

theorem apply_timing_rule_mono (c : Command) (a : AddrVec) (t : Int) (nodes : List Int → Node)
    (r : TimingConsEntry) (key : List Int) (f : Command) :
    (nodes key).next_valid_cycle f ≤ (apply_timing_rule c a t nodes r key).next_valid_cycle f := by
  unfold apply_timing_rule
  by_cases hc : c ∈ r.preceding
  · by_cases hw : r.window ≤ 1
    · simp only [hc, hw, if_true]
      by_cases hk : key = nodeKey r.level a
      · subst hk; rw [setNode_same]; exact raise_ge_old _ _ _ _
      · rw [setNode_other _ _ _ _ hk]
    · simp only [hc, hw, if_true, if_false]
      by_cases hk : key = nodeKey r.level a
      · subst hk; rw [setNode_same, push_fence]; exact raise_ge_old _ _ _ _
      · rw [setNode_other _ _ _ _ hk]
  · simp [hc]

theorem foldl_timing_mono (c : Command) (a : AddrVec) (t : Int) (rules : List TimingConsEntry) :
    ∀ (nodes : List Int → Node) (key : List Int) (f : Command),
      (nodes key).next_valid_cycle f ≤
        (rules.foldl (apply_timing_rule c a t) nodes key).next_valid_cycle f := by
  induction rules with
  | nil => intro nodes key f; simp
  | cons r rest ih =>
    intro nodes key f
    rw [List.foldl_cons]
    exact le_trans (apply_timing_rule_mono c a t nodes r key f) (ih _ key f)

theorem apply_timing_rule_ge (c : Command) (a : AddrVec) (t : Int) (nodes : List Int → Node)
    (r : TimingConsEntry) (f : Command) (hc : c ∈ r.preceding)
    (hf : f ∈ r.following) :
    t + r.latency ≤ (apply_timing_rule c a t nodes r (nodeKey r.level a)).next_valid_cycle f := by
  unfold apply_timing_rule
  by_cases hw : r.window ≤ 1
  · simp only [hc, hw, if_true]
    rw [setNode_same]
    exact raise_ge_future _ _ _ _ hf
  · simp only [hc, hw, if_true, if_false]
    rw [setNode_same, push_fence]
    exact raise_ge_future _ _ _ _ hf

theorem foldl_timing_ge (c : Command) (a : AddrVec) (t : Int) (rules : List TimingConsEntry) :
    ∀ (nodes : List Int → Node) (r : TimingConsEntry), r ∈ rules →
      c ∈ r.preceding → ∀ f, f ∈ r.following →
      t + r.latency ≤
        (rules.foldl (apply_timing_rule c a t) nodes (nodeKey r.level a)).next_valid_cycle f := by
  induction rules with
  | nil => intro nodes r hr; simp at hr
  | cons r0 rest ih =>
    intro nodes r hr hc f hf
    rw [List.foldl_cons]
    rcases List.mem_cons.mp hr with h | h
    · subst h
      exact le_trans (apply_timing_rule_ge c a t nodes r f hc hf)
        (foldl_timing_mono c a t rest _ _ f)
    · exact ih _ r h hc f hf

theorem apply_timing_rule_eq_or (c : Command) (a : AddrVec) (t : Int) (nodes : List Int → Node)
    (r : TimingConsEntry) (key : List Int) (f : Command) :
    (apply_timing_rule c a t nodes r key).next_valid_cycle f = (nodes key).next_valid_cycle f ∨
      (c ∈ r.preceding ∧ f ∈ r.following ∧ nodeKey r.level a = key ∧
        (apply_timing_rule c a t nodes r key).next_valid_cycle f = t + r.latency) := by
  unfold apply_timing_rule
  by_cases hc : c ∈ r.preceding
  · by_cases hw : r.window ≤ 1
    · simp only [hc, hw, if_true]
      by_cases hk : key = nodeKey r.level a
      · subst hk
        rw [setNode_same]
        rcases raise_eq_or (nodes (nodeKey r.level a)) r.following (t + r.latency) f with h | h
        · left; exact h
        · right; exact ⟨trivial, h.1, rfl, h.2⟩
      · left; rw [setNode_other _ _ _ _ hk]
    · simp only [hc, hw, if_true, if_false]
      by_cases hk : key = nodeKey r.level a
      · subst hk
        rw [setNode_same, push_fence]
        rcases raise_eq_or (nodes (nodeKey r.level a)) r.following (t + r.latency) f with h | h
        · left; exact h
        · right; exact ⟨trivial, h.1, rfl, h.2⟩
      · left; rw [setNode_other _ _ _ _ hk]
  · left; simp [hc]

theorem foldl_timing_eq_or (c : Command) (a : AddrVec) (t : Int) (rules : List TimingConsEntry) :
    ∀ (nodes : List Int → Node) (key : List Int) (f : Command),
      (rules.foldl (apply_timing_rule c a t) nodes key).next_valid_cycle f =
          (nodes key).next_valid_cycle f ∨
        ∃ r ∈ rules, c ∈ r.preceding ∧ f ∈ r.following ∧
          nodeKey r.level a = key ∧
          (rules.foldl (apply_timing_rule c a t) nodes key).next_valid_cycle f = t + r.latency := by
  induction rules with
  | nil => intro nodes key f; left; rfl
  | cons r0 rest ih =>
    intro nodes key f
    rw [List.foldl_cons]
    rcases ih (apply_timing_rule c a t nodes r0) key f with h | ⟨r, hr, h⟩
    · rcases apply_timing_rule_eq_or c a t nodes r0 key f with h0 | ⟨h2, h3, h4, h5⟩
      · left; rw [h, h0]
      · right
        exact ⟨r0, List.mem_cons_self _ _, h2, h3, h4, by rw [h, h5]⟩
    · right
      exact ⟨r, List.mem_cons_of_mem _ hr, h⟩

theorem action_act_fields (nodes : List Int → Node) (bank : List Int) (r : Int)
    (key : List Int) :
    (Action.Bank.ACT nodes bank r key).next_valid_cycle = (nodes key).next_valid_cycle ∧
    (Action.Bank.ACT nodes bank r key).history = (nodes key).history := by
  unfold Action.Bank.ACT setNode
  by_cases h1 : key = rowKey bank r
  · subst h1; simp
  · by_cases h2 : key = bank
    · subst h2; simp [h1]
    · simp [h1, h2]

theorem action_pre_fields (nodes : List Int → Node) (bank : List Int) (r : Int)
    (key : List Int) :
    (Action.Bank.PRE nodes bank r key).next_valid_cycle = (nodes key).next_valid_cycle ∧
    (Action.Bank.PRE nodes bank r key).history = (nodes key).history := by
  unfold Action.Bank.PRE
  by_cases h1 : key = bank
  · subst h1; simp
  · by_cases h2 : isChildOf key bank = true
    · simp [h1, h2]
    · simp [h1, h2]

theorem update_states_fence (d : Mono3D) (c : Command) (a : AddrVec) (clk : Int)
    (key : List Int) :
    ((d.update_states c a clk).nodes key).next_valid_cycle = (d.nodes key).next_valid_cycle := by
  unfold Mono3D.update_states
  cases c <;> simp only [m_actions] <;>
    first
    | rfl
    | exact (action_act_fields _ _ _ _).1
    | exact (action_pre_fields _ _ _ _).1

theorem timing_window_cases (V : TimingVals) (r : TimingConsEntry) (h : r ∈ timing_cons V) :
    r.window = 1 ∨ (r.window = 4 ∧ r.level = .channel ∧ r.preceding = [.ACT] ∧
      r.following = [.ACT] ∧ r.latency = V.nFAW) := by
  simp only [timing_cons, List.mem_cons, List.mem_singleton, List.not_mem_nil, or_false] at h
  rcases h with h | h | h | h | h | h | h | h | h | h | h | h | h | h | h | h <;> subst h <;> simp

/-! ## Device theorems -/

/-- C1: for an access command (RD, WR, RDA or WRA), `get_preq_command` gives ACT on a
Closed bank, the command itself on a bank Opened on the row of the address, and PRE on
a bank Opened on another row; on a bank Opened on row `r` it gives the command itself
exactly when the row of the address is `r`. -/
theorem get_preq_command_access (d : Mono3D) (final_cmd : Command) (a : AddrVec)
    (hacc : final_cmd = .RD ∨ final_cmd = .WR ∨ final_cmd = .RDA ∨ final_cmd = .WRA) :
    ((d.nodes (nodeKey .bank a)).state = .Closed → d.get_preq_command final_cmd a = .ACT) ∧
    (∀ r : Int, (d.nodes (nodeKey .bank a)).state = .Opened →
      (d.nodes (nodeKey .bank a)).row_state = some r →
        (addrAt a Level.row.idx = r → d.get_preq_command final_cmd a = final_cmd) ∧
        (addrAt a Level.row.idx ≠ r → d.get_preq_command final_cmd a = .PRE) ∧
        (d.get_preq_command final_cmd a = final_cmd ↔ addrAt a Level.row.idx = r)) := by
  have hp : d.get_preq_command final_cmd a =
      RequireRowOpen (d.nodes (nodeKey .bank a)) final_cmd a := by
    rcases hacc with h | h | h | h <;> subst h <;> rfl
  have hne : final_cmd ≠ .PRE := by
    rcases hacc with h | h | h | h <;> subst h <;> decide
  rw [hp]
  refine ⟨fun hs => by simp [RequireRowOpen, hs], fun r hs hr => ?_⟩
  have key : RequireRowOpen (d.nodes (nodeKey .bank a)) final_cmd a =
      if some r = some (addrAt a Level.row.idx) then final_cmd else .PRE := by
    simp [RequireRowOpen, hs, hr]
  rw [key]
  refine ⟨fun h => by simp [h], fun h => ?_, ?_⟩
  · have : r ≠ addrAt a Level.row.idx := fun e => h e.symm
    simp [this]
  · by_cases h : r = addrAt a Level.row.idx
    · simp [h]
    · have h2 : addrAt a Level.row.idx ≠ r := fun e => h e.symm
      simp [h, h2, hne.symm]

/-- Witness for C1: on the device where row 7 of bank 3 was opened, a read of that row
needs no prerequisite. -/
theorem get_preq_command_access_witness :
    (dram_b3_open.nodes (nodeKey .bank addr_b3_r7)).state = .Opened ∧
    (dram_b3_open.nodes (nodeKey .bank addr_b3_r7)).row_state = some 7 ∧
    dram_b3_open.get_preq_command .RD addr_b3_r7 = .RD :=
  ⟨by decide, by decide,
    ((get_preq_command_access dram_b3_open .RD addr_b3_r7 (Or.inl rfl)).2 7
      (by decide) (by decide)).1 (by decide)⟩

/-- C2: `issue_command` at device cycle `m_clk` never lowers a fence; for every rule of
the table whose preceding set holds the command, whatever its window, the fence of every
following command at the node of the rule's level ends at least at `m_clk + latency`;
and every fence afterwards is either its old value or `m_clk + latency` of such a rule
at that node, so it equals the maximum of the old fence and those sums (at a node and
command that only window-1 rules constrain, the maximum over those window-1 rules). -/
theorem issue_command_fences (d : Mono3D) (c : Command) (a : AddrVec) :
    (∀ (key : List Int) (f : Command),
      (d.nodes key).next_valid_cycle f ≤ ((d.issue_command c a).nodes key).next_valid_cycle f) ∧
    (∀ r ∈ timing_cons d.m_timing_vals, c ∈ r.preceding → ∀ f ∈ r.following,
      d.m_clk + r.latency ≤
        ((d.issue_command c a).nodes (nodeKey r.level a)).next_valid_cycle f) ∧
    (∀ (key : List Int) (f : Command),
      ((d.issue_command c a).nodes key).next_valid_cycle f = (d.nodes key).next_valid_cycle f ∨
      ∃ r ∈ timing_cons d.m_timing_vals, c ∈ r.preceding ∧ f ∈ r.following ∧
        nodeKey r.level a = key ∧
        ((d.issue_command c a).nodes key).next_valid_cycle f = d.m_clk + r.latency) ∧
    (∀ (key : List Int) (f : Command),
      (∀ r ∈ timing_cons d.m_timing_vals, c ∈ r.preceding → f ∈ r.following →
        nodeKey r.level a = key → r.window = 1) →
      ((d.issue_command c a).nodes key).next_valid_cycle f = (d.nodes key).next_valid_cycle f ∨
      ∃ r ∈ timing_cons d.m_timing_vals, r.window = 1 ∧ c ∈ r.preceding ∧ f ∈ r.following ∧
        nodeKey r.level a = key ∧
        ((d.issue_command c a).nodes key).next_valid_cycle f = d.m_clk + r.latency) := by
  have hf : ∀ key, ((d.issue_command c a).nodes key).next_valid_cycle =
      ((timing_cons d.m_timing_vals).foldl (apply_timing_rule c a d.m_clk) d.nodes
        key).next_valid_cycle := by
    intro key
    unfold Mono3D.issue_command
    rw [update_states_fence]
    rfl
  refine ⟨fun key f => ?_, fun r hr hc f hfo => ?_, fun key f => ?_, fun key f hall => ?_⟩
  · rw [hf]; exact foldl_timing_mono c a d.m_clk _ d.nodes key f
  · rw [hf]; exact foldl_timing_ge c a d.m_clk _ d.nodes r hr hc f hfo
  · rw [hf]
    exact foldl_timing_eq_or c a d.m_clk (timing_cons d.m_timing_vals) d.nodes key f
  · rw [hf]
    rcases foldl_timing_eq_or c a d.m_clk (timing_cons d.m_timing_vals) d.nodes key f with
      h | ⟨r, hr, hc, hfo, hk, h⟩
    · left; exact h
    · right
      exact ⟨r, hr, hall r hr hc hfo hk, hc, hfo, hk, h⟩

/-- Witness for C2: after the ACT at cycle 0 on the fresh device with the default timings,
the channel fence of ACT is at least 0 + nFAW = 16, as the rule with window 4 demands. -/
theorem issue_command_fences_witness :
    (⟨.channel, [.ACT], [.ACT], 16, 4⟩ : TimingConsEntry) ∈ timing_cons fresh_dram.m_timing_vals ∧
    fresh_dram.m_clk + 16 ≤ ((fresh_dram.issue_command .ACT addr_b3_r7).nodes
        (nodeKey .channel addr_b3_r7)).next_valid_cycle .ACT :=
  ⟨by decide,
    (issue_command_fences fresh_dram .ACT addr_b3_r7).2.1
      ⟨.channel, [.ACT], [.ACT], 16, 4⟩ (by decide) (by decide) .ACT (by decide)⟩

/-! ## Intake -/

/-- C7: a Read (or Write) whose buffer has free space and, for a Read, whose address is
not held by any entry of the write buffer, is accepted: `send` returns true, the
request gets `final_command` RD (WR) and `arrive = m_clk` and is appended to the read
(write) buffer; the other request buffers and `pending` are as before. -/
theorem send_accepts (c : Controller) (req : Request)
    (hty : req.type_id = Request.Type.Read ∨ req.type_id = Request.Type.Write)
    (hspace : (c.getBuf (if req.type_id = Request.Type.Read then .read else .write)).size <
      (c.getBuf (if req.type_id = Request.Type.Read then .read else .write)).max_size)
    (hfwd : req.type_id = Request.Type.Read →
      ∀ w ∈ c.m_write_buffer.buffer, w.addr ≠ req.addr) :
    ∃ c1 : Controller,
      c.send req = .ok (true,
        { req with
          final_command := if req.type_id = Request.Type.Read then .RD else .WR,
          arrive := c.m_clk }, c1) ∧
      (c1.getBuf (if req.type_id = Request.Type.Read then .read else .write)).buffer =
        (c.getBuf (if req.type_id = Request.Type.Read then .read else .write)).buffer ++
          [{ req with
            final_command := if req.type_id = Request.Type.Read then .RD else .WR,
            arrive := c.m_clk }] ∧
      (∀ b : BufId, b ≠ (if req.type_id = Request.Type.Read then .read else .write) →
        c1.getBuf b = c.getBuf b) ∧
      c1.pending = c.pending := by
  rcases hty with h | h
  · have hno : ∀ x ∈ c.m_write_buffer.buffer, ¬ x.addr = req.addr := hfwd h
    simp only [h, if_true] at hspace ⊢
    simp only [Controller.getBuf, ReqBuffer.size] at hspace
    refine ⟨{ c with
      s_num_read_reqs := c.s_num_read_reqs + 1,
      m_read_buffer := ⟨c.m_read_buffer.buffer ++
        [{ req with final_command := .RD, arrive := c.m_clk }], c.m_read_buffer.max_size⟩ }, ?_, ?_, ?_, ?_⟩
    · simp [Controller.send, Controller.count_request, h, m_request_translations,
        Request.Type.Read, ReqBuffer.enqueue, ReqBuffer.size, hspace, hno]
      exact hno
    · simp [Controller.getBuf, h]
    · intro b hb
      cases b <;> simp_all [Controller.getBuf]
    · rfl
  · have hne : ¬ (req.type_id = Request.Type.Read) := by
      rw [h]; decide
    simp only [hne, if_false] at hspace ⊢
    simp only [Controller.getBuf, ReqBuffer.size] at hspace
    refine ⟨{ c with
      s_num_write_reqs := c.s_num_write_reqs + 1,
      m_write_buffer := ⟨c.m_write_buffer.buffer ++
        [{ req with final_command := .WR, arrive := c.m_clk }], c.m_write_buffer.max_size⟩ }, ?_, ?_, ?_, ?_⟩
    · simp [Controller.send, Controller.count_request, h, m_request_translations,
        Request.Type.Read, Request.Type.Write, ReqBuffer.enqueue, ReqBuffer.size, hspace]
    · simp [Controller.getBuf]
    · intro b hb
      cases b <;> simp_all [Controller.getBuf]
    · rfl

/-- Witness for C7: a read sent to the idle controller is accepted. -/
theorem send_accepts_witness :
    ∃ c1 : Controller,
      idle_ctrl.send read_b3_r7 = .ok (true,
        { read_b3_r7 with final_command := .RD, arrive := 0 }, c1) ∧
      c1.m_read_buffer.buffer = [{ read_b3_r7 with final_command := .RD, arrive := 0 }] ∧
      c1.m_write_buffer = idle_ctrl.m_write_buffer ∧
      c1.pending = [] := by
  obtain ⟨c1, h1, h2, h3, h4⟩ := send_accepts idle_ctrl read_b3_r7 (Or.inl rfl)
    (by decide) (fun _ w hw => by simp [idle_ctrl] at hw)
  exact ⟨c1, h1, h2, h3 .write (by decide), h4⟩

/-- C8: a Read whose address equals the address of an entry of the write buffer is
served by forwarding: `send` returns true, the request gets `depart = m_clk + 1` and
is appended to the back of `pending`; the four request buffers and the device are as
before, whatever the fill of the read buffer. -/
theorem send_bypass (c : Controller) (req : Request)
    (hty : req.type_id = Request.Type.Read)
    (hw : ∃ w ∈ c.m_write_buffer.buffer, w.addr = req.addr) :
    ∃ c1 : Controller,
      c.send req = .ok (true, { req with final_command := .RD, depart := c.m_clk + 1 }, c1) ∧
      c1.pending = c.pending ++ [{ req with final_command := .RD, depart := c.m_clk + 1 }] ∧
      c1.m_read_buffer = c.m_read_buffer ∧
      c1.m_write_buffer = c.m_write_buffer ∧
      c1.m_priority_buffer = c.m_priority_buffer ∧
      c1.m_active_buffer = c.m_active_buffer ∧
      c1.m_dram = c.m_dram := by
  refine ⟨{ c with
    s_num_read_reqs := c.s_num_read_reqs + 1,
    pending := c.pending ++ [{ req with final_command := .RD, depart := c.m_clk + 1 }] },
    ?_, rfl, rfl, rfl, rfl, rfl, rfl⟩
  simp [Controller.send, Controller.count_request, hty, m_request_translations,
    Request.Type.Read, hw]

/-- Witness for C8: a read of the address of the waiting write is forwarded at clock 5. -/
theorem send_bypass_witness :
    ∃ c1 : Controller,
      ctrl_with_write.send read_b3_r7 =
        .ok (true, { read_b3_r7 with final_command := .RD, depart := 6 }, c1) ∧
      c1.pending = [{ read_b3_r7 with final_command := .RD, depart := 6 }] ∧
      c1.m_read_buffer = ctrl_with_write.m_read_buffer ∧
      c1.m_write_buffer = ctrl_with_write.m_write_buffer ∧
      c1.m_priority_buffer = ctrl_with_write.m_priority_buffer ∧
      c1.m_active_buffer = ctrl_with_write.m_active_buffer ∧
      c1.m_dram = ctrl_with_write.m_dram :=
  send_bypass ctrl_with_write read_b3_r7 rfl
    ⟨{ write_b3_r7 with final_command := .WR, arrive := 2 }, by simp [ctrl_with_write], rfl⟩

/-- Counterexample to C9 as stated: a read sent to the controller whose read buffer is
full is refused, yet the counter of read requests went from 0 to 1 and the request
came back with `final_command` rewritten. -/
theorem send_full_counterexample :
    ∃ (r1 : Request) (c1 : Controller),
      ctrl_read_full.send read_b3_r7 = .ok (false, r1, c1) ∧
      ctrl_read_full.s_num_read_reqs = 0 ∧ c1.s_num_read_reqs = 1 ∧
      read_b3_r7.final_command = .ACT ∧ r1.final_command = .RD :=
  ⟨_, _, rfl, rfl, rfl, rfl, rfl⟩

/-- C9 (amended): a Read or Write whose target buffer is full, and which is not forwarded,
is refused: `send` returns false; the controller is as before except that the counter
of read (write) requests grew by one, so all request buffers, `pending` and the device
are unchanged; the request is as before except that `final_command` holds RD (WR) and
`arrive` is `-1`. -/
theorem send_full (c : Controller) (req : Request)
    (hty : req.type_id = Request.Type.Read ∨ req.type_id = Request.Type.Write)
    (hfull : ¬ (c.getBuf (if req.type_id = Request.Type.Read then .read else .write)).size <
      (c.getBuf (if req.type_id = Request.Type.Read then .read else .write)).max_size)
    (hfwd : req.type_id = Request.Type.Read →
      ∀ w ∈ c.m_write_buffer.buffer, w.addr ≠ req.addr) :
    c.send req = .ok (false,
      { req with
        final_command := if req.type_id = Request.Type.Read then .RD else .WR,
        arrive := -1 },
      if req.type_id = Request.Type.Read then
        { c with s_num_read_reqs := c.s_num_read_reqs + 1 }
      else { c with s_num_write_reqs := c.s_num_write_reqs + 1 }) := by
  rcases hty with h | h
  · have hno : ∀ x ∈ c.m_write_buffer.buffer, ¬ x.addr = req.addr := hfwd h
    simp only [h, if_true] at hfull ⊢
    simp only [Controller.getBuf, ReqBuffer.size] at hfull
    simp [Controller.send, Controller.count_request, h, m_request_translations,
      Request.Type.Read, ReqBuffer.enqueue, ReqBuffer.size, hfull, hno]
    exact hno
  · have hne : ¬ (req.type_id = Request.Type.Read) := by
      rw [h]; decide
    simp only [hne, if_false] at hfull ⊢
    simp only [Controller.getBuf, ReqBuffer.size] at hfull
    simp [Controller.send, Controller.count_request, h, m_request_translations,
      Request.Type.Read, Request.Type.Write, ReqBuffer.enqueue, ReqBuffer.size, hfull]

/-- Witness for C9 (amended): the read refused by the full read buffer. -/
theorem send_full_witness :
    ctrl_read_full.send read_b3_r7 = .ok (false,
      { read_b3_r7 with final_command := .RD, arrive := -1 },
      { ctrl_read_full with s_num_read_reqs := ctrl_read_full.s_num_read_reqs + 1 }) :=
  send_full ctrl_read_full read_b3_r7 (Or.inl rfl) (by decide)
    (fun _ w hw => by simp [ctrl_read_full, idle_ctrl] at hw)

/-! ## Selection -/

theorem map_eraseIdx_eq {α β : Type} (f : α → β) : ∀ (l : List α) (i : Nat),
    (l.eraseIdx i).map f = (l.map f).eraseIdx i := by
  intro l
  induction l with
  | nil => intro i; rfl
  | cons x xs ih =>
    intro i
    cases i with
    | zero => rfl
    | succ n => simp [List.eraseIdx, ih]

theorem getBuf_setBuf_same (c : Controller) (b : BufId) (v : ReqBuffer) :
    (c.setBuf b v).getBuf b = v := by
  cases b <;> rfl

theorem getBuf_setBuf_ne (c : Controller) (b b1 : BufId) (v : ReqBuffer) (h : b1 ≠ b) :
    (c.setBuf b v).getBuf b1 = c.getBuf b1 := by
  cases b <;> cases b1 <;> first | rfl | exact absurd rfl h

theorem selection_frame_refl (c : Controller) : c.selection_frame c :=
  ⟨rfl, rfl, rfl, rfl, rfl, fun _ => ⟨rfl, rfl⟩⟩

theorem selection_frame_trans {c c1 c2 : Controller} (h1 : c.selection_frame c1)
    (h2 : c1.selection_frame c2) : c.selection_frame c2 := by
  refine ⟨h2.1.trans h1.1, h2.2.1.trans h1.2.1, h2.2.2.1.trans h1.2.2.1,
    h2.2.2.2.1.trans h1.2.2.2.1, h2.2.2.2.2.1.trans h1.2.2.2.2.1, fun buf => ?_⟩
  have hc := h1.2.2.2.2.2 buf
  have hc1 := h2.2.2.2.2.2 buf
  exact ⟨hc1.1.trans hc.1, hc1.2.trans hc.2⟩

theorem selection_frame_setBuf (c : Controller) (b : BufId) (v : ReqBuffer)
    (he : v.entries = (c.getBuf b).entries) (hm : v.max_size = (c.getBuf b).max_size) :
    c.selection_frame (c.setBuf b v) := by
  refine ⟨?_, ?_, ?_, ?_, ?_, fun b1 => ?_⟩
  · cases b <;> rfl
  · cases b <;> rfl
  · cases b <;> rfl
  · cases b <;> rfl
  · cases b <;> rfl
  · by_cases h : b1 = b
    · subst h; rw [getBuf_setBuf_same]; exact ⟨he, hm⟩
    · rw [getBuf_setBuf_ne _ _ _ _ h]; exact ⟨rfl, rfl⟩

theorem selection_frame_set_write_mode (c : Controller) : c.selection_frame c.set_write_mode := by
  unfold Controller.set_write_mode
  split_ifs <;> exact ⟨rfl, rfl, rfl, rfl, rfl, fun b => by cases b <;> exact ⟨rfl, rfl⟩⟩

theorem refresh_commands_entries (c : Controller) (b : ReqBuffer) :
    (c.refresh_commands b).entries = b.entries ∧ (c.refresh_commands b).max_size = b.max_size := by
  refine ⟨?_, rfl⟩
  simp only [Controller.refresh_commands, ReqBuffer.entries, List.map_map]
  apply List.map_congr_left
  intro r _
  rfl

theorem refresh_commands_mem (c : Controller) (b : ReqBuffer) (req : Request)
    (h : req ∈ (c.refresh_commands b).buffer) :
    req.command = c.m_dram.get_preq_command req.final_command req.addr_vec := by
  simp only [Controller.refresh_commands, List.mem_map] at h
  obtain ⟨r0, _, e⟩ := h
  rw [← e]

theorem scan_candidates_some (cmp : Request → Request → Bool) (viol : Request → Bool) :
    ∀ (l : List (Nat × Request)) (cand : Option (Nat × Request)) (p : Nat × Request),
      scan_candidates cmp viol l cand = some p →
        cand = some p ∨ (p ∈ l ∧ viol p.2 = false) := by
  intro l
  induction l with
  | nil => intro cand p h; left; simpa [scan_candidates] using h
  | cons x rest ih =>
    intro cand p h
    obtain ⟨it, req⟩ := x
    unfold scan_candidates at h
    by_cases hv : viol req = true
    · simp only [hv, if_true] at h
      rcases ih cand p h with h1 | ⟨h1, h2⟩
      · left; exact h1
      · right; exact ⟨List.mem_cons_of_mem _ h1, h2⟩
    · simp only [hv] at h
      have hvf : viol req = false := by simpa using hv
      cases cand with
      | none =>
        simp only [] at h
        rcases ih _ p h with h1 | ⟨h1, h2⟩
        · right
          have e : (it, req) = p := Option.some.inj h1
          subst e
          exact ⟨List.mem_cons_self _ _, hvf⟩
        · right; exact ⟨List.mem_cons_of_mem _ h1, h2⟩
      | some cr =>
        obtain ⟨cit, creq⟩ := cr
        simp only [] at h
        rcases ih _ p h with h1 | ⟨h1, h2⟩
        · by_cases hc : cmp creq req = true
          · simp only [hc, if_true] at h1
            right
            have e : (it, req) = p := Option.some.inj h1
            subst e
            exact ⟨List.mem_cons_self _ _, hvf⟩
          · simp only [hc] at h1
            left; exact h1
        · right; exact ⟨List.mem_cons_of_mem _ h1, h2⟩

theorem get_best_request_filtered_spec (sched : IScheduler) (c : Controller) (b : ReqBuffer)
    (used : List (List Int)) :
    (c.get_best_request_filtered sched b used).1.entries = b.entries ∧
    (c.get_best_request_filtered sched b used).1.max_size = b.max_size ∧
    ∀ (it : Nat) (req : Request),
      (c.get_best_request_filtered sched b used).2 = some (it, req) →
        (c.get_best_request_filtered sched b used).1.buffer[it]? = some req ∧
        c.violates_access_bank_parallelism req used = false ∧
        req.command = c.m_dram.get_preq_command req.final_command req.addr_vec := by
  unfold Controller.get_best_request_filtered
  by_cases h0 : b.size = 0
  · simp only [h0, if_true]
    exact ⟨trivial, trivial, fun it req h => by simp at h⟩
  · simp only [h0, if_false]
    refine ⟨(refresh_commands_entries c b).1, rfl, fun it req h => ?_⟩
    rcases scan_candidates_some _ _ _ _ _ h with h1 | ⟨h1, h2⟩
    · simp at h1
    · have hg : (c.refresh_commands b).buffer[it]? = some req :=
        List.mem_enum_iff_getElem?.mp h1
      refine ⟨hg, h2, ?_⟩
      exact refresh_commands_mem c b req (List.mem_iff_getElem?.mpr ⟨it, hg⟩)

theorem hazard_filter_some (c : Controller) (found : Option Selected) (s : Selected)
    (h : c.hazard_filter found = some s) :
    found = some s ∧
    ((m_command_meta s.req.command).is_closing = true →
      ∀ e ∈ c.m_active_buffer.buffer, c.is_matching e.addr_vec s.req.addr_vec = false) := by
  unfold Controller.hazard_filter at h
  cases found with
  | none => simp at h
  | some s0 =>
    simp only at h
    by_cases hc : (m_command_meta s0.req.command).is_closing = true
    · simp only [hc, if_true] at h
      by_cases ha : c.m_active_buffer.buffer.any
          (fun e => c.is_matching e.addr_vec s0.req.addr_vec) = true
      · simp [ha] at h
      · simp only [ha] at h
        have e : s0 = s := Option.some.inj h
        subst e
        refine ⟨rfl, fun _ e he => ?_⟩
        have hf : c.m_active_buffer.buffer.any
            (fun e => c.is_matching e.addr_vec s0.req.addr_vec) = false := by simpa using ha
        rw [List.any_eq_false] at hf
        simpa using hf e he
    · simp only [hc] at h
      have e : s0 = s := Option.some.inj h
      subst e
      exact ⟨rfl, fun h1 => absurd h1 hc⟩

theorem select_active_spec (sched : IScheduler) (c : Controller) (used : List (List Int)) :
    c.selection_frame (c.select_active sched used).2 ∧
    ∀ s : Selected, (c.select_active sched used).1 = some s →
      s.req_buffer = .active ∧
      ((c.select_active sched used).2.getBuf s.req_buffer).buffer[s.req_it]? = some s.req ∧
      s.req.command = c.m_dram.get_preq_command s.req.final_command s.req.addr_vec ∧
      c.m_dram.check_ready s.req.command s.req.addr_vec = true ∧
      c.violates_access_bank_parallelism s.req used = false := by
  obtain ⟨he, hm, hsel⟩ := get_best_request_filtered_spec sched c c.m_active_buffer used
  unfold Controller.select_active
  dsimp only
  generalize c.get_best_request_filtered sched c.m_active_buffer used = r at he hm hsel
  obtain ⟨b1, cand⟩ := r
  have hfr : c.selection_frame { c with m_active_buffer := b1 } :=
    selection_frame_setBuf c .active b1 he hm
  cases cand with
  | none => exact ⟨hfr, fun s h => by simp at h⟩
  | some p =>
    obtain ⟨it, req⟩ := p
    obtain ⟨h1, h2, h3⟩ := hsel it req rfl
    simp only
    by_cases hr : c.m_dram.check_ready req.command req.addr_vec = true
    · simp only [hr, if_true]
      refine ⟨hfr, fun s h => ?_⟩
      have e : (⟨.active, it, req⟩ : Selected) = s := Option.some.inj h
      subst e
      exact ⟨rfl, h1, h3, hr, h2⟩
    · simp only [hr]
      exact ⟨hfr, fun s h => by simp at h⟩

theorem select_read_write_spec (sched : IScheduler) (c : Controller) (used : List (List Int)) :
    c.selection_frame (c.select_read_write sched used).2 ∧
    ∀ s : Selected, (c.select_read_write sched used).1 = some s →
      (s.req_buffer = .read ∨ s.req_buffer = .write) ∧
      ((c.select_read_write sched used).2.getBuf s.req_buffer).buffer[s.req_it]? = some s.req ∧
      s.req.command = c.m_dram.get_preq_command s.req.final_command s.req.addr_vec ∧
      c.m_dram.check_ready s.req.command s.req.addr_vec = true ∧
      c.violates_access_bank_parallelism s.req used = false := by
  unfold Controller.select_read_write
  dsimp only
  have hw := selection_frame_set_write_mode c
  generalize c.set_write_mode = cw at hw
  have hb : ((if cw.m_is_write_mode = true then BufId.write else BufId.read) = .read ∨
      (if cw.m_is_write_mode = true then BufId.write else BufId.read) = .write) := by
    by_cases hm : cw.m_is_write_mode = true
    · right; simp [hm]
    · left; simp [hm]
  generalize (if cw.m_is_write_mode = true then BufId.write else BufId.read) = b at hb
  obtain ⟨he, hm, hsel⟩ := get_best_request_filtered_spec sched cw (cw.getBuf b) used
  generalize cw.get_best_request_filtered sched (cw.getBuf b) used = r at he hm hsel
  obtain ⟨b1, cand⟩ := r
  have hfr : c.selection_frame (cw.setBuf b b1) :=
    selection_frame_trans hw (selection_frame_setBuf cw b b1 he hm)
  have hd : (cw.setBuf b b1).m_dram = c.m_dram := hfr.2.1
  have hdw : cw.m_dram = c.m_dram := hw.2.1
  have hv : ∀ req, cw.violates_access_bank_parallelism req used =
      c.violates_access_bank_parallelism req used := by
    intro req
    simp only [Controller.violates_access_bank_parallelism, Controller.bank_key, hw.2.2.2.1]
  cases cand with
  | none => exact ⟨hfr, fun s h => by simp at h⟩
  | some p =>
    obtain ⟨it, req⟩ := p
    obtain ⟨h1, h2, h3⟩ := hsel it req rfl
    simp only
    rw [hd]
    by_cases hr : c.m_dram.check_ready req.command req.addr_vec = true
    · simp only [hr, if_true]
      refine ⟨hfr, fun s h => ?_⟩
      have e : (⟨b, it, req⟩ : Selected) = s := Option.some.inj h
      subst e
      refine ⟨hb, ?_, ?_, hr, ?_⟩
      · simp only [getBuf_setBuf_same]; exact h1
      · rw [← hdw]; exact h3
      · rw [← hv]; exact h2
    · simp only [hr]
      exact ⟨hfr, fun s h => by simp at h⟩

theorem select_active_snd (sched : IScheduler) (c : Controller) (used : List (List Int)) :
    (c.select_active sched used).2 =
      { c with m_active_buffer :=
          (c.get_best_request_filtered sched c.m_active_buffer used).1 } := by
  unfold Controller.select_active
  dsimp only
  split
  · split <;> rfl
  · rfl

theorem schedule_of_active (sched : IScheduler) (c c1 : Controller) (used : List (List Int))
    (s : Selected) (h : c.select_active sched used = (some s, c1)) :
    c.schedule_request_filtered sched used = (c1.hazard_filter (some s), c1) := by
  unfold Controller.schedule_request_filtered
  dsimp only
  rw [h]

theorem schedule_of_priority (sched : IScheduler) (c c1 : Controller) (used : List (List Int))
    (head req : Request) (rest : List Request)
    (h : c.select_active sched used = (none, c1))
    (hp : c1.m_priority_buffer.buffer = head :: rest)
    (hreq : req = { head with
      command := c1.m_dram.get_preq_command head.final_command head.addr_vec }) :
    c.schedule_request_filtered sched used =
      if c1.m_dram.check_ready req.command req.addr_vec = true then
        ((c1.setBuf .priority ⟨req :: rest, c1.m_priority_buffer.max_size⟩).hazard_filter
            (some ⟨.priority, 0, req⟩),
          c1.setBuf .priority ⟨req :: rest, c1.m_priority_buffer.max_size⟩)
      else (none, c1.setBuf .priority ⟨req :: rest, c1.m_priority_buffer.max_size⟩) := by
  unfold Controller.schedule_request_filtered
  dsimp only
  rw [h]
  dsimp only
  rw [hp]
  dsimp only
  subst hreq
  by_cases hr : c1.m_dram.check_ready
      (c1.m_dram.get_preq_command head.final_command head.addr_vec) head.addr_vec = true
  · simp [hr, ReqBuffer.size, Controller.setBuf]
  · simp [hr, ReqBuffer.size, Controller.setBuf]

theorem schedule_of_read_write (sched : IScheduler) (c c1 : Controller) (used : List (List Int))
    (h : c.select_active sched used = (none, c1))
    (hp : c1.m_priority_buffer.buffer = []) :
    c.schedule_request_filtered sched used =
      ((c1.select_read_write sched used).2.hazard_filter (c1.select_read_write sched used).1,
        (c1.select_read_write sched used).2) := by
  unfold Controller.schedule_request_filtered
  dsimp only
  rw [h]
  dsimp only
  rw [hp]

theorem is_matching_iff (c : Controller) (x y : AddrVec) :
    c.is_matching x y = true ↔
      ∀ i : Nat, i < (c.m_bank_addr_idx + 1).toNat →
        addrAt x i = addrAt y i ∨ addrAt x i = -1 ∨ addrAt y i = -1 := by
  unfold Controller.is_matching
  rw [List.all_eq_true]
  constructor
  · intro h i hi
    have := h i (List.mem_range.mpr hi)
    simp only [Bool.not_eq_true', Bool.and_eq_false_imp, Bool.and_eq_true, bne_iff_ne, ne_eq,
      bne_eq_false_iff_eq, and_imp] at this
    by_cases h1 : addrAt x i = addrAt y i
    · left; exact h1
    · by_cases h2 : addrAt x i = -1
      · right; left; exact h2
      · right; right; exact this h1 h2
  · intro h i hi
    have := h i (List.mem_range.mp hi)
    simp only [Bool.not_eq_true', Bool.and_eq_false_imp, Bool.and_eq_true, bne_iff_ne, ne_eq,
      bne_eq_false_iff_eq, and_imp]
    intro h1 h2
    rcases this with h3 | h3 | h3
    · exact absurd h3 h1
    · exact absurd h3 h2
    · exact h3

theorem is_matching_frame {c c1 : Controller} (h : c.selection_frame c1) (x y : AddrVec) :
    c1.is_matching x y = c.is_matching x y := by
  unfold Controller.is_matching
  rw [h.2.2.2.1]

theorem entries_mem_addr {b b1 : ReqBuffer} (h : b1.entries = b.entries) (e : Request)
    (he : e ∈ b.buffer) : ∃ e1 ∈ b1.buffer, e1.addr_vec = e.addr_vec := by
  have h1 : e.forget_command ∈ b1.entries := by
    rw [h]
    exact List.mem_map_of_mem _ he
  obtain ⟨e1, hm, heq⟩ := List.mem_map.mp h1
  have h2 : (e1.forget_command).addr_vec = (e.forget_command).addr_vec :=
    congrArg Request.addr_vec heq
  exact ⟨e1, hm, h2⟩

theorem no_match_frame {c c1 : Controller} (h : c.selection_frame c1) (a : AddrVec)
    (hn : ∀ e ∈ c1.m_active_buffer.buffer, c1.is_matching e.addr_vec a = false) :
    ∀ e ∈ c.m_active_buffer.buffer, c.is_matching e.addr_vec a = false := by
  intro e he
  obtain ⟨e1, hm, heq⟩ := entries_mem_addr (h.2.2.2.2.2 .active).1 e he
  have := hn e1 hm
  rw [is_matching_frame h, heq] at this
  exact this

theorem violates_frame {c c1 : Controller} (h : c.selection_frame c1) (req : Request)
    (used : List (List Int)) :
    c1.violates_access_bank_parallelism req used = c.violates_access_bank_parallelism req used := by
  simp only [Controller.violates_access_bank_parallelism, Controller.bank_key, h.2.2.2.1]

theorem priority_head_frame (c1 : Controller) (head req : Request) (rest : List Request)
    (hp : c1.m_priority_buffer.buffer = head :: rest)
    (hreq : req.forget_command = head.forget_command) :
    c1.selection_frame (c1.setBuf .priority ⟨req :: rest, c1.m_priority_buffer.max_size⟩) := by
  apply selection_frame_setBuf
  · simp only [ReqBuffer.entries, Controller.getBuf, hp, List.map_cons, hreq]
  · rfl

theorem schedule_request_filtered_spec (sched : IScheduler) (c : Controller)
    (used : List (List Int)) :
    c.selection_frame (c.schedule_request_filtered sched used).2 ∧
    ∀ s : Selected, (c.schedule_request_filtered sched used).1 = some s →
      ((c.schedule_request_filtered sched used).2.getBuf s.req_buffer).buffer[s.req_it]? =
        some s.req ∧
      s.req.command = c.m_dram.get_preq_command s.req.final_command s.req.addr_vec ∧
      c.m_dram.check_ready s.req.command s.req.addr_vec = true ∧
      ((m_command_meta s.req.command).is_closing = true →
        ∀ e ∈ c.m_active_buffer.buffer, c.is_matching e.addr_vec s.req.addr_vec = false) ∧
      (s.req_buffer ≠ .priority → c.violates_access_bank_parallelism s.req used = false) := by
  obtain ⟨hfa, hsa⟩ := select_active_spec sched c used
  cases hra : c.select_active sched used with
  | mk sa c1 =>
    rw [hra] at hfa hsa
    simp only at hfa hsa
    cases sa with
    | some s0 =>
      rw [schedule_of_active sched c c1 used s0 hra]
      refine ⟨hfa, fun s hs => ?_⟩
      dsimp only at hs
      obtain ⟨e, hz⟩ := hazard_filter_some c1 _ s hs
      have e' : s0 = s := Option.some.inj e
      subst e'
      obtain ⟨h1, h2, h3, h4, h5⟩ := hsa s0 rfl
      exact ⟨h2, h3, h4, fun hc => no_match_frame hfa _ (hz hc), fun _ => h5⟩
    | none =>
      cases hpb : c1.m_priority_buffer.buffer with
      | nil =>
        rw [schedule_of_read_write sched c c1 used hra hpb]
        obtain ⟨hfr, hsr⟩ := select_read_write_spec sched c1 used
        have hf2 := selection_frame_trans hfa hfr
        refine ⟨hf2, fun s hs => ?_⟩
        dsimp only at hs
        obtain ⟨e, hz⟩ := hazard_filter_some _ _ s hs
        obtain ⟨h1, h2, h3, h4, h5⟩ := hsr s e
        rw [hfa.2.1] at h3 h4
        refine ⟨h2, h3, h4, fun hc => no_match_frame hf2 _ (hz hc), fun _ => ?_⟩
        rw [← violates_frame hfa]; exact h5
      | cons head rest =>
        rw [schedule_of_priority sched c c1 used head _ rest hra hpb rfl]
        have hfp := priority_head_frame c1 head
          { head with command := c1.m_dram.get_preq_command head.final_command head.addr_vec }
          rest hpb rfl
        have hf2 := selection_frame_trans hfa hfp
        split
        · rename_i hr
          refine ⟨hf2, fun s hs => ?_⟩
          dsimp only at hs
          obtain ⟨e, hz⟩ := hazard_filter_some _ _ s hs
          have e' := Option.some.inj e
          subst e'
          refine ⟨?_, ?_, ?_, fun hc => no_match_frame hf2 _ (hz hc), fun hne => absurd rfl hne⟩
          · simp only [getBuf_setBuf_same, List.getElem?_cons_zero]
          · simp only [hfa.2.1]
          · rw [← hfa.2.1]; exact hr
        · exact ⟨hf2, fun s hs => by simp at hs⟩

theorem hazard_filter_reject (c : Controller) (s : Selected)
    (hc : (m_command_meta s.req.command).is_closing = true)
    (hm : ∃ e ∈ c.m_active_buffer.buffer, c.is_matching e.addr_vec s.req.addr_vec = true) :
    c.hazard_filter (some s) = none := by
  have ha : c.m_active_buffer.buffer.any
      (fun e => c.is_matching e.addr_vec s.req.addr_vec) = true := by
    rw [List.any_eq_true]; exact hm
  simp [Controller.hazard_filter, hc, ha]

theorem hazard_filter_pass (c : Controller) (s : Selected)
    (h : ¬ ((m_command_meta s.req.command).is_closing = true ∧
      ∃ e ∈ c.m_active_buffer.buffer, c.is_matching e.addr_vec s.req.addr_vec = true)) :
    c.hazard_filter (some s) = some s := by
  unfold Controller.hazard_filter
  dsimp only
  by_cases hc : (m_command_meta s.req.command).is_closing = true
  · have ha : ¬ (c.m_active_buffer.buffer.any
        (fun e => c.is_matching e.addr_vec s.req.addr_vec) = true) := by
      rw [List.any_eq_true]; exact fun hm => h ⟨hc, hm⟩
    simp only [hc, if_true, ha, if_false]
    simp
  · simp [hc]

theorem match_frame {c c1 : Controller} (h : c.selection_frame c1) (a : AddrVec) :
    (∃ e ∈ c1.m_active_buffer.buffer, c1.is_matching e.addr_vec a = true) ↔
      ∃ e ∈ c.m_active_buffer.buffer, c.is_matching e.addr_vec a = true := by
  constructor
  · rintro ⟨e, he, hm⟩
    obtain ⟨e1, h1, h2⟩ := entries_mem_addr (h.2.2.2.2.2 .active).1.symm e he
    exact ⟨e1, h1, by rw [h2, ← is_matching_frame h]; exact hm⟩
  · rintro ⟨e, he, hm⟩
    obtain ⟨e1, h1, h2⟩ := entries_mem_addr (h.2.2.2.2.2 .active).1 e he
    exact ⟨e1, h1, by rw [h2, is_matching_frame h]; exact hm⟩

/-- Counterexample to C5 as stated: no active-buffer request is accepted, the priority
buffer holds one request and the prerequisite (PRE) of that head is ready, yet the slot
selects nothing, because the hazard filter finds an active-buffer entry on the bank. -/
theorem schedule_priority_head_counterexample :
    (ctrl_hazard.select_active fcfs []).1 = none ∧
    ctrl_hazard.m_priority_buffer.buffer.length = 1 ∧
    ctrl_hazard.m_dram.get_preq_command .RD [0, 0, 0, 3, 8, 0] = .PRE ∧
    ctrl_hazard.m_dram.check_ready .PRE [0, 0, 0, 3, 8, 0] = true ∧
    (ctrl_hazard.schedule_request_filtered fcfs []).1 = none := by
  decide

/-- C5 (amended): while the priority buffer is non-empty, a slot never selects a request
of the read or write buffer. If moreover no active-buffer request is accepted, a
selected request can only be the priority head with its prerequisite command; the
slot selects nothing when that command is not ready, and also when it is ready but
closing with an active-buffer entry matching the head's address through the bank
level; in every other case the head is selected. -/
theorem schedule_priority_head (sched : IScheduler) (c : Controller) (used : List (List Int))
    (head : Request) (rest : List Request)
    (hp : c.m_priority_buffer.buffer = head :: rest) :
    (∀ s : Selected, (c.schedule_request_filtered sched used).1 = some s →
      s.req_buffer ≠ .read ∧ s.req_buffer ≠ .write) ∧
    ((c.select_active sched used).1 = none →
      (∀ s : Selected, (c.schedule_request_filtered sched used).1 = some s →
        s = ⟨.priority, 0, { head with
          command := c.m_dram.get_preq_command head.final_command head.addr_vec }⟩) ∧
      (c.m_dram.check_ready (c.m_dram.get_preq_command head.final_command head.addr_vec)
          head.addr_vec = false →
        (c.schedule_request_filtered sched used).1 = none) ∧
      (c.m_dram.check_ready (c.m_dram.get_preq_command head.final_command head.addr_vec)
          head.addr_vec = true →
        ((m_command_meta (c.m_dram.get_preq_command head.final_command
            head.addr_vec)).is_closing = true ∧
          ∃ e ∈ c.m_active_buffer.buffer, c.is_matching e.addr_vec head.addr_vec = true) →
        (c.schedule_request_filtered sched used).1 = none) ∧
      (c.m_dram.check_ready (c.m_dram.get_preq_command head.final_command head.addr_vec)
          head.addr_vec = true →
        ¬ ((m_command_meta (c.m_dram.get_preq_command head.final_command
            head.addr_vec)).is_closing = true ∧
          ∃ e ∈ c.m_active_buffer.buffer, c.is_matching e.addr_vec head.addr_vec = true) →
        (c.schedule_request_filtered sched used).1 = some ⟨.priority, 0, { head with
          command := c.m_dram.get_preq_command head.final_command head.addr_vec }⟩)) := by
  obtain ⟨hfa, hsa⟩ := select_active_spec sched c used
  have hsnd := select_active_snd sched c used
  cases hra : c.select_active sched used with
  | mk sa c1 =>
    rw [hra] at hfa hsa hsnd
    simp only at hfa hsa hsnd
    have hp1 : c1.m_priority_buffer.buffer = head :: rest := by rw [hsnd]; exact hp
    have hd : c1.m_dram = c.m_dram := hfa.2.1
    have hfp := priority_head_frame c1 head
      { head with command := c1.m_dram.get_preq_command head.final_command head.addr_vec }
      rest hp1 rfl
    have hf2 := selection_frame_trans hfa hfp
    cases sa with
    | some s0 =>
      refine ⟨fun s hs => ?_, fun h => by simp at h⟩
      rw [schedule_of_active sched c c1 used s0 hra] at hs
      dsimp only at hs
      have e := (hazard_filter_some c1 _ s hs).1
      have e' : s0 = s := Option.some.inj e
      subst e'
      rw [(hsa s0 rfl).1]
      exact ⟨by decide, by decide⟩
    | none =>
      have heq := schedule_of_priority sched c c1 used head _ rest hra hp1 rfl
      rw [hd] at heq
      have hsel : ∀ s : Selected, (c.schedule_request_filtered sched used).1 = some s →
          s = ⟨.priority, 0, { head with
            command := c.m_dram.get_preq_command head.final_command head.addr_vec }⟩ := by
        intro s hs
        rw [heq] at hs
        split at hs
        · dsimp only at hs
          exact (Option.some.inj (hazard_filter_some _ _ s hs).1).symm
        · simp at hs
      refine ⟨fun s hs => ?_, fun _ => ⟨hsel, fun hr => ?_, fun hr hm => ?_, fun hr hm => ?_⟩⟩
      · rw [hsel s hs]
        exact ⟨fun h => BufId.noConfusion h, fun h => BufId.noConfusion h⟩
      · rw [heq]
        simp only [hr]
        simp
      · rw [heq]
        simp only [hr, if_true]
        rw [hd] at hf2
        exact hazard_filter_reject _ _ hm.1 ((match_frame hf2 _).mpr hm.2)
      · rw [heq]
        simp only [hr, if_true]
        rw [hd] at hf2
        exact hazard_filter_pass _ _ (fun hx => hm ⟨hx.1, (match_frame hf2 _).mp hx.2⟩)

/-- Witness for C5 (amended): with the write of the active buffer on another bank, the
priority head of `ctrl_priority_pre` is selected with its PRE. -/
theorem schedule_priority_head_witness :
    (ctrl_priority_pre.select_active fcfs []).1 = none ∧
    (ctrl_priority_pre.schedule_request_filtered fcfs []).1 =
      some ⟨.priority, 0, read_b3_r8_pre⟩ :=
  ⟨by decide,
    (schedule_priority_head fcfs ctrl_priority_pre []
      { read_b3_r8_pre with command := .ACT } [] rfl).2 (by decide)
      |>.2.2.2 (by decide) (by decide)⟩

/-! ## The issue slot -/

theorem update_request_stats_fst (c : Controller) (req : Request) :
    (c.update_request_stats req).1 = { req with is_stat_updated := true } := by
  unfold Controller.update_request_stats
  dsimp only
  split_ifs <;> rfl

theorem update_request_stats_snd (c : Controller) (req : Request) :
    (c.update_request_stats req).2.m_clk = c.m_clk ∧
    (c.update_request_stats req).2.m_dram = c.m_dram ∧
    (c.update_request_stats req).2.pending = c.pending ∧
    (c.update_request_stats req).2.m_bank_addr_idx = c.m_bank_addr_idx ∧
    (c.update_request_stats req).2.m_bank_parallel_ports = c.m_bank_parallel_ports ∧
    ∀ b : BufId, (c.update_request_stats req).2.getBuf b = c.getBuf b := by
  unfold Controller.update_request_stats
  dsimp only
  split_ifs <;> exact ⟨rfl, rfl, rfl, rfl, rfl, fun b => by cases b <;> rfl⟩

theorem stat_step_fst (c : Controller) (req : Request) :
    (if req.is_stat_updated = false then c.update_request_stats req else (req, c)).1 =
      { req with is_stat_updated := true } := by
  by_cases h : req.is_stat_updated = false
  · simp only [h, if_true]; exact update_request_stats_fst c req
  · have ht : req.is_stat_updated = true := by simpa using h
    simp only [h, if_false]
    cases req
    simp only at ht
    subst ht
    rfl

theorem stat_step_snd (c : Controller) (req : Request) :
    (if req.is_stat_updated = false then c.update_request_stats req else (req, c)).2.m_clk =
      c.m_clk ∧
    (if req.is_stat_updated = false then c.update_request_stats req else (req, c)).2.m_dram =
      c.m_dram ∧
    (if req.is_stat_updated = false then c.update_request_stats req else (req, c)).2.pending =
      c.pending ∧
    (if req.is_stat_updated = false then c.update_request_stats req
      else (req, c)).2.m_bank_addr_idx = c.m_bank_addr_idx ∧
    (if req.is_stat_updated = false then c.update_request_stats req
      else (req, c)).2.m_bank_parallel_ports = c.m_bank_parallel_ports ∧
    ∀ b : BufId,
      (if req.is_stat_updated = false then c.update_request_stats req else (req, c)).2.getBuf b =
        c.getBuf b := by
  by_cases h : req.is_stat_updated = false
  · simp only [h, if_true]; exact update_request_stats_snd c req
  · simp only [h, if_false]
    exact ⟨rfl, rfl, rfl, rfl, rfl, fun _ => rfl⟩

theorem issue_command_timing_vals (d : Mono3D) (cmd : Command) (a : AddrVec) :
    (d.issue_command cmd a).m_timing_vals = d.m_timing_vals ∧
    (d.issue_command cmd a).m_clk = d.m_clk := by
  unfold Mono3D.issue_command Mono3D.update_states
  split <;> exact ⟨rfl, rfl⟩

theorem issue_selected_issued (c : Controller) (used : List (List Int)) (b : BufId) (it : Nat)
    (req : Request) :
    (c.issue_selected used b it req).2.2 = (req.command, req.addr_vec) := by
  unfold Controller.issue_selected
  dsimp only
  have h1 := stat_step_fst c req
  generalize (if req.is_stat_updated = false then c.update_request_stats req else (req, c)) =
    su at h1
  obtain ⟨r1, cs⟩ := su
  simp only at h1
  subst h1
  split_ifs <;> rfl

theorem setBuf_fields (c : Controller) (b : BufId) (v : ReqBuffer) :
    (c.setBuf b v).m_clk = c.m_clk ∧ (c.setBuf b v).pending = c.pending ∧
    (c.setBuf b v).m_bank_parallel_ports = c.m_bank_parallel_ports ∧
    (c.setBuf b v).m_dram = c.m_dram ∧
    (c.setBuf b v).m_bank_addr_idx = c.m_bank_addr_idx := by
  cases b <;> exact ⟨rfl, rfl, rfl, rfl, rfl⟩

theorem issue_selected_clk (c : Controller) (used : List (List Int)) (b : BufId) (it : Nat)
    (req : Request) :
    (c.issue_selected used b it req).1.m_clk = c.m_clk ∧
    (c.issue_selected used b it req).1.m_bank_parallel_ports = c.m_bank_parallel_ports := by
  unfold Controller.issue_selected
  dsimp only
  obtain ⟨h1, _, _, _, h5, _⟩ := stat_step_snd c req
  generalize (if req.is_stat_updated = false then c.update_request_stats req else (req, c)) =
    su at h1 h5
  obtain ⟨r1, cs⟩ := su
  simp only at h1 h5
  split_ifs <;> simp only [setBuf_fields, h1, h5, and_self]

theorem issue_slot_of_some (sched : IScheduler) (rowpolicy : IRowPolicy) (c : Controller)
    (used : List (List Int)) (s : Selected)
    (h : (c.schedule_request_filtered sched used).1 = some s) :
    (c.issue_slot sched rowpolicy used).ctrl =
      ((c.schedule_request_filtered sched used).2.issue_selected used s.req_buffer s.req_it
        (rowpolicy.update (c.schedule_request_filtered sched used).2.m_dram s.req)).1 ∧
    (c.issue_slot sched rowpolicy used).issued =
      some ((c.schedule_request_filtered sched used).2.issue_selected used s.req_buffer s.req_it
        (rowpolicy.update (c.schedule_request_filtered sched used).2.m_dram s.req)).2.2 := by
  unfold Controller.issue_slot
  dsimp only
  rw [h]
  exact ⟨rfl, rfl⟩

theorem issue_slot_of_none (sched : IScheduler) (rowpolicy : IRowPolicy) (c : Controller)
    (used : List (List Int))
    (h : (c.schedule_request_filtered sched used).1 = none) :
    (c.issue_slot sched rowpolicy used).ctrl = (c.schedule_request_filtered sched used).2 ∧
    (c.issue_slot sched rowpolicy used).issued = none := by
  unfold Controller.issue_slot
  dsimp only
  rw [h]
  exact ⟨rfl, rfl⟩

/-- C6: `schedule_request_filtered` never accepts a request whose command is closing (PRE,
RDA, WRA) while an entry of the active buffer matches the request's address at every
level from the channel through the bank (components match when equal or when either is
`-1`); so, with a row policy that does not change the command, a closing command
issued in a slot of a tick belongs to a selected request whose address no entry of the
active buffer matches. -/
theorem schedule_closing_hazard (sched : IScheduler) (rowpolicy : IRowPolicy) (c : Controller)
    (used : List (List Int)) :
    (∀ s : Selected, (c.schedule_request_filtered sched used).1 = some s →
      (m_command_meta s.req.command).is_closing = true →
      ∀ e ∈ c.m_active_buffer.buffer,
        ¬ ∀ i : Nat, i < (c.m_bank_addr_idx + 1).toNat →
          addrAt e.addr_vec i = addrAt s.req.addr_vec i ∨ addrAt e.addr_vec i = -1 ∨
            addrAt s.req.addr_vec i = -1) ∧
    ((∀ (d : Mono3D) (r : Request), (rowpolicy.update d r).command = r.command) →
      ∀ (cmd : Command) (a : AddrVec),
        (c.issue_slot sched rowpolicy used).issued = some (cmd, a) →
        (m_command_meta cmd).is_closing = true →
        ∃ s : Selected, (c.schedule_request_filtered sched used).1 = some s ∧
          s.req.command = cmd ∧ (rowpolicy.update c.m_dram s.req).addr_vec = a ∧
          ∀ e ∈ c.m_active_buffer.buffer,
            ¬ ∀ i : Nat, i < (c.m_bank_addr_idx + 1).toNat →
              addrAt e.addr_vec i = addrAt s.req.addr_vec i ∨ addrAt e.addr_vec i = -1 ∨
                addrAt s.req.addr_vec i = -1) := by
  have key : ∀ s : Selected, (c.schedule_request_filtered sched used).1 = some s →
      (m_command_meta s.req.command).is_closing = true →
      ∀ e ∈ c.m_active_buffer.buffer,
        ¬ ∀ i : Nat, i < (c.m_bank_addr_idx + 1).toNat →
          addrAt e.addr_vec i = addrAt s.req.addr_vec i ∨ addrAt e.addr_vec i = -1 ∨
            addrAt s.req.addr_vec i = -1 := by
    intro s hs hc e he hall
    have hf := ((schedule_request_filtered_spec sched c used).2 s hs).2.2.2.1 hc e he
    have ht := (is_matching_iff c e.addr_vec s.req.addr_vec).mpr hall
    rw [hf] at ht
    exact Bool.false_ne_true ht
  refine ⟨key, fun hrp cmd a hi hc => ?_⟩
  have hd := (schedule_request_filtered_spec sched c used).1.2.1
  cases hsel : (c.schedule_request_filtered sched used).1 with
  | none =>
    rw [(issue_slot_of_none sched rowpolicy c used hsel).2] at hi
    exact Option.noConfusion hi
  | some s =>
    rw [(issue_slot_of_some sched rowpolicy c used s hsel).2, issue_selected_issued, hd] at hi
    have e2 := Option.some.inj hi
    rw [hrp _ s.req] at e2
    have e3 : s.req.command = cmd := congrArg Prod.fst e2
    have e4 : (rowpolicy.update c.m_dram s.req).addr_vec = a := congrArg Prod.snd e2
    subst e3
    exact ⟨s, rfl, rfl, e4, key s hsel hc⟩

/-- Witness for C6: the slot of `ctrl_priority_pre` issues the PRE of the priority head on
bank 3, and the entry of the active buffer (bank 2) does not match its address. -/
theorem schedule_closing_hazard_witness :
    (ctrl_priority_pre.issue_slot fcfs keep_row_open []).issued =
      some (.PRE, [0, 0, 0, 3, 8, 0]) ∧
    ∃ s : Selected, (ctrl_priority_pre.schedule_request_filtered fcfs []).1 = some s ∧
      s.req.command = .PRE ∧ s.req.addr_vec = [0, 0, 0, 3, 8, 0] ∧
      ∀ e ∈ ctrl_priority_pre.m_active_buffer.buffer,
        ¬ ∀ i : Nat, i < (ctrl_priority_pre.m_bank_addr_idx + 1).toNat →
          addrAt e.addr_vec i = addrAt s.req.addr_vec i ∨ addrAt e.addr_vec i = -1 ∨
            addrAt s.req.addr_vec i = -1 :=
  ⟨by decide,
    (schedule_closing_hazard fcfs keep_row_open ctrl_priority_pre []).2
      (fun _ _ => rfl) .PRE [0, 0, 0, 3, 8, 0] (by decide) (by decide)⟩

theorem issue_selected_final (c : Controller) (used : List (List Int)) (b : BufId) (it : Nat)
    (req : Request) (hfin : req.command = req.final_command)
    (hty : req.type_id = Request.Type.Read ∨ req.type_id = Request.Type.Write) :
    (c.issue_selected used b it req).1.pending =
      c.pending ++ [{ req with
        is_stat_updated := true,
        depart := if req.type_id = Request.Type.Read then
            c.m_clk + (c.m_dram.m_timing_vals.nCL + c.m_dram.m_timing_vals.nBL)
          else c.m_clk + 1 }] ∧
    (c.issue_selected used b it req).1.getBuf b = (c.getBuf b).remove it ∧
    ∀ b1 : BufId, b1 ≠ b → (c.issue_selected used b it req).1.getBuf b1 = c.getBuf b1 := by
  unfold Controller.issue_selected
  dsimp only
  have h1 := stat_step_fst c req
  obtain ⟨g1, g2, g3, g4, g5, g6⟩ := stat_step_snd c req
  generalize (if req.is_stat_updated = false then c.update_request_stats req else (req, c)) =
    su at h1 g1 g2 g3 g4 g5 g6
  obtain ⟨r1, cs⟩ := su
  simp only at h1 g1 g2 g3 g4 g5 g6
  subst h1
  simp only [hfin, if_true]
  have hb : ∀ (x : Mono3D) (p : List Request),
      ({ cs with m_dram := x, pending := p } : Controller).getBuf b = c.getBuf b := by
    intro x p
    rw [← g6 b]
    cases b <;> rfl
  have hb1 : ∀ (x : Mono3D) (p : List Request) (b1 : BufId),
      ({ cs with m_dram := x, pending := p } : Controller).getBuf b1 = c.getBuf b1 := by
    intro x p b1
    rw [← g6 b1]
    cases b1 <;> rfl
  rcases hty with h | h
  · simp only [h, if_true]
    refine ⟨?_, ?_, fun b1 hne => ?_⟩
    · rw [(setBuf_fields _ _ _).2.1]
      simp only [Mono3D.m_read_latency, (issue_command_timing_vals _ _ _).1, g1, g2, g3]
    · rw [getBuf_setBuf_same, hb]
    · rw [getBuf_setBuf_ne _ _ _ _ hne, hb1]
  · have hne : ¬ (req.type_id = Request.Type.Read) := by rw [h]; decide
    simp only [h, hne, if_true, if_false]
    have hw : ¬ (Request.Type.Write = Request.Type.Read) := by decide
    simp only [hw, if_false]
    refine ⟨?_, ?_, fun b1 hne => ?_⟩
    · rw [(setBuf_fields _ _ _).2.1]
      simp only [g1, g3]
    · rw [getBuf_setBuf_same, hb]
    · rw [getBuf_setBuf_ne _ _ _ _ hne, hb1]

theorem issue_selected_final_other (c : Controller) (used : List (List Int)) (b : BufId)
    (it : Nat) (req : Request) (hfin : req.command = req.final_command)
    (hr : req.type_id ≠ Request.Type.Read) (hw : req.type_id ≠ Request.Type.Write) :
    (c.issue_selected used b it req).1.pending = c.pending ∧
    (c.issue_selected used b it req).1.getBuf b = (c.getBuf b).remove it ∧
    ∀ b1 : BufId, b1 ≠ b → (c.issue_selected used b it req).1.getBuf b1 = c.getBuf b1 := by
  unfold Controller.issue_selected
  dsimp only
  have h1 := stat_step_fst c req
  obtain ⟨g1, g2, g3, g4, g5, g6⟩ := stat_step_snd c req
  generalize (if req.is_stat_updated = false then c.update_request_stats req else (req, c)) =
    su at h1 g1 g2 g3 g4 g5 g6
  obtain ⟨r1, cs⟩ := su
  simp only at h1 g1 g2 g3 g4 g5 g6
  subst h1
  simp only [hfin, if_true, hr, hw, if_false]
  have hb1 : ∀ (x : Mono3D) (b1 : BufId),
      ({ cs with m_dram := x } : Controller).getBuf b1 = c.getBuf b1 := by
    intro x b1
    rw [← g6 b1]
    cases b1 <;> rfl
  refine ⟨?_, ?_, fun b1 hne => ?_⟩
  · rw [(setBuf_fields _ _ _).2.1]
    exact g3
  · rw [getBuf_setBuf_same, hb1]
  · rw [getBuf_setBuf_ne _ _ _ _ hne, hb1]

/-- Counterexample to C10 as stated: `priority_send` admits an open-row request, whose
final command is ACT; in the slot of `ctrl_open_row` (clock 5) the request is accepted
with command ACT, equal to its final command, and it is removed from the priority
buffer while `pending` stays empty: no copy is appended. -/
theorem issue_slot_open_row_counterexample :
    (({ idle_ctrl with m_clk := 5 } : Controller).priority_send
        (mk_request 2 1792 addr_b3_r7)).toOption.map
      (fun r => (r.1, r.2.2.m_priority_buffer.buffer)) = some (true, [open_row_b3_r7]) ∧
    (ctrl_open_row.schedule_request_filtered fcfs []).1 =
      some ⟨.priority, 0, { open_row_b3_r7 with command := .ACT }⟩ ∧
    open_row_b3_r7.final_command = .ACT ∧
    ((ctrl_open_row.issue_slot fcfs keep_row_open []).ctrl.getBuf .priority).entries = [] ∧
    (ctrl_open_row.issue_slot fcfs keep_row_open []).ctrl.pending = [] := by
  decide

/-- C10 (amended): in a slot whose accepted request (after the row policy) has its command
equal to its final command, a Read gets `depart = m_clk + nCL + nBL` and a Write gets
`depart = m_clk + 1`, and a copy of it (its statistics latch set) is appended to the
back of `pending`; for a request of any other type `pending` is unchanged; in every
case the request is removed from the buffer it was selected from, and every other
buffer holds the same requests as before. -/
theorem issue_slot_final_command (sched : IScheduler) (rowpolicy : IRowPolicy)
    (c : Controller) (used : List (List Int)) (s : Selected)
    (hsel : (c.schedule_request_filtered sched used).1 = some s)
    (hfin : (rowpolicy.update c.m_dram s.req).command =
      (rowpolicy.update c.m_dram s.req).final_command) :
    ((rowpolicy.update c.m_dram s.req).type_id = Request.Type.Read →
      (c.issue_slot sched rowpolicy used).ctrl.pending =
        c.pending ++ [{ (rowpolicy.update c.m_dram s.req) with
          is_stat_updated := true,
          depart := c.m_clk + (c.m_dram.m_timing_vals.nCL + c.m_dram.m_timing_vals.nBL) }]) ∧
    ((rowpolicy.update c.m_dram s.req).type_id = Request.Type.Write →
      (c.issue_slot sched rowpolicy used).ctrl.pending =
        c.pending ++ [{ (rowpolicy.update c.m_dram s.req) with
          is_stat_updated := true, depart := c.m_clk + 1 }]) ∧
    ((rowpolicy.update c.m_dram s.req).type_id ≠ Request.Type.Read →
      (rowpolicy.update c.m_dram s.req).type_id ≠ Request.Type.Write →
      (c.issue_slot sched rowpolicy used).ctrl.pending = c.pending) ∧
    (c.getBuf s.req_buffer).entries[s.req_it]? = some s.req.forget_command ∧
    ((c.issue_slot sched rowpolicy used).ctrl.getBuf s.req_buffer).entries =
      (c.getBuf s.req_buffer).entries.eraseIdx s.req_it ∧
    ∀ b : BufId, b ≠ s.req_buffer →
      ((c.issue_slot sched rowpolicy used).ctrl.getBuf b).entries = (c.getBuf b).entries := by
  obtain ⟨hfr, hs⟩ := schedule_request_filtered_spec sched c used
  have hget := (hs s hsel).1
  rw [(issue_slot_of_some sched rowpolicy c used s hsel).1]
  generalize (c.schedule_request_filtered sched used).2 = c1 at hfr hget
  obtain ⟨f1, f2, f3, f4, f5, f6⟩ := hfr
  rw [f2]
  have hbufs : (c1.issue_selected used s.req_buffer s.req_it
        (rowpolicy.update c.m_dram s.req)).1.getBuf s.req_buffer =
        (c1.getBuf s.req_buffer).remove s.req_it ∧
      ∀ b1 : BufId, b1 ≠ s.req_buffer →
        (c1.issue_selected used s.req_buffer s.req_it
          (rowpolicy.update c.m_dram s.req)).1.getBuf b1 = c1.getBuf b1 := by
    by_cases hr : (rowpolicy.update c.m_dram s.req).type_id = Request.Type.Read
    · exact (issue_selected_final c1 used _ _ _ hfin (Or.inl hr)).2
    · by_cases hw : (rowpolicy.update c.m_dram s.req).type_id = Request.Type.Write
      · exact (issue_selected_final c1 used _ _ _ hfin (Or.inr hw)).2
      · exact (issue_selected_final_other c1 used _ _ _ hfin hr hw).2
  refine ⟨fun hr => ?_, fun hw => ?_, fun hr hw => ?_, ?_, ?_, fun b hb => ?_⟩
  · rw [(issue_selected_final c1 used _ _ _ hfin (Or.inl hr)).1, f1, f2, f3]
    simp only [hr, if_true]
  · rw [(issue_selected_final c1 used _ _ _ hfin (Or.inr hw)).1, f1, f2, f3]
    have hne : ¬ (Request.Type.Write = Request.Type.Read) := by decide
    simp only [hw, hne, if_false]
  · rw [(issue_selected_final_other c1 used _ _ _ hfin hr hw).1, f3]
  · rw [← (f6 s.req_buffer).1]
    simp only [ReqBuffer.entries, List.getElem?_map, hget, Option.map_some']
  · rw [hbufs.1, ← (f6 s.req_buffer).1]
    simp only [ReqBuffer.entries, ReqBuffer.remove]
    exact map_eraseIdx_eq _ _ _
  · rw [hbufs.2 b hb, (f6 b).1]

/-- Witness for C10 (amended): the slot of `ctrl_row_hit` (clock 31) issues the RD of the
queued read of the open row; the read leaves the read buffer and enters `pending` with
`depart = 31 + 10 + 1`. -/
theorem issue_slot_final_command_witness :
    (ctrl_row_hit.schedule_request_filtered fcfs []).1 =
      some ⟨.read, 0, { read_b3_r7_queued with command := .RD }⟩ ∧
    (ctrl_row_hit.issue_slot fcfs keep_row_open []).ctrl.pending =
      [{ read_b3_r7_queued with command := .RD, is_stat_updated := true, depart := 42 }] ∧
    ((ctrl_row_hit.issue_slot fcfs keep_row_open []).ctrl.getBuf .read).entries = [] ∧
    ((ctrl_row_hit.issue_slot fcfs keep_row_open []).ctrl.getBuf .write).entries = [] :=
  ⟨by decide,
    (issue_slot_final_command fcfs keep_row_open ctrl_row_hit []
      ⟨.read, 0, { read_b3_r7_queued with command := .RD }⟩ (by decide) (by decide)).1
      (by decide),
    (issue_slot_final_command fcfs keep_row_open ctrl_row_hit []
      ⟨.read, 0, { read_b3_r7_queued with command := .RD }⟩ (by decide)
      (by decide)).2.2.2.2.1,
    (issue_slot_final_command fcfs keep_row_open ctrl_row_hit []
      ⟨.read, 0, { read_b3_r7_queued with command := .RD }⟩ (by decide)
      (by decide)).2.2.2.2.2 .write (by decide)⟩

/-! ## The cycle -/

theorem issue_slot_clk (sched : IScheduler) (rowpolicy : IRowPolicy) (c : Controller)
    (used : List (List Int)) :
    (c.issue_slot sched rowpolicy used).ctrl.m_clk = c.m_clk := by
  have hfr := (schedule_request_filtered_spec sched c used).1
  cases hsel : (c.schedule_request_filtered sched used).1 with
  | none => rw [(issue_slot_of_none sched rowpolicy c used hsel).1]; exact hfr.1
  | some s =>
    rw [(issue_slot_of_some sched rowpolicy c used s hsel).1, (issue_selected_clk _ _ _ _ _).1]
    exact hfr.1

theorem issue_loop_clk (sched : IScheduler) (rowpolicy : IRowPolicy) :
    ∀ (budget : Nat) (c : Controller) (used : List (List Int)),
      (Controller.issue_loop sched rowpolicy budget c used).1.m_clk = c.m_clk := by
  intro budget
  induction budget with
  | zero => intro c used; rfl
  | succ n ih =>
    intro c used
    unfold Controller.issue_loop
    cases h : (c.issue_slot sched rowpolicy used).issued with
    | none => simp only; exact issue_slot_clk sched rowpolicy c used
    | some cmd =>
      simp only
      rw [ih]
      exact issue_slot_clk sched rowpolicy c used

theorem issue_loop_length (sched : IScheduler) (rowpolicy : IRowPolicy) :
    ∀ (budget : Nat) (c : Controller) (used : List (List Int)),
      (Controller.issue_loop sched rowpolicy budget c used).2.length ≤ budget := by
  intro budget
  induction budget with
  | zero => intro c used; simp [Controller.issue_loop]
  | succ n ih =>
    intro c used
    unfold Controller.issue_loop
    cases h : (c.issue_slot sched rowpolicy used).issued with
    | none => simp
    | some cmd =>
      simp only [List.length_cons]
      exact Nat.succ_le_succ (ih _ _)

theorem serve_completed_pending_fields (c : Controller) :
    c.serve_completed_pending.1.m_clk = c.m_clk ∧
    c.serve_completed_pending.1.m_bank_parallel_ports = c.m_bank_parallel_ports := by
  unfold Controller.serve_completed_pending
  split
  · exact ⟨rfl, rfl⟩
  · dsimp only
    split_ifs <;> exact ⟨rfl, rfl⟩

/-- C4: one call of `tick` gives at most `max(1, bank_parallel_ports_per_layer)` commands
to `issue_command`, and the controller clock grows by exactly one. -/
theorem tick_issue_budget (sched : IScheduler) (rowpolicy : IRowPolicy) (c : Controller) :
    (c.tick sched rowpolicy).issued.length ≤ max 1 c.m_bank_parallel_ports ∧
    (c.tick sched rowpolicy).ctrl.m_clk = c.m_clk + 1 := by
  unfold Controller.tick
  dsimp only
  refine ⟨?_, ?_⟩
  · refine le_trans (issue_loop_length sched rowpolicy _ _ _) ?_
    rw [(serve_completed_pending_fields _).2]
  · rw [issue_loop_clk, (serve_completed_pending_fields _).1]

/-- Evaluation for C3 at the failing input: with two ports and zero-cycle channel gaps,
one tick takes both reads from the priority buffer and issues two RD commands whose
addresses have the same bank key (bank 3). -/
theorem tick_priority_same_bank :
    (ctrl_two_priority_reads.tick fcfs keep_row_open).issued =
      [(.RD, [0, 0, 0, 3, 7, 0]), (.RD, [0, 0, 0, 3, 7, 1])] ∧
    (m_command_meta .RD).is_accessing = true ∧
    ctrl_two_priority_reads.bank_key [0, 0, 0, 3, 7, 0] =
      ctrl_two_priority_reads.bank_key [0, 0, 0, 3, 7, 1] := by
  decide

theorem eraseIdx_set_append {α : Type} (l : List α) (i : Nat) (x y : α) (h : i < l.length) :
    ((l.set i x) ++ [y]).eraseIdx i = l.eraseIdx i ++ [y] := by
  induction l generalizing i with
  | nil => simp at h
  | cons a as ih =>
    cases i with
    | zero => simp
    | succ n =>
      simp only [List.length_cons, Nat.add_lt_add_iff_right] at h
      simp only [List.set_cons_succ, List.cons_append, List.eraseIdx_cons_succ, ih n h]

theorem eraseIdx_set_same {α : Type} (l : List α) (i : Nat) (x : α) :
    (l.set i x).eraseIdx i = l.eraseIdx i := by
  induction l generalizing i with
  | nil => simp
  | cons a as ih =>
    cases i with
    | zero => simp
    | succ n => simp only [List.set_cons_succ, List.eraseIdx_cons_succ, ih n]

theorem issue_selected_not_final (c : Controller) (used : List (List Int)) (b : BufId)
    (it : Nat) (req : Request) (hne : req.command ≠ req.final_command)
    (hit : it < (c.getBuf b).buffer.length) :
    (c.issue_selected used b it req).1.pending = c.pending ∧
    (((m_command_meta req.command).is_opening = true ∧
        c.m_active_buffer.size < c.m_active_buffer.max_size) →
      ∀ b1 : BufId, ((c.issue_selected used b it req).1.getBuf b1).buffer =
        (if b1 = b then (c.getBuf b1).buffer.eraseIdx it else (c.getBuf b1).buffer) ++
          (if b1 = .active then [{ req with is_stat_updated := true }] else [])) ∧
    (¬ ((m_command_meta req.command).is_opening = true ∧
        c.m_active_buffer.size < c.m_active_buffer.max_size) →
      ∀ b1 : BufId, ((c.issue_selected used b it req).1.getBuf b1).buffer =
        if b1 = b then (c.getBuf b1).buffer.set it { req with is_stat_updated := true }
        else (c.getBuf b1).buffer) := by
  unfold Controller.issue_selected
  dsimp only
  have h1 := stat_step_fst c req
  obtain ⟨g1, g2, g3, g4, g5, g6⟩ := stat_step_snd c req
  generalize (if req.is_stat_updated = false then c.update_request_stats req else (req, c)) =
    su at h1 g1 g2 g3 g4 g5 g6
  obtain ⟨r1, cs⟩ := su
  simp only at h1 g1 g2 g3 g4 g5 g6
  subst h1
  simp only [hne, if_false]
  have ha := g6 .active
  have hp := g6 .priority
  have hr := g6 .read
  have hw := g6 .write
  simp only [Controller.getBuf] at ha hp hr hw
  refine ⟨?_, fun hop => ?_, fun hnop => ?_⟩
  · split_ifs <;> cases b <;> simp [Controller.setBuf, g3]
  · obtain ⟨ho, hs⟩ := hop
    intro b1
    cases b <;> cases b1 <;>
      simp [Controller.setBuf, Controller.getBuf, ReqBuffer.assign, ReqBuffer.enqueue,
        ReqBuffer.remove, ReqBuffer.size, ho, ha, hp, hr, hw, eraseIdx_set_same] at hs hit ⊢ <;>
      simp [hs, eraseIdx_set_append, hit, eraseIdx_set_same]
  · intro b1
    by_cases ho : (m_command_meta req.command).is_opening = true
    · have hs : ¬ c.m_active_buffer.size < c.m_active_buffer.max_size := fun h => hnop ⟨ho, h⟩
      cases b <;> cases b1 <;>
        simp [Controller.setBuf, Controller.getBuf, ReqBuffer.assign, ReqBuffer.enqueue,
          ReqBuffer.remove, ReqBuffer.size, ho, ha, hp, hr, hw] at hs hit ⊢ <;>
        simp [hs, Nat.not_lt.mpr hs]
    · cases b <;> cases b1 <;>
        simp [Controller.setBuf, Controller.getBuf, ReqBuffer.assign, ho, ha, hp, hr, hw]

theorem entries_length (b : ReqBuffer) : b.entries.length = b.size := by
  simp [ReqBuffer.entries, ReqBuffer.size]

theorem frame_size {c c1 : Controller} (h : c.selection_frame c1) (b : BufId) :
    (c1.getBuf b).size = (c.getBuf b).size := by
  rw [← entries_length, ← entries_length, (h.2.2.2.2.2 b).1]

/-- C11: in a slot whose accepted request (after the row policy) has a command different
from its final command, `pending` is unchanged. If the command is row-opening (ACT) and
the active buffer has space, the request is removed from the buffer it was selected
from and appended (with its statistics latch set) to the active buffer. In every other
case every buffer holds the same requests as before, the selected one updated in
place. In both cases the number of requests held by the four buffers and `pending`
together is unchanged. Buffers are compared up to the `command` field. -/
theorem issue_slot_not_final_command (sched : IScheduler) (rowpolicy : IRowPolicy)
    (c : Controller) (used : List (List Int)) (s : Selected)
    (hsel : (c.schedule_request_filtered sched used).1 = some s)
    (hne : (rowpolicy.update c.m_dram s.req).command ≠
      (rowpolicy.update c.m_dram s.req).final_command) :
    (c.issue_slot sched rowpolicy used).ctrl.pending = c.pending ∧
    (c.getBuf s.req_buffer).entries[s.req_it]? = some s.req.forget_command ∧
    (((m_command_meta (rowpolicy.update c.m_dram s.req).command).is_opening = true ∧
        c.m_active_buffer.size < c.m_active_buffer.max_size) →
      ∀ b : BufId, ((c.issue_slot sched rowpolicy used).ctrl.getBuf b).entries =
        (if b = s.req_buffer then (c.getBuf b).entries.eraseIdx s.req_it
          else (c.getBuf b).entries) ++
        (if b = .active then
          [({ (rowpolicy.update c.m_dram s.req) with
              is_stat_updated := true } : Request).forget_command]
          else [])) ∧
    (¬ ((m_command_meta (rowpolicy.update c.m_dram s.req).command).is_opening = true ∧
        c.m_active_buffer.size < c.m_active_buffer.max_size) →
      ∀ b : BufId, ((c.issue_slot sched rowpolicy used).ctrl.getBuf b).entries =
        if b = s.req_buffer then
          (c.getBuf b).entries.set s.req_it
            ({ (rowpolicy.update c.m_dram s.req) with
              is_stat_updated := true } : Request).forget_command
        else (c.getBuf b).entries) ∧
    ((c.issue_slot sched rowpolicy used).ctrl.getBuf .active).size +
        ((c.issue_slot sched rowpolicy used).ctrl.getBuf .priority).size +
        ((c.issue_slot sched rowpolicy used).ctrl.getBuf .read).size +
        ((c.issue_slot sched rowpolicy used).ctrl.getBuf .write).size +
        (c.issue_slot sched rowpolicy used).ctrl.pending.length =
      (c.getBuf .active).size + (c.getBuf .priority).size + (c.getBuf .read).size +
        (c.getBuf .write).size + c.pending.length := by
  obtain ⟨hfr, hs⟩ := schedule_request_filtered_spec sched c used
  have hget := (hs s hsel).1
  rw [(issue_slot_of_some sched rowpolicy c used s hsel).1]
  generalize (c.schedule_request_filtered sched used).2 = c1 at hfr hget
  have hsz := frame_size hfr
  obtain ⟨f1, f2, f3, f4, f5, f6⟩ := hfr
  rw [f2]
  have hit : s.req_it < (c1.getBuf s.req_buffer).buffer.length := by
    by_contra hcon
    rw [List.getElem?_eq_none (Nat.le_of_not_lt hcon)] at hget
    exact Option.noConfusion hget
  have hitc : s.req_it < (c.getBuf s.req_buffer).size := by
    rw [← hsz]; exact hit
  obtain ⟨p1, p2, p3⟩ := issue_selected_not_final c1 used s.req_buffer s.req_it
    (rowpolicy.update c.m_dram s.req) hne hit
  have hact : c1.m_active_buffer.size = c.m_active_buffer.size := hsz .active
  have hmax : c1.m_active_buffer.max_size = c.m_active_buffer.max_size := (f6 .active).2
  rw [hact, hmax] at p2 p3
  have hA : ((m_command_meta (rowpolicy.update c.m_dram s.req).command).is_opening = true ∧
        c.m_active_buffer.size < c.m_active_buffer.max_size) →
      ∀ b : BufId, ((c1.issue_selected used s.req_buffer s.req_it
          (rowpolicy.update c.m_dram s.req)).1.getBuf b).entries =
        (if b = s.req_buffer then (c.getBuf b).entries.eraseIdx s.req_it
          else (c.getBuf b).entries) ++
        (if b = .active then
          [({ (rowpolicy.update c.m_dram s.req) with
              is_stat_updated := true } : Request).forget_command]
          else []) := by
    intro hop b
    rw [ReqBuffer.entries, p2 hop b, List.map_append, ← (f6 b).1]
    congr 1
    · split_ifs
      · exact map_eraseIdx_eq _ _ _
      · rfl
    · split_ifs <;> rfl
  have hB : ¬ ((m_command_meta (rowpolicy.update c.m_dram s.req).command).is_opening = true ∧
        c.m_active_buffer.size < c.m_active_buffer.max_size) →
      ∀ b : BufId, ((c1.issue_selected used s.req_buffer s.req_it
          (rowpolicy.update c.m_dram s.req)).1.getBuf b).entries =
        if b = s.req_buffer then
          (c.getBuf b).entries.set s.req_it
            ({ (rowpolicy.update c.m_dram s.req) with
              is_stat_updated := true } : Request).forget_command
        else (c.getBuf b).entries := by
    intro hop b
    rw [ReqBuffer.entries, p3 hop b, ← (f6 b).1]
    split_ifs
    · simp only [ReqBuffer.entries, List.map_set]
    · rfl
  refine ⟨by rw [p1, f3], ?_, hA, hB, ?_⟩
  · rw [← (f6 s.req_buffer).1]
    simp only [ReqBuffer.entries, List.getElem?_map, hget, Option.map_some']
  · rw [p1, f3]
    simp only [← entries_length]
    by_cases hop : ((m_command_meta (rowpolicy.update c.m_dram s.req).command).is_opening = true ∧
        c.m_active_buffer.size < c.m_active_buffer.max_size)
    · simp only [hA hop, List.length_append]
      have hl : ((c.getBuf s.req_buffer).entries.eraseIdx s.req_it).length + 1 =
          (c.getBuf s.req_buffer).entries.length := by
        rw [List.length_eraseIdx]
        rw [entries_length]
        simp only [hitc, if_true]
        omega
      cases hb : s.req_buffer <;> rw [hb] at hl <;> simp at hl ⊢ <;> omega
    · simp only [hB hop]
      cases hb : s.req_buffer <;> simp

/-- Witness for C11: the slot of `ctrl_cold_read` issues the ACT of the queued read; the
read moves from the read buffer to the active buffer and `pending` stays empty. -/
theorem issue_slot_not_final_command_witness :
    (ctrl_cold_read.schedule_request_filtered fcfs []).1 =
      some ⟨.read, 0, { read_b3_r7 with final_command := .RD, arrive := 0 }⟩ ∧
    (ctrl_cold_read.issue_slot fcfs keep_row_open []).ctrl.pending = [] ∧
    ((ctrl_cold_read.issue_slot fcfs keep_row_open []).ctrl.getBuf .read).entries = [] ∧
    ((ctrl_cold_read.issue_slot fcfs keep_row_open []).ctrl.getBuf .active).entries =
      [{ read_b3_r7 with final_command := .RD, arrive := 0, is_stat_updated := true }] :=
  ⟨by decide,
    (issue_slot_not_final_command fcfs keep_row_open ctrl_cold_read []
      ⟨.read, 0, { read_b3_r7 with final_command := .RD, arrive := 0 }⟩ (by decide)
      (by decide)).1,
    (issue_slot_not_final_command fcfs keep_row_open ctrl_cold_read []
      ⟨.read, 0, { read_b3_r7 with final_command := .RD, arrive := 0 }⟩ (by decide)
      (by decide)).2.2.1 (by decide) .read,
    (issue_slot_not_final_command fcfs keep_row_open ctrl_cold_read []
      ⟨.read, 0, { read_b3_r7 with final_command := .RD, arrive := 0 }⟩ (by decide)
      (by decide)).2.2.1 (by decide) .active⟩

theorem bitLengthAux_spec : ∀ (fuel m : Nat), m ≤ fuel →
    m < 2 ^ bitLengthAux fuel m ∧ (m ≠ 0 → 2 ^ (bitLengthAux fuel m - 1) ≤ m) := by
  intro fuel
  induction fuel with
  | zero =>
    intro m hm
    have : m = 0 := by omega
    subst this
    simp [bitLengthAux]
  | succ k ih =>
    intro m hm
    unfold bitLengthAux
    by_cases h0 : m = 0
    · subst h0; simp
    · simp only [h0, if_false]
      have hle : m / 2 ≤ k := by omega
      obtain ⟨h1, h2⟩ := ih (m / 2) hle
      constructor
      · rw [pow_succ]
        omega
      · intro _
        simp only [Nat.add_sub_cancel]
        by_cases h3 : m / 2 = 0
        · have : bitLengthAux k (m / 2) = 0 := by
            rw [h3]; cases k <;> simp [bitLengthAux]
          rw [this]
          simp
          omega
        · have h4 := h2 h3
          have h5 : 0 < bitLengthAux k (m / 2) := by
            by_contra hn
            have : bitLengthAux k (m / 2) = 0 := by omega
            rw [this] at h1
            simp at h1
            exact h3 h1
          have h6 : bitLengthAux k (m / 2) = (bitLengthAux k (m / 2) - 1) + 1 := by omega
          rw [h6, pow_succ]
          omega

theorem bitLength_spec (m : Nat) :
    m < 2 ^ bitLength m ∧ (m ≠ 0 → 2 ^ (bitLength m - 1) ≤ m) :=
  bitLengthAux_spec m m (le_refl m)

theorem bitLength_zero : bitLength 0 = 0 := rfl

theorem bitLength_le_of_lt (m k : Nat) (h : m < 2 ^ k) : bitLength m ≤ k := by
  by_cases h0 : m = 0
  · subst h0; rw [bitLength_zero]; omega
  · by_contra hn
    have h1 := (bitLength_spec m).2 h0
    have h2 : 2 ^ k ≤ 2 ^ (bitLength m - 1) := Nat.pow_le_pow_right (by decide) (by omega)
    omega

theorem ofNat_small (n : Nat) (h : n < 2 ^ 24) : F32.ofNat n = .fin false n 0 := by
  have hb := bitLength_le_of_lt n 24 h
  unfold F32.ofNat F32.round
  have hd : max (bitLength n - 24) (-149 - (0 : Int)).toNat = 0 := by
    have : bitLength n - 24 = 0 := by omega
    rw [this]; rfl
  simp only [hd, pow_zero, Nat.div_one, Nat.mod_one]
  have h1 : ¬ (1 < 2 * 0 ∨ (2 * 0 = 1 ∧ n % 2 = 1)) := by omega
  rw [if_neg h1]
  have h2 : ¬ (n ≠ 0 ∧ 128 < (bitLength n : Int) + (0 + ((0 : Nat) : Int))) := by
    intro h; omega
  rw [if_neg h2]
  simp

theorem round_exact (neg : Bool) (p : Nat) (e : Int) (h : representable p e) :
    ∃ (q : Nat) (d : Nat), F32.round neg p e = .fin neg q (e + d) ∧ q * 2 ^ d = p := by
  obtain ⟨h1, h2, h3⟩ := h
  refine ⟨p / 2 ^ (bitLength p - 24), bitLength p - 24, ?_, Nat.div_mul_cancel (Nat.dvd_of_mod_eq_zero h1)⟩
  unfold F32.round
  have hd : max (bitLength p - 24) (-149 - e).toNat = bitLength p - 24 := by
    have : (-149 - e).toNat = 0 := by omega
    rw [this]; simp
  simp only [hd, h1]
  have hc : ¬ (2 ^ (bitLength p - 24) < 2 * 0 ∨
      (2 * 0 = 2 ^ (bitLength p - 24) ∧ p / 2 ^ (bitLength p - 24) % 2 = 1)) := by
    have : 0 < 2 ^ (bitLength p - 24) := Nat.two_pow_pos _
    omega
  rw [if_neg hc]
  have hq : bitLength (p / 2 ^ (bitLength p - 24)) ≤ bitLength p - (bitLength p - 24) := by
    apply bitLength_le_of_lt
    rw [Nat.div_lt_iff_lt_mul (Nat.two_pow_pos _), ← pow_add]
    have := (bitLength_spec p).1
    have e1 : bitLength p - (bitLength p - 24) + (bitLength p - 24) = bitLength p := by omega
    rw [e1]
    exact this
  have ho : ¬ (p / 2 ^ (bitLength p - 24) ≠ 0 ∧
      128 < (bitLength (p / 2 ^ (bitLength p - 24)) : Int) + (e + ((bitLength p - 24 : Nat) : Int))) := by
    intro h
    omega
  rw [if_neg ho]

theorem lt_fin_iff (a b : Nat) (E F : Int) :
    F32.lt (.fin false a E) (.fin false b F) = true ↔
      (a : ℚ) * (2 : ℚ) ^ E < (b : ℚ) * (2 : ℚ) ^ F := by
  unfold F32.lt signed
  simp only [Bool.false_eq_true, if_false, decide_eq_true_eq, Nat.cast_lt]
  have hE : ((E - min E F).toNat : Int) = E - min E F := Int.toNat_of_nonneg (by omega)
  have hF : ((F - min E F).toNat : Int) = F - min E F := Int.toNat_of_nonneg (by omega)
  have h2 : (0 : ℚ) < (2 : ℚ) ^ (min E F) := zpow_pos (by norm_num) _
  have eE : (2 : ℚ) ^ E = (2 : ℚ) ^ ((E - min E F).toNat) * (2 : ℚ) ^ (min E F) := by
    rw [← zpow_natCast, hE, ← zpow_add₀ (by norm_num)]
    congr 1; omega
  have eF : (2 : ℚ) ^ F = (2 : ℚ) ^ ((F - min E F).toNat) * (2 : ℚ) ^ (min E F) := by
    rw [← zpow_natCast, hF, ← zpow_add₀ (by norm_num)]
    congr 1; omega
  rw [eE, eF, ← mul_assoc, ← mul_assoc, mul_lt_mul_right h2]
  constructor
  · intro h; exact_mod_cast h
  · intro h; exact_mod_cast h

theorem float_test_exact (m : Nat) (e : Int) (cap n : Nat) (hcap : cap < 2 ^ 24)
    (hn : n < 2 ^ 24) (hrep : representable (m * cap) e) :
    (F32.lt (F32.mul (.fin false m e) (F32.ofNat cap)) (F32.ofNat n) = true ↔
      (m : ℚ) * (2 : ℚ) ^ e * (cap : ℚ) < (n : ℚ)) ∧
    (F32.lt (F32.ofNat n) (F32.mul (.fin false m e) (F32.ofNat cap)) = true ↔
      (n : ℚ) < (m : ℚ) * (2 : ℚ) ^ e * (cap : ℚ)) := by
  rw [ofNat_small cap hcap, ofNat_small n hn]
  have hm : F32.mul (.fin false m e) (.fin false cap 0) = F32.round false (m * cap) e := by
    simp [F32.mul]
  obtain ⟨q, d, hq, hqd⟩ := round_exact false (m * cap) e hrep
  rw [hm, hq, lt_fin_iff, lt_fin_iff]
  have hv : (q : ℚ) * (2 : ℚ) ^ (e + (d : Int)) = (m : ℚ) * (2 : ℚ) ^ e * (cap : ℚ) := by
    rw [zpow_add₀ (by norm_num), zpow_natCast]
    have : ((q * 2 ^ d : Nat) : ℚ) = ((m * cap : Nat) : ℚ) := by rw [hqd]
    push_cast at this
    calc (q : ℚ) * ((2 : ℚ) ^ e * (2 : ℚ) ^ d) = ((q : ℚ) * (2 : ℚ) ^ d) * (2 : ℚ) ^ e := by ring
      _ = ((m : ℚ) * (cap : ℚ)) * (2 : ℚ) ^ e := by rw [this]
      _ = (m : ℚ) * (2 : ℚ) ^ e * (cap : ℚ) := by ring
  rw [hv]
  simp

/-- Counterexample to C12 as stated, in write mode with a read waiting and the low watermark
at the `float` nearest to 0.6. With capacity 5 and 3 writes, 3 is below the exact
product of the stored watermark and 5 (`3 * 2 ^ 24 < 10066330 * 5`), yet the `float`
product rounds to 3 and `set_write_mode` stays in write mode. With capacity 25 and 15
writes, 15 is not below `0.6 * 25` (the stored watermark is within half a unit in the
last place of 0.6), yet the `float` product rounds to a value above 15 and
`set_write_mode` leaves write mode. -/
theorem set_write_mode_float_counterexample :
    ((ctrl_low_watermark 5 3).m_is_write_mode = true ∧
      (ctrl_low_watermark 5 3).m_read_buffer.size ≠ 0 ∧
      (ctrl_low_watermark 5 3).m_write_buffer.size = 3 ∧
      (ctrl_low_watermark 5 3).m_wr_low_watermark = .fin false 10066330 (-24) ∧
      3 * 2 ^ 24 < 10066330 * 5 ∧
      (ctrl_low_watermark 5 3).set_write_mode.m_is_write_mode = true) ∧
    ((ctrl_low_watermark 25 15).m_is_write_mode = true ∧
      (ctrl_low_watermark 25 15).m_read_buffer.size ≠ 0 ∧
      (ctrl_low_watermark 25 15).m_write_buffer.size = 15 ∧
      ¬ (15 * 5 < 3 * 25) ∧
      (10066330 * 5 - 3 * 2 ^ 24) * 2 ^ 25 < 5 * 2 ^ 24 ∧
      (ctrl_low_watermark 25 15).set_write_mode.m_is_write_mode = false) := by
  decide

/-- C12 (amended): `set_write_mode` is the dual-watermark transition computed in `float`.
From read mode the new mode is write iff `float(|write_buffer|)` is above the `float`
product `high * float(capacity)` or the read buffer is empty; from write mode the new
mode is read iff `float(|write_buffer|)` is below the `float` product
`low * float(capacity)` and the read buffer is not empty; otherwise the mode stays; no
buffer and nothing of `pending` changes. When the sizes are below `2 ^ 24` and the
exact product of the watermark `m * 2 ^ e` and the capacity is a binary32 value, the
`float` tests are the exact tests `|write_buffer| > high * capacity` and
`|write_buffer| < low * capacity`. -/
theorem set_write_mode_dual_watermark (c : Controller) :
    (c.m_is_write_mode = false →
      (c.set_write_mode.m_is_write_mode = true ↔
        (F32.lt (F32.mul c.m_wr_high_watermark (F32.ofNat c.m_write_buffer.max_size))
            (F32.ofNat c.m_write_buffer.size) = true ∨
          c.m_read_buffer.size = 0))) ∧
    (c.m_is_write_mode = true →
      (c.set_write_mode.m_is_write_mode = false ↔
        (F32.lt (F32.ofNat c.m_write_buffer.size)
            (F32.mul c.m_wr_low_watermark (F32.ofNat c.m_write_buffer.max_size)) = true ∧
          c.m_read_buffer.size ≠ 0))) ∧
    (∀ b : BufId, c.set_write_mode.getBuf b = c.getBuf b) ∧
    c.set_write_mode.pending = c.pending ∧
    (∀ (m : Nat) (e : Int), c.m_write_buffer.max_size < 2 ^ 24 → c.m_write_buffer.size < 2 ^ 24 →
      representable (m * c.m_write_buffer.max_size) e →
      (c.m_wr_high_watermark = .fin false m e →
        (F32.lt (F32.mul c.m_wr_high_watermark (F32.ofNat c.m_write_buffer.max_size))
            (F32.ofNat c.m_write_buffer.size) = true ↔
          (c.m_write_buffer.size : ℚ) >
            (m : ℚ) * (2 : ℚ) ^ e * (c.m_write_buffer.max_size : ℚ))) ∧
      (c.m_wr_low_watermark = .fin false m e →
        (F32.lt (F32.ofNat c.m_write_buffer.size)
            (F32.mul c.m_wr_low_watermark (F32.ofNat c.m_write_buffer.max_size)) = true ↔
          (c.m_write_buffer.size : ℚ) <
            (m : ℚ) * (2 : ℚ) ^ e * (c.m_write_buffer.max_size : ℚ)))) := by
  refine ⟨fun hm => ?_, fun hm => ?_, fun b => ?_, ?_, fun m e hcap hn hrep => ⟨fun hw => ?_, fun hw => ?_⟩⟩
  · unfold Controller.set_write_mode
    rw [if_pos hm]
    by_cases h : F32.lt (F32.mul c.m_wr_high_watermark (F32.ofNat c.m_write_buffer.max_size))
        (F32.ofNat c.m_write_buffer.size) = true ∨ c.m_read_buffer.size = 0
    · rw [if_pos h]
      exact ⟨fun _ => h, fun _ => rfl⟩
    · rw [if_neg h]
      constructor
      · intro h1
        rw [hm] at h1
        exact Bool.noConfusion h1
      · intro h1
        exact absurd h1 h
  · unfold Controller.set_write_mode
    have hf : ¬ (c.m_is_write_mode = false) := by rw [hm]; decide
    rw [if_neg hf]
    by_cases h : F32.lt (F32.ofNat c.m_write_buffer.size)
        (F32.mul c.m_wr_low_watermark (F32.ofNat c.m_write_buffer.max_size)) = true ∧
        c.m_read_buffer.size ≠ 0
    · rw [if_pos h]
      exact ⟨fun _ => h, fun _ => rfl⟩
    · rw [if_neg h]
      constructor
      · intro h1
        rw [hm] at h1
        exact Bool.noConfusion h1
      · intro h1
        exact absurd h1 h
  · unfold Controller.set_write_mode
    split_ifs <;> cases b <;> rfl
  · unfold Controller.set_write_mode
    split_ifs <;> rfl
  · rw [hw]
    exact (float_test_exact m e _ _ hcap hn hrep).1
  · rw [hw]
    exact (float_test_exact m e _ _ hcap hn hrep).2

/-- Witness for C12 (amended): the idle controller is in read mode with an empty read
buffer, so the mode becomes write; its product `0.8f * 32` is a binary32 value, and its
empty write buffer is not above it. -/
theorem set_write_mode_dual_watermark_witness :
    idle_ctrl.m_is_write_mode = false ∧ idle_ctrl.m_read_buffer.size = 0 ∧
    idle_ctrl.set_write_mode.m_is_write_mode = true ∧
    representable (13421773 * idle_ctrl.m_write_buffer.max_size) (-24) ∧
    ¬ ((idle_ctrl.m_write_buffer.size : ℚ) >
      (13421773 : ℚ) * (2 : ℚ) ^ (-24 : Int) * (idle_ctrl.m_write_buffer.max_size : ℚ)) :=
  have hrep : representable (13421773 * idle_ctrl.m_write_buffer.max_size) (-24) := by
    unfold representable; decide
  ⟨rfl, rfl,
    ((set_write_mode_dual_watermark idle_ctrl).1 rfl).mpr (Or.inr rfl), hrep,
    fun h => absurd
      ((((set_write_mode_dual_watermark idle_ctrl).2.2.2.2 13421773 (-24) (by decide)
        (by decide) hrep).1 rfl).mpr h) (by decide)⟩

theorem issue_selected_pending_cases (c : Controller) (used : List (List Int)) (b : BufId)
    (it : Nat) (req : Request) :
    (c.issue_selected used b it req).1.pending = c.pending ∨
    (req.type_id = Request.Type.Read ∧ req.command = req.final_command ∧
      (c.issue_selected used b it req).1.pending =
        c.pending ++ [{ req with
          is_stat_updated := true,
          depart := c.m_clk + (c.m_dram.m_timing_vals.nCL + c.m_dram.m_timing_vals.nBL) }]) ∨
    (req.type_id = Request.Type.Write ∧ req.command = req.final_command ∧
      (c.issue_selected used b it req).1.pending =
        c.pending ++ [{ req with is_stat_updated := true, depart := c.m_clk + 1 }]) := by
  by_cases hfin : req.command = req.final_command
  · by_cases hr : req.type_id = Request.Type.Read
    · right; left
      have := (issue_selected_final c used b it req hfin (Or.inl hr)).1
      simp only [hr, if_true] at this
      exact ⟨hr, hfin, by rw [this]; simp [hr]⟩
    · by_cases hw : req.type_id = Request.Type.Write
      · right; right
        have := (issue_selected_final c used b it req hfin (Or.inr hw)).1
        simp only [hr, if_false] at this
        exact ⟨hw, hfin, this⟩
      · left
        unfold Controller.issue_selected
        dsimp only
        have h1 := stat_step_fst c req
        obtain ⟨g1, g2, g3, g4, g5, g6⟩ := stat_step_snd c req
        generalize (if req.is_stat_updated = false then c.update_request_stats req
          else (req, c)) = su at h1 g1 g2 g3 g4 g5 g6
        obtain ⟨r1, cs⟩ := su
        simp only at h1 g1 g2 g3 g4 g5 g6
        subst h1
        simp only [hfin, hr, hw, if_true, if_false]
        rw [(setBuf_fields _ _ _).2.1]
        exact g3
  · left
    by_cases hit : it < (c.getBuf b).buffer.length
    · exact (issue_selected_not_final c used b it req hfin hit).1
    · unfold Controller.issue_selected
      dsimp only
      have h1 := stat_step_fst c req
      obtain ⟨g1, g2, g3, g4, g5, g6⟩ := stat_step_snd c req
      generalize (if req.is_stat_updated = false then c.update_request_stats req
        else (req, c)) = su at h1 g1 g2 g3 g4 g5 g6
      obtain ⟨r1, cs⟩ := su
      simp only at h1 g1 g2 g3 g4 g5 g6
      subst h1
      simp only [hfin, if_false]
      split_ifs <;> simp only [(setBuf_fields _ _ _).2.1] <;> exact g3

theorem issue_slot_pending (sched : IScheduler) (rowpolicy : IRowPolicy) (c : Controller)
    (used : List (List Int)) :
    ∃ added : List Request,
      (c.issue_slot sched rowpolicy used).ctrl.pending = c.pending ++ added := by
  have hfr := (schedule_request_filtered_spec sched c used).1
  cases hsel : (c.schedule_request_filtered sched used).1 with
  | none =>
    rw [(issue_slot_of_none sched rowpolicy c used hsel).1]
    exact ⟨[], by rw [hfr.2.2.1]; simp⟩
  | some s =>
    rw [(issue_slot_of_some sched rowpolicy c used s hsel).1]
    rcases issue_selected_pending_cases (c.schedule_request_filtered sched used).2 used
      s.req_buffer s.req_it
      (rowpolicy.update (c.schedule_request_filtered sched used).2.m_dram s.req) with
      h | ⟨_, _, h⟩ | ⟨_, _, h⟩
    · exact ⟨[], by rw [h, hfr.2.2.1]; simp⟩
    · exact ⟨_, by rw [h, hfr.2.2.1]⟩
    · exact ⟨_, by rw [h, hfr.2.2.1]⟩

theorem issue_loop_pending (sched : IScheduler) (rowpolicy : IRowPolicy) :
    ∀ (budget : Nat) (c : Controller) (used : List (List Int)),
      ∃ added : List Request,
        (Controller.issue_loop sched rowpolicy budget c used).1.pending = c.pending ++ added := by
  intro budget
  induction budget with
  | zero => intro c used; exact ⟨[], by simp [Controller.issue_loop]⟩
  | succ n ih =>
    intro c used
    unfold Controller.issue_loop
    obtain ⟨a1, h1⟩ := issue_slot_pending sched rowpolicy c used
    cases h : (c.issue_slot sched rowpolicy used).issued with
    | none => exact ⟨a1, h1⟩
    | some cmd =>
      simp only
      obtain ⟨a2, h2⟩ := ih (c.issue_slot sched rowpolicy used).ctrl
        (c.issue_slot sched rowpolicy used).used_access_banks
      exact ⟨a1 ++ a2, by rw [h2, h1, List.append_assoc]⟩

theorem tick_clk (sched : IScheduler) (rowpolicy : IRowPolicy) (c : Controller) :
    (c.tick sched rowpolicy).ctrl.m_clk = c.m_clk + 1 := by
  unfold Controller.tick
  dsimp only
  rw [issue_loop_clk, (serve_completed_pending_fields _).1]

theorem tick_fired_head (sched : IScheduler) (rowpolicy : IRowPolicy) (c : Controller)
    (r : Request) (h : (c.tick sched rowpolicy).fired = some r) :
    c.pending.head? = some r ∧ r.depart ≤ c.m_clk + 1 := by
  unfold Controller.tick at h
  dsimp only at h
  unfold Controller.serve_completed_pending at h
  dsimp only at h
  cases hp : c.pending with
  | nil => rw [hp] at h; exact Option.noConfusion h
  | cons head rest =>
    rw [hp] at h
    dsimp only at h
    by_cases hd : head.depart > c.m_clk + 1
    · rw [if_pos hd] at h
      exact Option.noConfusion h
    · rw [if_neg hd] at h
      dsimp only at h
      by_cases hcb : head.callback = true
      · rw [if_pos hcb] at h
        have e := Option.some.inj h
        subst e
        exact ⟨rfl, not_lt.mp hd⟩
      · rw [if_neg hcb] at h
        exact Option.noConfusion h

/-- C13: one tick serves at most the head of `pending`. With `pending` empty nothing is
served. The head is popped exactly when its `depart` is at most the clock after the
increment; its callback, if one is installed, runs in that tick, so never before
`depart`. The entries behind the head stay in `pending`, in order, whatever their
`depart`; the tick only appends behind them. -/
theorem tick_serves_head (sched : IScheduler) (rowpolicy : IRowPolicy) (c : Controller) :
    (c.pending = [] → (c.tick sched rowpolicy).fired = none) ∧
    (∀ (head : Request) (rest : List Request), c.pending = head :: rest →
      (head.depart ≤ c.m_clk + 1 →
        (c.tick sched rowpolicy).fired = (if head.callback then some head else none) ∧
        ∃ added : List Request, (c.tick sched rowpolicy).ctrl.pending = rest ++ added) ∧
      (¬ head.depart ≤ c.m_clk + 1 →
        (c.tick sched rowpolicy).fired = none ∧
        ∃ added : List Request,
          (c.tick sched rowpolicy).ctrl.pending = head :: rest ++ added)) ∧
    (∀ r : Request, (c.tick sched rowpolicy).fired = some r →
      c.pending.head? = some r ∧ r.depart ≤ (c.tick sched rowpolicy).ctrl.m_clk) := by
  have hclk := tick_clk sched rowpolicy c
  have key : ∀ (head : Request) (rest : List Request), c.pending = head :: rest →
      (head.depart ≤ c.m_clk + 1 →
        (c.tick sched rowpolicy).fired = (if head.callback then some head else none) ∧
        ∃ added : List Request, (c.tick sched rowpolicy).ctrl.pending = rest ++ added) ∧
      (¬ head.depart ≤ c.m_clk + 1 →
        (c.tick sched rowpolicy).fired = none ∧
        ∃ added : List Request,
          (c.tick sched rowpolicy).ctrl.pending = head :: rest ++ added) := by
    intro head rest hp
    unfold Controller.tick
    dsimp only
    constructor
    · intro hd
      have hng : ¬ (head.depart > c.m_clk + 1) := not_lt.mpr hd
      refine ⟨?_, ?_⟩
      · simp only [Controller.serve_completed_pending, hp, hng, if_false]
      · obtain ⟨added, ha⟩ := issue_loop_pending sched rowpolicy
          (max 1 (Controller.serve_completed_pending _).1.m_bank_parallel_ports)
          (Controller.serve_completed_pending _).1 []
        refine ⟨added, ?_⟩
        rw [ha]
        simp only [Controller.serve_completed_pending, hp, hng, if_false]
    · intro hd
      have hg : head.depart > c.m_clk + 1 := not_le.mp hd
      refine ⟨?_, ?_⟩
      · simp only [Controller.serve_completed_pending, hp, hg, if_true]
      · obtain ⟨added, ha⟩ := issue_loop_pending sched rowpolicy
          (max 1 (Controller.serve_completed_pending _).1.m_bank_parallel_ports)
          (Controller.serve_completed_pending _).1 []
        refine ⟨added, ?_⟩
        rw [ha]
        simp only [Controller.serve_completed_pending, hp, hg, if_true]
  refine ⟨fun hp => ?_, key, fun r hr => ?_⟩
  · unfold Controller.tick
    dsimp only
    simp only [Controller.serve_completed_pending, hp]
  · cases hp : c.pending with
    | nil =>
      have : (c.tick sched rowpolicy).fired = none := by
        unfold Controller.tick
        dsimp only
        simp only [Controller.serve_completed_pending, hp]
      rw [this] at hr
      exact Option.noConfusion hr
    | cons head rest =>
      by_cases hd : head.depart ≤ c.m_clk + 1
      · have h1 := ((key head rest hp).1 hd).1
        rw [h1] at hr
        by_cases hcb : head.callback = true
        · simp only [hcb, if_true] at hr
          have e := Option.some.inj hr
          subst e
          exact ⟨rfl, by rw [hclk]; exact hd⟩
        · simp [hcb] at hr
      · have h1 := ((key head rest hp).2 hd).1
        rw [h1] at hr
        exact Option.noConfusion hr

theorem issue_selected_final_bufs (c : Controller) (used : List (List Int)) (b : BufId)
    (it : Nat) (req : Request) (hfin : req.command = req.final_command) :
    (c.issue_selected used b it req).1.getBuf b = (c.getBuf b).remove it ∧
    ∀ b1 : BufId, b1 ≠ b → (c.issue_selected used b it req).1.getBuf b1 = c.getBuf b1 := by
  by_cases hty : req.type_id = Request.Type.Read ∨ req.type_id = Request.Type.Write
  · exact (issue_selected_final c used b it req hfin hty).2
  · have hr : ¬ req.type_id = Request.Type.Read := fun h => hty (Or.inl h)
    have hw : ¬ req.type_id = Request.Type.Write := fun h => hty (Or.inr h)
    unfold Controller.issue_selected
    dsimp only
    have h1 := stat_step_fst c req
    obtain ⟨g1, g2, g3, g4, g5, g6⟩ := stat_step_snd c req
    generalize (if req.is_stat_updated = false then c.update_request_stats req
      else (req, c)) = su at h1 g1 g2 g3 g4 g5 g6
    obtain ⟨r1, cs⟩ := su
    simp only at h1 g1 g2 g3 g4 g5 g6
    subst h1
    simp only [hfin, hr, hw, if_true, if_false]
    have hb1 : ∀ (x : Mono3D) (b1 : BufId),
        ({ cs with m_dram := x } : Controller).getBuf b1 = c.getBuf b1 := by
      intro x b1
      rw [← g6 b1]
      cases b1 <;> rfl
    refine ⟨?_, fun b1 hne => ?_⟩
    · rw [getBuf_setBuf_same, hb1]
    · rw [getBuf_setBuf_ne _ _ _ _ hne, hb1]

theorem issue_selected_mem (c : Controller) (used : List (List Int)) (b : BufId)
    (it : Nat) (req : Request) (hit : it < (c.getBuf b).buffer.length) (b1 : BufId)
    (r : Request) (hr : r ∈ ((c.issue_selected used b it req).1.getBuf b1).buffer) :
    r ∈ (c.getBuf b1).buffer ∨ r = { req with is_stat_updated := true } := by
  by_cases hfin : req.command = req.final_command
  · obtain ⟨p1, p2⟩ := issue_selected_final_bufs c used b it req hfin
    by_cases hb : b1 = b
    · subst hb
      rw [p1] at hr
      exact Or.inl (List.mem_of_mem_eraseIdx hr)
    · rw [p2 b1 hb] at hr
      exact Or.inl hr
  · obtain ⟨_, p2, p3⟩ := issue_selected_not_final c used b it req hfin hit
    by_cases hop : ((m_command_meta req.command).is_opening = true ∧
        c.m_active_buffer.size < c.m_active_buffer.max_size)
    · rw [p2 hop b1] at hr
      rcases List.mem_append.mp hr with h | h
      · left
        split_ifs at h
        · exact List.mem_of_mem_eraseIdx h
        · exact h
      · right
        split_ifs at h
        · simpa using h
        · simp at h
    · rw [p3 hop b1] at hr
      split_ifs at hr
      · rcases List.mem_or_eq_of_mem_set hr with h | h
        · exact Or.inl h
        · exact Or.inr h
      · exact Or.inl hr

theorem setBuf_row_counters (c : Controller) (b : BufId) (v : ReqBuffer) :
    (c.setBuf b v).s_row_hits = c.s_row_hits ∧
    (c.setBuf b v).s_row_conflicts = c.s_row_conflicts ∧
    (c.setBuf b v).s_row_misses = c.s_row_misses := by
  cases b <;> exact ⟨rfl, rfl, rfl⟩

theorem set_write_mode_row_counters (c : Controller) :
    c.set_write_mode.s_row_hits = c.s_row_hits ∧
    c.set_write_mode.s_row_conflicts = c.s_row_conflicts ∧
    c.set_write_mode.s_row_misses = c.s_row_misses := by
  unfold Controller.set_write_mode
  split_ifs <;> exact ⟨rfl, rfl, rfl⟩

theorem select_read_write_snd (sched : IScheduler) (c : Controller) (used : List (List Int)) :
    (c.select_read_write sched used).2 =
      c.set_write_mode.setBuf (if c.set_write_mode.m_is_write_mode then .write else .read)
        (c.set_write_mode.get_best_request_filtered sched
          (c.set_write_mode.getBuf (if c.set_write_mode.m_is_write_mode then .write else .read))
          used).1 := by
  unfold Controller.select_read_write
  dsimp only
  generalize (if c.set_write_mode.m_is_write_mode = true then BufId.write else BufId.read) = b
  generalize c.set_write_mode.get_best_request_filtered sched (c.set_write_mode.getBuf b) used = r
  obtain ⟨b1, cand⟩ := r
  cases cand with
  | none => rfl
  | some p =>
    obtain ⟨it, req⟩ := p
    dsimp only
    split_ifs <;> rfl

theorem schedule_row_counters (sched : IScheduler) (c : Controller) (used : List (List Int)) :
    (c.schedule_request_filtered sched used).2.s_row_hits = c.s_row_hits ∧
    (c.schedule_request_filtered sched used).2.s_row_conflicts = c.s_row_conflicts ∧
    (c.schedule_request_filtered sched used).2.s_row_misses = c.s_row_misses := by
  have hsnd := select_active_snd sched c used
  cases hra : c.select_active sched used with
  | mk sa c1 =>
    rw [hra] at hsnd
    simp only at hsnd
    have h1 : c1.s_row_hits = c.s_row_hits ∧ c1.s_row_conflicts = c.s_row_conflicts ∧
        c1.s_row_misses = c.s_row_misses := by
      rw [hsnd]; exact ⟨rfl, rfl, rfl⟩
    cases sa with
    | some s0 =>
      rw [schedule_of_active sched c c1 used s0 hra]
      exact h1
    | none =>
      cases hpb : c1.m_priority_buffer.buffer with
      | nil =>
        rw [schedule_of_read_write sched c c1 used hra hpb]
        dsimp only
        rw [select_read_write_snd]
        obtain ⟨a1, a2, a3⟩ := setBuf_row_counters c1.set_write_mode
          (if c1.set_write_mode.m_is_write_mode then .write else .read)
          (c1.set_write_mode.get_best_request_filtered sched
            (c1.set_write_mode.getBuf
              (if c1.set_write_mode.m_is_write_mode then .write else .read)) used).1
        obtain ⟨b1, b2, b3⟩ := set_write_mode_row_counters c1
        exact ⟨by rw [a1, b1, h1.1], by rw [a2, b2, h1.2.1], by rw [a3, b3, h1.2.2]⟩
      | cons head rest =>
        rw [schedule_of_priority sched c c1 used head _ rest hra hpb rfl]
        split <;> exact h1

theorem issue_selected_row_counters (c : Controller) (used : List (List Int)) (b : BufId)
    (it : Nat) (req : Request) :
    (c.issue_selected used b it req).1.s_row_hits =
      (if req.is_stat_updated = false then c.update_request_stats req
        else (req, c)).2.s_row_hits ∧
    (c.issue_selected used b it req).1.s_row_conflicts =
      (if req.is_stat_updated = false then c.update_request_stats req
        else (req, c)).2.s_row_conflicts ∧
    (c.issue_selected used b it req).1.s_row_misses =
      (if req.is_stat_updated = false then c.update_request_stats req
        else (req, c)).2.s_row_misses := by
  unfold Controller.issue_selected
  dsimp only
  generalize (if req.is_stat_updated = false then c.update_request_stats req else (req, c)) = su
  obtain ⟨r1, cs⟩ := su
  dsimp only
  split_ifs <;> simp [setBuf_row_counters]

theorem update_request_stats_row_counters (c : Controller) (req : Request)
    (hty : req.type_id = Request.Type.Read ∨ req.type_id = Request.Type.Write) :
    (c.m_dram.check_rowbuffer_hit req.final_command req.addr_vec = true →
      (c.update_request_stats req).2.s_row_hits = c.s_row_hits + 1 ∧
      (c.update_request_stats req).2.s_row_conflicts = c.s_row_conflicts ∧
      (c.update_request_stats req).2.s_row_misses = c.s_row_misses) ∧
    (c.m_dram.check_rowbuffer_hit req.final_command req.addr_vec = false →
      c.m_dram.check_node_open req.final_command req.addr_vec = true →
      (c.update_request_stats req).2.s_row_hits = c.s_row_hits ∧
      (c.update_request_stats req).2.s_row_conflicts = c.s_row_conflicts + 1 ∧
      (c.update_request_stats req).2.s_row_misses = c.s_row_misses) ∧
    (c.m_dram.check_rowbuffer_hit req.final_command req.addr_vec = false →
      c.m_dram.check_node_open req.final_command req.addr_vec = false →
      (c.update_request_stats req).2.s_row_hits = c.s_row_hits ∧
      (c.update_request_stats req).2.s_row_conflicts = c.s_row_conflicts ∧
      (c.update_request_stats req).2.s_row_misses = c.s_row_misses + 1) := by
  unfold Controller.update_request_stats
  dsimp only
  rcases hty with h | h
  · simp only [h, if_true]
    refine ⟨fun hh => ?_, fun hh ho => ?_, fun hh ho => ?_⟩
    · simp only [hh, if_true, and_self]
    · simp [hh, ho]
    · simp [hh, ho]
  · have hne : ¬ (Request.Type.Write = Request.Type.Read) := by decide
    simp only [h, hne, if_true, if_false]
    refine ⟨fun hh => ?_, fun hh ho => ?_, fun hh ho => ?_⟩
    · simp only [hh, if_true, and_self]
    · simp [hh, ho]
    · simp [hh, ho]

/-! ## Device state -/

theorem apply_timing_rule_state (c : Command) (a : AddrVec) (t : Int) (nodes : List Int → Node)
    (r : TimingConsEntry) (key : List Int) :
    (apply_timing_rule c a t nodes r key).state = (nodes key).state ∧
    (apply_timing_rule c a t nodes r key).row_state = (nodes key).row_state := by
  unfold apply_timing_rule
  by_cases hk : key = nodeKey r.level a
  · subst hk
    split_ifs <;> simp [setNode, Node.raise, Node.push]
  · split_ifs <;> simp [setNode, hk]

theorem foldl_timing_state (c : Command) (a : AddrVec) (t : Int) (rules : List TimingConsEntry) :
    ∀ (nodes : List Int → Node) (key : List Int),
      (rules.foldl (apply_timing_rule c a t) nodes key).state = (nodes key).state ∧
      (rules.foldl (apply_timing_rule c a t) nodes key).row_state = (nodes key).row_state := by
  induction rules with
  | nil => intro nodes key; exact ⟨rfl, rfl⟩
  | cons r rest ih =>
    intro nodes key
    rw [List.foldl_cons]
    obtain ⟨h1, h2⟩ := ih (apply_timing_rule c a t nodes r) key
    obtain ⟨h3, h4⟩ := apply_timing_rule_state c a t nodes r key
    exact ⟨h1.trans h3, h2.trans h4⟩

theorem update_timing_state (d : Mono3D) (c : Command) (a : AddrVec) (clk : Int)
    (key : List Int) :
    ((d.update_timing c a clk).nodes key).state = (d.nodes key).state ∧
    ((d.update_timing c a clk).nodes key).row_state = (d.nodes key).row_state :=
  foldl_timing_state c a clk _ d.nodes key

theorem rowKey_ne_self (bank : List Int) (r : Int) : rowKey bank r ≠ bank := by
  intro h
  have := congrArg List.length h
  simp [rowKey] at this

theorem isChildOf_rowKey (bank : List Int) (r : Int) : isChildOf (rowKey bank r) bank = true := by
  simp [isChildOf, rowKey]

theorem isChildOf_iff (k bank : List Int) : isChildOf k bank = true ↔ ∃ r, k = rowKey bank r := by
  constructor
  · intro h
    simp only [isChildOf, Bool.and_eq_true, decide_eq_true_eq] at h
    obtain ⟨h1, h2⟩ := h
    subst h2
    exact ⟨k.getLast h1, (List.dropLast_append_getLast h1).symm⟩
  · rintro ⟨r, rfl⟩
    exact isChildOf_rowKey bank r

theorem rowKey_inj (b1 b2 : List Int) (r1 r2 : Int) (h : rowKey b1 r1 = rowKey b2 r2) :
    b1 = b2 ∧ r1 = r2 := by
  unfold rowKey at h
  have h1 := congrArg List.dropLast h
  have h2 := congrArg List.getLast? h
  simp at h1 h2
  exact ⟨h1, h2⟩

theorem action_act_state (nodes : List Int → Node) (bank : List Int) (r : Int) :
    ((Action.Bank.ACT nodes bank r bank).state = .Opened ∧
      (Action.Bank.ACT nodes bank r bank).row_state = some r) ∧
    (Action.Bank.ACT nodes bank r (rowKey bank r)).state = .Opened ∧
    (∀ key, key ≠ bank → key ≠ rowKey bank r → Action.Bank.ACT nodes bank r key = nodes key) := by
  have hne := rowKey_ne_self bank r
  refine ⟨?_, ?_, fun key h1 h2 => ?_⟩
  · simp [Action.Bank.ACT, setNode, hne.symm]
  · simp [Action.Bank.ACT, setNode]
  · simp [Action.Bank.ACT, setNode, h1, h2]

theorem action_pre_state (nodes : List Int → Node) (bank : List Int) (r : Int) :
    ((Action.Bank.PRE nodes bank r bank).state = .Closed ∧
      (Action.Bank.PRE nodes bank r bank).row_state = none) ∧
    (∀ r1, (Action.Bank.PRE nodes bank r (rowKey bank r1)).state = .Closed) ∧
    (∀ key, key ≠ bank → isChildOf key bank = false →
      Action.Bank.PRE nodes bank r key = nodes key) := by
  refine ⟨?_, fun r1 => ?_, fun key h1 h2 => ?_⟩
  · simp [Action.Bank.PRE]
  · simp [Action.Bank.PRE, rowKey_ne_self, isChildOf_rowKey]
  · simp [Action.Bank.PRE, h1, h2]

theorem issue_command_state_of_timing (d : Mono3D) (c : Command) (a : AddrVec)
    (key : List Int) (hc : m_actions .bank c = none) :
    ((d.issue_command c a).nodes key).state = (d.nodes key).state ∧
    ((d.issue_command c a).nodes key).row_state = (d.nodes key).row_state := by
  have h0 := update_timing_state d c a d.m_clk key
  simp only [Mono3D.issue_command, Mono3D.update_states, hc]
  exact h0

theorem issue_command_act_nodes (d : Mono3D) (a : AddrVec) :
    (d.issue_command .ACT a).nodes =
      Action.Bank.ACT (d.update_timing .ACT a d.m_clk).nodes (nodeKey .bank a)
        (addrAt a Level.row.idx) := rfl

theorem issue_command_pre_nodes (d : Mono3D) (a : AddrVec) (c : Command)
    (hc : c = .PRE ∨ c = .RDA ∨ c = .WRA) :
    (d.issue_command c a).nodes =
      Action.Bank.PRE (d.update_timing c a d.m_clk).nodes (nodeKey .bank a)
        (addrAt a Level.row.idx) := by
  rcases hc with h | h | h <;> subst h <;> rfl

theorem issue_command_other_nodes (d : Mono3D) (c : Command) (a : AddrVec) (key : List Int)
    (hk : key ≠ nodeKey .bank a) (hch : isChildOf key (nodeKey .bank a) = false) :
    ((d.issue_command c a).nodes key).state = (d.nodes key).state ∧
    ((d.issue_command c a).nodes key).row_state = (d.nodes key).row_state := by
  have h0 := update_timing_state d c a d.m_clk key
  cases c
  · rw [issue_command_act_nodes,
      (action_act_state _ _ _).2.2 key hk (fun e => by rw [e, isChildOf_rowKey] at hch; cases hch)]
    exact h0
  · rw [issue_command_pre_nodes d a _ (Or.inl rfl), (action_pre_state _ _ _).2.2 key hk hch]
    exact h0
  · exact issue_command_state_of_timing d _ a key rfl
  · exact issue_command_state_of_timing d _ a key rfl
  · rw [issue_command_pre_nodes d a _ (Or.inr (Or.inl rfl)),
      (action_pre_state _ _ _).2.2 key hk hch]
    exact h0
  · rw [issue_command_pre_nodes d a _ (Or.inr (Or.inr rfl)),
      (action_pre_state _ _ _).2.2 key hk hch]
    exact h0

theorem nodeKey_bank_length (a : AddrVec) (h : a.length = 6) : (nodeKey .bank a).length = 4 := by
  simp [nodeKey, Level.idx, h]

theorem not_child_of_length (key bank : List Int) (h1 : key.length = 4) (h2 : bank.length = 4) :
    isChildOf key bank = false := by
  cases h : isChildOf key bank
  · rfl
  · obtain ⟨r, hr⟩ := (isChildOf_iff key bank).mp h
    have := congrArg List.length hr
    simp [rowKey] at this
    omega

theorem reachable_rows (d : Mono3D) (hd : d.ReachableUnderContract) :
    ∀ (bank : List Int), bank.length = 4 → ∀ r : Int, d.row_opened bank r →
      (d.nodes bank).state = .Opened ∧ (d.nodes bank).row_state = some r := by
  induction hd with
  | init tv =>
    intro bank hb r hr
    simp [Mono3D.row_opened, create_nodes, keyLevel, rowKey, hb, m_init_states] at hr
  | tick _ ih => exact ih
  | @issue d2 cmd a hlen hact _ ih =>
    intro bank hb r hr
    unfold Mono3D.row_opened at hr
    have hB := nodeKey_bank_length a hlen
    by_cases hk : bank = nodeKey .bank a
    · -- the target bank
      subst hk
      cases cmd
      · -- ACT on a Closed bank
        have hclosed := hact rfl
        by_cases hrow : r = addrAt a Level.row.idx
        · subst hrow
          rw [issue_command_act_nodes]
          exact (action_act_state _ _ _).1
        · exfalso
          rw [issue_command_act_nodes, (action_act_state _ _ _).2.2 _ (rowKey_ne_self _ _)
            (fun e => hrow (rowKey_inj _ _ _ _ e).2)] at hr
          rw [(update_timing_state d2 .ACT a d2.m_clk _).1] at hr
          have := (ih _ hb r hr).1
          rw [hclosed] at this
          cases this
      · exfalso
        rw [issue_command_pre_nodes d2 a _ (Or.inl rfl), (action_pre_state _ _ _).2.1 r] at hr
        cases hr
      · rw [(issue_command_state_of_timing d2 .RD a _ rfl).1] at hr
        rw [(issue_command_state_of_timing d2 .RD a _ rfl).1,
          (issue_command_state_of_timing d2 .RD a _ rfl).2]
        exact ih _ hb r hr
      · rw [(issue_command_state_of_timing d2 .WR a _ rfl).1] at hr
        rw [(issue_command_state_of_timing d2 .WR a _ rfl).1,
          (issue_command_state_of_timing d2 .WR a _ rfl).2]
        exact ih _ hb r hr
      · exfalso
        rw [issue_command_pre_nodes d2 a _ (Or.inr (Or.inl rfl)),
          (action_pre_state _ _ _).2.1 r] at hr
        cases hr
      · exfalso
        rw [issue_command_pre_nodes d2 a _ (Or.inr (Or.inr rfl)),
          (action_pre_state _ _ _).2.1 r] at hr
        cases hr
    · -- another bank: neither it nor its rows are touched
      have hrk : rowKey bank r ≠ nodeKey .bank a := by
        intro e
        have := congrArg List.length e
        simp [rowKey, hb, hB] at this
      have hrc : isChildOf (rowKey bank r) (nodeKey .bank a) = false := by
        cases h : isChildOf (rowKey bank r) (nodeKey .bank a)
        · rfl
        · obtain ⟨r1, hr1⟩ := (isChildOf_iff _ _).mp h
          exact absurd (rowKey_inj _ _ _ _ hr1).1 hk
      rw [(issue_command_other_nodes d2 cmd a _ hrk hrc).1] at hr
      have hbc := not_child_of_length bank (nodeKey .bank a) hb hB
      rw [(issue_command_other_nodes d2 cmd a _ hk hbc).1,
        (issue_command_other_nodes d2 cmd a _ hk hbc).2]
      exact ih _ hb r hr

/-- Counterexample to C15 as stated: from the fresh device with the default timings, an ACT
on row 7 of bank 3 at cycle 0 and an ACT on row 8 of the same bank at cycle 34, each
issued when `check_ready` holds, reach a state in which rows 7 and 8 of that bank are
both Opened. -/
theorem two_rows_opened_counterexample :
    (fresh_dram.run two_act_trace).map
        (fun d => ((d.nodes (rowKey (nodeKey .bank addr_b3_r7) 7)).state,
          (d.nodes (rowKey (nodeKey .bank addr_b3_r7) 8)).state)) =
      some (State.Opened, State.Opened) := by
  decide

/-- C15 (amended): the state effect of `issue_command` on the bank named by the address:
ACT makes it Opened on the row of the address, the node of that row Opened; PRE, RDA and
WRA make it Closed with no open row, every row below it Closed; RD and WR change the
state and open row of no node; every node other than the bank and its rows keeps its
state and open row. Consequently, in every state reachable from initialisation by
commands on six-component addresses of which every ACT is issued on a Closed bank, a row
of a bank is Opened only if the bank is Opened on that row, so each bank has at most one
row in the Opened state. -/
theorem issue_command_state_effect (d : Mono3D) (a : AddrVec) :
    (((d.issue_command .ACT a).nodes (nodeKey .bank a)).state = .Opened ∧
      ((d.issue_command .ACT a).nodes (nodeKey .bank a)).row_state =
        some (addrAt a Level.row.idx) ∧
      (d.issue_command .ACT a).row_opened (nodeKey .bank a) (addrAt a Level.row.idx)) ∧
    (∀ c : Command, c = .PRE ∨ c = .RDA ∨ c = .WRA →
      ((d.issue_command c a).nodes (nodeKey .bank a)).state = .Closed ∧
      ((d.issue_command c a).nodes (nodeKey .bank a)).row_state = none ∧
      ∀ r : Int, ((d.issue_command c a).nodes (rowKey (nodeKey .bank a) r)).state = .Closed) ∧
    (∀ c : Command, c = .RD ∨ c = .WR → ∀ key : List Int,
      ((d.issue_command c a).nodes key).state = (d.nodes key).state ∧
      ((d.issue_command c a).nodes key).row_state = (d.nodes key).row_state) ∧
    (∀ (c : Command) (key : List Int), key ≠ nodeKey .bank a →
      isChildOf key (nodeKey .bank a) = false →
      ((d.issue_command c a).nodes key).state = (d.nodes key).state ∧
      ((d.issue_command c a).nodes key).row_state = (d.nodes key).row_state) ∧
    (∀ d1 : Mono3D, d1.ReachableUnderContract → ∀ bank : List Int, bank.length = 4 →
      (∀ r : Int, d1.row_opened bank r →
        (d1.nodes bank).state = .Opened ∧ (d1.nodes bank).row_state = some r) ∧
      ∀ r1 r2 : Int, d1.row_opened bank r1 → d1.row_opened bank r2 → r1 = r2) := by
  refine ⟨?_, fun c hc => ?_, fun c hc key => ?_, fun c key hk hch => ?_,
    fun d1 hd1 bank hb => ⟨reachable_rows d1 hd1 bank hb, fun r1 r2 h1 h2 => ?_⟩⟩
  · rw [Mono3D.row_opened, issue_command_act_nodes]
    exact ⟨(action_act_state _ _ _).1.1, (action_act_state _ _ _).1.2, (action_act_state _ _ _).2.1⟩
  · rw [issue_command_pre_nodes d a c hc]
    exact ⟨(action_pre_state _ _ _).1.1, (action_pre_state _ _ _).1.2, (action_pre_state _ _ _).2.1⟩
  · rcases hc with h | h <;> subst h <;> exact issue_command_state_of_timing d _ a key rfl
  · exact issue_command_other_nodes d c a key hk hch
  · have e1 := (reachable_rows d1 hd1 bank hb r1 h1).2
    have e2 := (reachable_rows d1 hd1 bank hb r2 h2).2
    exact Option.some.inj (e1.symm.trans e2)

/-- Witness for C15 (amended): the device with row 7 of bank 3 opened on the fresh device
is reachable under the contract, bank 3 is Opened on row 7 there and row 7 is its one
Opened row. -/
theorem issue_command_state_effect_witness :
    dram_b3_open.ReachableUnderContract ∧
    dram_b3_open.row_opened (nodeKey .bank addr_b3_r7) 7 ∧
    ∀ r : Int, dram_b3_open.row_opened (nodeKey .bank addr_b3_r7) r → 7 = r :=
  have hr : dram_b3_open.ReachableUnderContract :=
    Mono3D.ReachableUnderContract.issue .ACT addr_b3_r7 rfl (fun _ => by decide)
      (Mono3D.ReachableUnderContract.init Mono3D_Default)
  ⟨hr, by decide,
    fun r h => ((issue_command_state_effect fresh_dram addr_b3_r7).2.2.2.2 dram_b3_open hr
      (nodeKey .bank addr_b3_r7) rfl).2 7 r (by decide) h⟩

/-- C16: the list of rules that `set_timing_vals` hands to `populate_timingcons` is the
table of the specification: the same sixteen rules with the same level, preceding
set, following set, latency and window, and no other rule. -/
theorem timing_cons_is_spec_table (V : TimingVals) :
    timing_cons V = spec_timing_table V ∧ (timing_cons V).length = 16 ∧
    (∀ r ∈ timing_cons V, r.window = 4 ↔ r = ⟨.channel, [.ACT], [.ACT], V.nFAW, 4⟩) := by
  refine ⟨rfl, rfl, fun r hr => ?_⟩
  constructor
  · intro hw
    rcases timing_window_cases V r hr with h1 | ⟨h4, hl, hp, hf, hlat⟩
    · omega
    · cases r
      simp only at h4 hl hp hf hlat
      subst h4 hl hp hf hlat
      rfl
  · intro h
    rw [h]

/-! ## The four-activation window -/

theorem apply_timing_rule_history (c : Command) (a : AddrVec) (t : Int)
    (nodes : List Int → Node) (r : TimingConsEntry) (key : List Int) (x : Command) :
    (apply_timing_rule c a t nodes r key).history x =
      if c ∈ r.preceding ∧ ¬ r.window ≤ 1 ∧ key = nodeKey r.level a ∧ x = c then
        (t :: (nodes key).history c).take r.window
      else (nodes key).history x := by
  unfold apply_timing_rule
  by_cases hc : c ∈ r.preceding
  · by_cases hw : r.window ≤ 1
    · simp only [hc, hw, if_true, not_true_eq_false, false_and, and_false, if_false]
      by_cases hk : key = nodeKey r.level a
      · subst hk; simp [setNode, Node.raise]
      · simp [setNode, hk]
    · simp only [hc, hw, if_true, if_false, not_false_eq_true, true_and]
      by_cases hk : key = nodeKey r.level a
      · subst hk
        by_cases hx : x = c
        · subst hx; simp [setNode, Node.push, Node.raise]
        · simp [setNode, Node.push, Node.raise, hx]
      · simp [setNode, hk]
  · simp [hc]

theorem foldl_timing_history_unwindowed (c : Command) (a : AddrVec) (t : Int)
    (rules : List TimingConsEntry) (hw : ∀ r ∈ rules, r.window ≤ 1) :
    ∀ (nodes : List Int → Node) (key : List Int) (x : Command),
      (rules.foldl (apply_timing_rule c a t) nodes key).history x = (nodes key).history x := by
  induction rules with
  | nil => intro nodes key x; rfl
  | cons r rest ih =>
    intro nodes key x
    rw [List.foldl_cons, ih (fun r1 h1 => hw r1 (List.mem_cons_of_mem _ h1)),
      apply_timing_rule_history]
    have h1 : r.window ≤ 1 := hw r (List.mem_cons_self _ _)
    simp [h1]

theorem update_states_history (d : Mono3D) (c : Command) (a : AddrVec) (clk : Int)
    (key : List Int) :
    ((d.update_states c a clk).nodes key).history = (d.nodes key).history := by
  unfold Mono3D.update_states
  cases c <;> simp only [m_actions] <;>
    first
    | rfl
    | exact (action_act_fields _ _ _ _).2
    | exact (action_pre_fields _ _ _ _).2

theorem issue_command_history (d : Mono3D) (c : Command) (a : AddrVec) (key : List Int) :
    ((d.issue_command c a).nodes key).history .ACT =
      if c = .ACT ∧ key = nodeKey .channel a then
        (d.m_clk :: (d.nodes key).history .ACT).take 4
      else (d.nodes key).history .ACT := by
  unfold Mono3D.issue_command
  rw [update_states_history]
  unfold Mono3D.update_timing
  have hsplit : timing_cons d.m_timing_vals =
      ⟨.channel, [.ACT], [.ACT], d.m_timing_vals.nRRDS, 1⟩ ::
        ⟨.channel, [.ACT], [.ACT], d.m_timing_vals.nFAW, 4⟩ ::
          (timing_cons d.m_timing_vals).drop 2 := rfl
  have hdrop : ∀ r ∈ (timing_cons d.m_timing_vals).drop 2, r.window ≤ 1 := by
    intro r hr
    have hm : r ∈ timing_cons d.m_timing_vals := List.mem_of_mem_drop hr
    rcases timing_window_cases _ r hm with h1 | ⟨h4, hl, hp, hf, hlat⟩
    · omega
    · exfalso
      simp only [timing_cons, List.drop_succ_cons, List.drop_zero, List.mem_cons,
        List.mem_singleton, List.not_mem_nil, or_false] at hr
      rcases hr with h | h | h | h | h | h | h | h | h | h | h | h | h | h <;>
        (subst h; simp at h4)
  dsimp only
  rw [hsplit, List.foldl_cons, List.foldl_cons,
    foldl_timing_history_unwindowed c a d.m_clk _ hdrop]
  simp only [apply_timing_rule_history]
  by_cases hc : c = .ACT
  · subst hc
    by_cases hk : key = nodeKey .channel a
    · simp [hk]
    · simp [hk]
  · have h1 : ¬ (Command.ACT = c) := fun e => hc e.symm
    simp [hc, h1]

theorem check_ready_act_window (d : Mono3D) (a : AddrVec)
    (h : d.check_ready .ACT a = true) :
    ∀ oldest : Int, ((d.nodes (nodeKey .channel a)).history .ACT)[3]? = some oldest →
      oldest + d.m_timing_vals.nFAW < d.m_clk := by
  intro oldest ho
  unfold Mono3D.check_ready at h
  rw [List.all_eq_true] at h
  have h2 := h ⟨.channel, [.ACT], [.ACT], d.m_timing_vals.nFAW, 4⟩ (by simp [timing_cons])
  simp only [rule_admits, List.mem_singleton, if_true, List.all_cons, List.all_nil,
    Bool.and_true, window_admits, Bool.and_eq_true] at h2
  have h3 : ¬ (4 ≤ 1) := by decide
  simp only [h3, if_false, List.get?_eq_getElem?] at h2
  have h4 := h2.2
  rw [show (4 - 1 : Nat) = 3 from rfl, ho] at h4
  simp only [decide_eq_true_eq] at h4
  omega

theorem window_admits_iff_not_full (n : Node) (p : Command) (k : Nat) (latency clk : Int)
    (hk : 0 < k) (hs : (n.history p).Pairwise (fun x y => y ≤ x))
    (hle : ∀ e ∈ n.history p, e ≤ clk) :
    window_admits n p k latency clk = true ↔ ¬ window_full n p k latency clk := by
  unfold window_admits window_full
  rw [List.get?_eq_getElem?]
  cases ho : (n.history p)[k - 1]? with
  | none =>
    simp only [true_iff, not_and]
    intro hlen
    have := List.getElem?_eq_none_iff.mp ho
    omega
  | some oldest =>
    have hlt : k - 1 < (n.history p).length := by
      by_contra hn
      rw [List.getElem?_eq_none (Nat.le_of_not_lt hn)] at ho
      cases ho
    have hmem : oldest ∈ (n.history p).take k := by
      rw [List.mem_iff_getElem?]
      refine ⟨k - 1, ?_⟩
      rw [List.getElem?_take]
      simp only [show k - 1 < k by omega, if_true]
      exact ho
    simp only [decide_eq_true_eq]
    constructor
    · intro hlt2 hfull
      have := (hfull.2 oldest hmem).1
      omega
    · intro hnf
      by_contra hge
      apply hnf
      refine ⟨by omega, fun e he => ⟨?_, hle e (List.mem_of_mem_take he)⟩⟩
      obtain ⟨i, hi⟩ := List.mem_iff_getElem?.mp he
      rw [List.getElem?_take] at hi
      by_cases hik : i < k
      · simp only [hik, if_true] at hi
        have hole : oldest ≤ e := by
          by_cases hieq : i = k - 1
          · subst hieq
            rw [ho] at hi
            exact le_of_eq (Option.some.inj hi)
          · have hi2 : i < k - 1 := by omega
            have hi3 : i < (n.history p).length := by omega
            have e1 : (n.history p)[i] = e := by
              have := List.getElem?_eq_getElem hi3
              rw [hi] at this
              exact (Option.some.inj this).symm
            have e2 : (n.history p)[k - 1] = oldest := by
              have := List.getElem?_eq_getElem hlt
              rw [ho] at this
              exact (Option.some.inj this).symm
            have := List.pairwise_iff_getElem.mp hs i (k - 1) hi3 hlt hi2
            rw [e1, e2] at this
            exact this
        omega
      · simp [hik] at hi

theorem window_tail_count (t F : Int) (rest : List Int)
    (hs : rest.Pairwise (fun x y => y ≤ x))
    (h3 : ∀ y : Int, rest[3]? = some y → y < t - F) :
    (rest.filter (fun x => decide (t - F ≤ x ∧ x ≤ t))).length ≤ 3 := by
  match rest, hs, h3 with
  | [], _, _ => simp
  | [a], _, _ => exact le_trans (List.length_filter_le _ _) (by simp)
  | [a, b], _, _ => exact le_trans (List.length_filter_le _ _) (by simp)
  | [a, b, c], _, _ => exact le_trans (List.length_filter_le _ _) (by simp)
  | a :: b :: c :: e :: tail, hs, h3 =>
    have he : e < t - F := h3 e (by simp)
    have hp : (e :: tail).Pairwise (fun x y => y ≤ x) :=
      (List.pairwise_cons.mp (List.pairwise_cons.mp (List.pairwise_cons.mp hs).2).2).2
    have htail : ∀ z ∈ e :: tail, z < t - F := by
      intro z hz
      rcases List.mem_cons.mp hz with h | h
      · rw [h]; exact he
      · exact lt_of_le_of_lt ((List.pairwise_cons.mp hp).1 z h) he
    have hf : (e :: tail).filter (fun x => decide (t - F ≤ x ∧ x ≤ t)) = [] := by
      rw [List.filter_eq_nil_iff]
      intro z hz
      have := htail z hz
      simp only [decide_eq_true_eq, not_and]
      intro h1
      omega
    have hsplit : (a :: b :: c :: e :: tail) = [a, b, c] ++ (e :: tail) := rfl
    rw [hsplit, List.filter_append, hf, List.append_nil]
    exact le_trans (List.length_filter_le _ _) (by simp)

theorem window_count (t F : Int) :
    ∀ L : List Int, L.Pairwise (fun x y => y ≤ x) →
      (∀ (i : Nat) (x y : Int), L[i]? = some x → L[i + 4]? = some y → y + F < x) →
      (L.filter (fun x => decide (t - F ≤ x ∧ x ≤ t))).length ≤ 4 := by
  intro L
  induction L with
  | nil => intro _ _; simp
  | cons x rest ih =>
    intro hs hsp
    have hs2 := (List.pairwise_cons.mp hs).2
    have hsp2 : ∀ (i : Nat) (u v : Int), rest[i]? = some u → rest[i + 4]? = some v →
        v + F < u := by
      intro i u v hu hv
      exact hsp (i + 1) u v (by simpa using hu) (by simpa using hv)
    by_cases hx : t - F ≤ x ∧ x ≤ t
    · rw [List.filter_cons_of_pos (by simpa using hx)]
      have h3 : ∀ y : Int, rest[3]? = some y → y < t - F := by
        intro y hy
        have := hsp 0 x y (by simp) (by simpa using hy)
        omega
      have := window_tail_count t F rest hs2 h3
      simp only [List.length_cons]
      omega
    · rw [List.filter_cons_of_neg (by simpa using hx)]
      exact ih hs2 hsp2

theorem run_act_cycles (ch : List Int) :
    ∀ (trace : List DeviceEvent) (d0 : Mono3D) (P : List Int),
      (d0.nodes ch).history .ACT = P.take 4 →
      P.Pairwise (fun x y => y ≤ x) → (∀ x ∈ P, x ≤ d0.m_clk) →
      (∀ (i : Nat) (x y : Int), P[i]? = some x → P[i + 4]? = some y →
        y + d0.m_timing_vals.nFAW < x) →
      (d0.run trace).isSome = true →
      ((act_cycles ch d0.m_clk trace).reverse ++ P).Pairwise (fun x y => y ≤ x) ∧
      ∀ (i : Nat) (x y : Int), ((act_cycles ch d0.m_clk trace).reverse ++ P)[i]? = some x →
        ((act_cycles ch d0.m_clk trace).reverse ++ P)[i + 4]? = some y →
        y + d0.m_timing_vals.nFAW < x := by
  intro trace
  induction trace with
  | nil =>
    intro d0 P _ hs _ hsp _
    simpa [act_cycles] using And.intro hs hsp
  | cons e es ih =>
    intro d0 P hh hs hle hsp hrun
    cases e with
    | tick =>
      have h1 : (act_cycles ch d0.m_clk (DeviceEvent.tick :: es)) =
          act_cycles ch d0.tick.m_clk es := rfl
      rw [h1]
      exact ih d0.tick P hh hs (fun x hx => le_trans (hle x hx) (by simp [Mono3D.tick]))
        hsp hrun
    | issue cmd a =>
      have hr : d0.check_ready cmd a = true := by
        by_contra hn
        simp [Mono3D.run, hn] at hrun
      have hrun2 : ((d0.issue_command cmd a).run es).isSome = true := by
        simpa [Mono3D.run, hr] using hrun
      obtain ⟨htv, hclk⟩ := issue_command_timing_vals d0 cmd a
      have hhist := issue_command_history d0 cmd a ch
      by_cases hc : cmd = .ACT ∧ nodeKey .channel a = ch
      · have hc2 : cmd = .ACT ∧ ch = nodeKey .channel a := ⟨hc.1, hc.2.symm⟩
        have h1 : (act_cycles ch d0.m_clk (DeviceEvent.issue cmd a :: es)) =
            d0.m_clk :: act_cycles ch d0.m_clk es := by
          simp [act_cycles, hc]
        rw [h1, List.reverse_cons, List.append_assoc, List.singleton_append]
        rw [if_pos hc2, hh] at hhist
        have hready : d0.check_ready .ACT a = true := by rw [← hc.1]; exact hr
        have hwin := check_ready_act_window d0 a hready
        rw [hc.2, hh] at hwin
        have := ih (d0.issue_command cmd a) (d0.m_clk :: P)
          (by rw [hhist, List.take_succ_cons, List.take_succ_cons, List.take_take]; rfl)
          (List.pairwise_cons.mpr ⟨hle, hs⟩)
          (by
            intro x hx
            rw [hclk]
            rcases List.mem_cons.mp hx with h | h
            · rw [h]
            · exact hle x h)
          (by
            intro i x y hx hy
            rw [htv]
            cases i with
            | zero =>
              simp only [List.getElem?_cons_zero, Option.some.injEq] at hx
              simp only [Nat.zero_add, List.getElem?_cons_succ] at hy
              rw [← hx]
              exact hwin y (by rw [List.getElem?_take]; simpa using hy)
            | succ n =>
              simp only [List.getElem?_cons_succ] at hx
              have hy2 : P[n + 4]? = some y := by
                have : n + 1 + 4 = (n + 4) + 1 := by omega
                rw [this, List.getElem?_cons_succ] at hy
                exact hy
              exact hsp n x y hx hy2)
          hrun2
        rw [hclk, htv] at this
        exact this
      · have hc2 : ¬ (cmd = .ACT ∧ ch = nodeKey .channel a) := fun h => hc ⟨h.1, h.2.symm⟩
        have h1 : (act_cycles ch d0.m_clk (DeviceEvent.issue cmd a :: es)) =
            act_cycles ch d0.m_clk es := by
          simp only [act_cycles, hc, if_false]
        rw [h1]
        rw [if_neg hc2] at hhist
        have := ih (d0.issue_command cmd a) P (by rw [hhist, hh]) hs
          (by rw [hclk]; exact hle) (by rw [htv]; exact hsp) hrun2
        rw [hclk, htv] at this
        exact this

theorem reachable_history (d : Mono3D) (hd : d.Reachable) (key : List Int) :
    ((d.nodes key).history .ACT).Pairwise (fun x y => y ≤ x) ∧
    ∀ e ∈ (d.nodes key).history .ACT, e ≤ d.m_clk := by
  induction hd generalizing key with
  | init tv => simp [create_nodes]
  | tick _ ih =>
    obtain ⟨h1, h2⟩ := ih key
    exact ⟨h1, fun e he => le_trans (h2 e he) (by simp [Mono3D.tick])⟩
  | @issue d2 cmd a _ ih =>
    obtain ⟨h1, h2⟩ := ih key
    obtain ⟨_, hclk⟩ := issue_command_timing_vals d2 cmd a
    rw [issue_command_history, hclk]
    split_ifs
    · have hs : (d2.m_clk :: (d2.nodes key).history .ACT).Pairwise (fun x y => y ≤ x) :=
        List.pairwise_cons.mpr ⟨h2, h1⟩
      refine ⟨hs.sublist (List.take_sublist _ _), fun e he => ?_⟩
      rcases List.mem_cons.mp (List.mem_of_mem_take he) with h | h
      · rw [h]
      · exact h2 e h
    · exact ⟨h1, h2⟩

theorem reachable_window_full (d : Mono3D) (hd : d.Reachable) (key : List Int)
    (latency : Int) :
    window_admits (d.nodes key) .ACT 4 latency d.m_clk = true ↔
      ¬ window_full (d.nodes key) .ACT 4 latency d.m_clk :=
  window_admits_iff_not_full (d.nodes key) .ACT 4 latency d.m_clk (by decide)
    (reachable_history d hd key).1 (reachable_history d hd key).2

/-- C17: on a trace from initialisation whose commands are issued only when `check_ready`
holds, for every cycle `t` at most four ACT commands are issued on one channel at
cycles in the closed interval `[t - nFAW, t]`. -/
theorem act_window_closed (tv : TimingVals) (clk0 : Int) (trace : List DeviceEvent)
    (ch : List Int) (t : Int)
    (hrun : ((⟨clk0, tv, create_nodes⟩ : Mono3D).run trace).isSome = true) :
    ((act_cycles ch clk0 trace).filter
      (fun x => decide (t - tv.nFAW ≤ x ∧ x ≤ t))).length ≤ 4 := by
  obtain ⟨h1, h2⟩ := run_act_cycles ch trace ⟨clk0, tv, create_nodes⟩ [] rfl
    List.Pairwise.nil (fun x hx => by simp at hx) (fun i x y hx => by simp at hx) hrun
  have := window_count t tv.nFAW _ h1 h2
  simpa [List.filter_reverse] using this

/-- Witness for C17: with `nRRDS` and `nFAW` at 0, four ACTs at cycle 0 and a fifth at
cycle 1 form a run, of which four lie in the closed interval `[0 - nFAW, 0]`; a fifth
ACT in cycle 0 itself is not ready. -/
theorem act_window_closed_witness :
    ((⟨0, timing_zero_faw, create_nodes⟩ : Mono3D).run four_acts_one_cycle).isSome = true ∧
    act_cycles [0] 0 four_acts_one_cycle = [0, 0, 0, 0, 1] ∧
    ((act_cycles [0] 0 four_acts_one_cycle).filter
      (fun x => decide (0 - timing_zero_faw.nFAW ≤ x ∧ x ≤ 0))).length ≤ 4 ∧
    ((⟨0, timing_zero_faw, create_nodes⟩ : Mono3D).run five_acts_one_cycle).isSome = false :=
  ⟨by decide, by decide,
    act_window_closed timing_zero_faw 0 four_acts_one_cycle [0] 0 (by decide), by decide⟩

/-! ## Arrival and departure along a trace -/

theorem arrivals_ok_schedule (sched : IScheduler) (tv : TimingVals) (c : Controller)
    (used : List (List Int)) (h : c.arrivals_ok tv) :
    (c.schedule_request_filtered sched used).2.arrivals_ok tv := by
  obtain ⟨f1, f2, f3, f4, f5, f6⟩ := (schedule_request_filtered_spec sched c used).1
  obtain ⟨i1, i2, i3, i4⟩ := h
  refine ⟨by rw [f1]; exact i1, by rw [f2]; exact i2, fun b r hr => ?_, fun r hr => ?_⟩
  · have hm : r.forget_command ∈ (c.getBuf b).entries := by
      rw [← (f6 b).1]
      exact List.mem_map_of_mem _ hr
    obtain ⟨r0, hr0, e⟩ := List.mem_map.mp hm
    have ea : (r0.forget_command).arrive = (r.forget_command).arrive :=
      congrArg Request.arrive e
    have ea2 : r0.arrive = r.arrive := ea
    rw [f1, ← ea2]
    exact i3 b r0 hr0
  · rw [f3] at hr
    rw [f1]
    exact i4 r hr

theorem issue_selected_dram (c : Controller) (used : List (List Int)) (b : BufId) (it : Nat)
    (req : Request) :
    (c.issue_selected used b it req).1.m_dram.m_timing_vals = c.m_dram.m_timing_vals := by
  unfold Controller.issue_selected
  dsimp only
  obtain ⟨g1, g2, g3, g4, g5, g6⟩ := stat_step_snd c req
  generalize (if req.is_stat_updated = false then c.update_request_stats req else (req, c)) =
    su at g1 g2 g3 g4 g5 g6
  obtain ⟨r1, cs⟩ := su
  simp only at g1 g2 g3 g4 g5 g6
  split_ifs <;>
    simp only [(setBuf_fields _ _ _).2.2.2.1, (issue_command_timing_vals _ _ _).1, g2]

theorem arrivals_ok_issue_selected (tv : TimingVals) (c : Controller) (used : List (List Int))
    (b : BufId) (it : Nat) (req : Request) (h : c.arrivals_ok tv)
    (hit : it < (c.getBuf b).buffer.length) (hreq : req.arrive ≤ c.m_clk) :
    (c.issue_selected used b it req).1.arrivals_ok tv := by
  obtain ⟨i1, i2, i3, i4⟩ := h
  have hclk := (issue_selected_clk c used b it req).1
  refine ⟨by rw [hclk]; exact i1, by rw [issue_selected_dram]; exact i2,
    fun b1 r hr => ?_, fun r hr => ?_⟩
  · rw [hclk]
    rcases issue_selected_mem c used b it req hit b1 r hr with h1 | h1
    · exact i3 b1 r h1
    · rw [h1]; exact hreq
  · rw [hclk]
    rcases issue_selected_pending_cases c used b it req with h1 | ⟨ht, _, h1⟩ | ⟨ht, _, h1⟩
    · rw [h1] at hr; exact i4 r hr
    · rw [h1] at hr
      rcases List.mem_append.mp hr with h2 | h2
      · exact i4 r h2
      · have e : r = _ := List.mem_singleton.mp h2
        rw [e, i2]
        refine ⟨hreq, fun _ _ => ?_⟩
        show req.arrive + (tv.nCL + tv.nBL) ≤ c.m_clk + (tv.nCL + tv.nBL)
        omega
    · rw [h1] at hr
      rcases List.mem_append.mp hr with h2 | h2
      · exact i4 r h2
      · have e : r = _ := List.mem_singleton.mp h2
        rw [e]
        refine ⟨hreq, fun hread _ => ?_⟩
        have hread2 : req.type_id = Request.Type.Read := hread
        rw [ht] at hread2
        exact absurd hread2 (by decide)

theorem arrivals_ok_issue_slot (sched : IScheduler) (rowpolicy : IRowPolicy) (tv : TimingVals)
    (c : Controller) (used : List (List Int)) (h : c.arrivals_ok tv)
    (hrp : ∀ (d : Mono3D) (r : Request), (rowpolicy.update d r).arrive = r.arrive) :
    (c.issue_slot sched rowpolicy used).ctrl.arrivals_ok tv := by
  have h1 := arrivals_ok_schedule sched tv c used h
  cases hsel : (c.schedule_request_filtered sched used).1 with
  | none =>
    rw [(issue_slot_of_none sched rowpolicy c used hsel).1]
    exact h1
  | some s =>
    rw [(issue_slot_of_some sched rowpolicy c used s hsel).1]
    have hget := ((schedule_request_filtered_spec sched c used).2 s hsel).1
    have hit : s.req_it <
        ((c.schedule_request_filtered sched used).2.getBuf s.req_buffer).buffer.length := by
      by_contra hcon
      rw [List.getElem?_eq_none (Nat.le_of_not_lt hcon)] at hget
      exact Option.noConfusion hget
    apply arrivals_ok_issue_selected tv _ used _ _ _ h1 hit
    rw [hrp]
    exact h1.2.2.1 s.req_buffer s.req (List.getElem?_mem hget)

theorem arrivals_ok_issue_loop (sched : IScheduler) (rowpolicy : IRowPolicy) (tv : TimingVals)
    (hrp : ∀ (d : Mono3D) (r : Request), (rowpolicy.update d r).arrive = r.arrive) :
    ∀ (budget : Nat) (c : Controller) (used : List (List Int)), c.arrivals_ok tv →
      (Controller.issue_loop sched rowpolicy budget c used).1.arrivals_ok tv := by
  intro budget
  induction budget with
  | zero => intro c used h; exact h
  | succ n ih =>
    intro c used h
    unfold Controller.issue_loop
    have h1 := arrivals_ok_issue_slot sched rowpolicy tv c used h hrp
    cases hi : (c.issue_slot sched rowpolicy used).issued with
    | none => exact h1
    | some cmd => exact ih _ _ h1

theorem arrivals_ok_tick (sched : IScheduler) (rowpolicy : IRowPolicy) (tv : TimingVals)
    (c : Controller) (h : c.arrivals_ok tv)
    (hrp : ∀ (d : Mono3D) (r : Request), (rowpolicy.update d r).arrive = r.arrive) :
    (c.tick sched rowpolicy).ctrl.arrivals_ok tv ∧
    ∀ r : Request, (c.tick sched rowpolicy).fired = some r →
      r.arrive ≤ (c.tick sched rowpolicy).ctrl.m_clk ∧
      (r.type_id = Request.Type.Read → r.arrive ≠ -1 →
        r.arrive + (tv.nCL + tv.nBL) ≤ (c.tick sched rowpolicy).ctrl.m_clk) := by
  obtain ⟨i1, i2, i3, i4⟩ := h
  constructor
  · unfold Controller.tick
    dsimp only
    apply arrivals_ok_issue_loop sched rowpolicy tv hrp
    unfold Controller.serve_completed_pending
    dsimp only
    cases hp : c.pending with
    | nil =>
      refine ⟨by show 0 ≤ c.m_clk + 1; omega, i2, fun b r hr => ?_, fun r hr => ?_⟩
      · have : r ∈ (c.getBuf b).buffer := by cases b <;> exact hr
        have := i3 b r this
        show r.arrive ≤ c.m_clk + 1
        omega
      · simp at hr
    | cons head rest =>
      dsimp only
      have hmem : ∀ r ∈ rest, r ∈ c.pending := by
        intro r hr; rw [hp]; exact List.mem_cons_of_mem _ hr
      split_ifs <;>
        refine ⟨by show 0 ≤ c.m_clk + 1; omega, i2, fun b r hr => ?_, fun r hr => ?_⟩
      all_goals first
        | (have hb : r ∈ (c.getBuf b).buffer := by cases b <;> exact hr
           have := i3 b r hb
           show r.arrive ≤ c.m_clk + 1
           omega)
        | (have hr2 : r ∈ c.pending := by
             first
               | exact hmem r hr
               | (rw [hp]; exact hr)
           have := i4 r hr2
           exact ⟨by show r.arrive ≤ c.m_clk + 1; omega, this.2⟩)
  · intro r hr
    obtain ⟨hh, hd⟩ := tick_fired_head sched rowpolicy c r hr
    have hclk := tick_clk sched rowpolicy c
    have hm : r ∈ c.pending := List.mem_of_mem_head? hh
    obtain ⟨a1, a2⟩ := i4 r hm
    rw [hclk]
    refine ⟨by omega, fun ht hn => ?_⟩
    have := a2 ht hn
    omega

theorem count_request_fields (c : Controller) (ty : Int) :
    (c.count_request ty).m_clk = c.m_clk ∧ (c.count_request ty).m_dram = c.m_dram ∧
    (c.count_request ty).pending = c.pending ∧
    ∀ b : BufId, (c.count_request ty).getBuf b = c.getBuf b := by
  unfold Controller.count_request
  split_ifs <;> exact ⟨rfl, rfl, rfl, fun b => by cases b <;> rfl⟩

theorem enqueue_mem (b : ReqBuffer) (x r : Request) (h : r ∈ (b.enqueue x).2.buffer) :
    r ∈ b.buffer ∨ r = x := by
  unfold ReqBuffer.enqueue at h
  split_ifs at h
  · simpa using h
  · exact Or.inl h

theorem arrivals_ok_send (tv : TimingVals) (c : Controller) (req : Request)
    (h : c.arrivals_ok tv) (hfresh : req.arrive = -1)
    (ok : Bool) (r : Request) (c1 : Controller) (hs : c.send req = .ok (ok, r, c1)) :
    c1.arrivals_ok tv := by
  obtain ⟨i1, i2, i3, i4⟩ := h
  obtain ⟨k1, k2, k3, k4⟩ := count_request_fields c req.type_id
  unfold Controller.send at hs
  cases ht : m_request_translations req.type_id with
  | none => rw [ht] at hs; exact Except.noConfusion hs
  | some fc =>
    rw [ht] at hs
    dsimp only at hs
    generalize c.count_request req.type_id = cc at hs k1 k2 k3 k4
    have kr := k4 .read
    have kw := k4 .write
    simp only [Controller.getBuf] at kr kw
    split_ifs at hs with hb hr hf hw hf2
    · have e := Except.ok.inj hs
      simp only [Prod.mk.injEq] at e
      obtain ⟨_, _, e3⟩ := e
      subst e3
      refine ⟨by show 0 ≤ cc.m_clk; rw [k1]; exact i1,
        by show cc.m_dram.m_timing_vals = tv; rw [k2]; exact i2, fun b x hx => ?_,
        fun x hx => ?_⟩
      · have hx2 : x ∈ (c.getBuf b).buffer := by
          rw [← k4 b]; cases b <;> exact hx
        show x.arrive ≤ cc.m_clk
        rw [k1]; exact i3 b x hx2
      · have hx2 : x ∈ cc.pending ++ [_] := hx
        show x.arrive ≤ cc.m_clk ∧ _
        rw [k1]
        rcases List.mem_append.mp hx2 with h2 | h2
        · rw [k3] at h2; exact i4 x h2
        · have e4 : x = _ := List.mem_singleton.mp h2
          rw [e4]
          refine ⟨?_, fun _ hn => absurd hfresh hn⟩
          show req.arrive ≤ c.m_clk
          omega
    all_goals
      have e := Except.ok.inj hs
      simp only [Prod.mk.injEq] at e
      obtain ⟨_, _, e3⟩ := e
      subst e3
      refine ⟨by show 0 ≤ cc.m_clk; rw [k1]; exact i1,
        by show cc.m_dram.m_timing_vals = tv; rw [k2]; exact i2, fun b x hx => ?_,
        fun x hx => ?_⟩
      · show x.arrive ≤ cc.m_clk
        rw [k1]
        cases b
        all_goals first
          | exact i3 .active x (by rw [← k4 .active]; exact hx)
          | exact i3 .priority x (by rw [← k4 .priority]; exact hx)
          | exact i3 .read x (by rw [← k4 .read]; exact hx)
          | exact i3 .write x (by rw [← k4 .write]; exact hx)
          | (rcases enqueue_mem _ _ x hx with h2 | h2
             · first
                 | (rw [kr] at h2; exact i3 .read x h2)
                 | (rw [kw] at h2; exact i3 .write x h2)
             · rw [h2]
               show cc.m_clk ≤ c.m_clk
               rw [k1])
      · have hx2 : x ∈ cc.pending := hx
        show x.arrive ≤ cc.m_clk ∧ _
        rw [k1]
        rw [k3] at hx2
        exact i4 x hx2

theorem fired_along_ok (sched : IScheduler) (rowpolicy : IRowPolicy) (tv : TimingVals)
    (hrp : ∀ (d : Mono3D) (r : Request), (rowpolicy.update d r).arrive = r.arrive) :
    ∀ (trace : List CtrlEvent) (c : Controller), c.arrivals_ok tv →
      (∀ req : Request, CtrlEvent.send req ∈ trace → req.arrive = -1) →
      ∀ p ∈ Controller.fired_along sched rowpolicy c trace,
        p.2.arrive ≤ p.1 ∧
        (p.2.type_id = Request.Type.Read → p.2.arrive ≠ -1 →
          p.2.arrive + (tv.nCL + tv.nBL) ≤ p.1) := by
  intro trace
  induction trace with
  | nil => intro c _ _ p hp; simp [Controller.fired_along] at hp
  | cons e es ih =>
    intro c hc hfresh p hp
    have hfresh2 : ∀ req : Request, CtrlEvent.send req ∈ es → req.arrive = -1 :=
      fun req hm => hfresh req (List.mem_cons_of_mem _ hm)
    cases e with
    | send req =>
      unfold Controller.fired_along at hp
      cases hs : c.send req with
      | error msg => rw [hs] at hp; simp at hp
      | ok res =>
        rw [hs] at hp
        dsimp only at hp
        obtain ⟨ok, r, c1⟩ := res
        exact ih c1 (arrivals_ok_send tv c req hc (hfresh req (List.mem_cons_self _ _))
          ok r c1 hs) hfresh2 p hp
    | tick =>
      unfold Controller.fired_along at hp
      obtain ⟨h1, h2⟩ := arrivals_ok_tick sched rowpolicy tv c hc hrp
      rcases List.mem_append.mp hp with h3 | h3
      · cases hf : (c.tick sched rowpolicy).fired with
        | none => rw [hf] at h3; simp at h3
        | some q =>
          rw [hf] at h3
          have e : p = _ := List.mem_singleton.mp h3
          rw [e]
          exact h2 q hf
      · exact ih _ h1 hfresh2 p h3
    | dram_tick =>
      unfold Controller.fired_along at hp
      refine ih _ ?_ hfresh2 p hp
      obtain ⟨i1, i2, i3, i4⟩ := hc
      exact ⟨i1, i2, fun b x hx => i3 b x (by cases b <;> exact hx), i4⟩

/-- C18: along every trace of `send`, controller ticks and device ticks that starts with
empty buffers and a clock that is not negative, with requests handed to `send` as the
front end creates them (`arrive` at the sentinel `-1`) and a row policy that keeps
`arrive`, every callback runs at a cycle at least the request's `arrive`; for a Read
that was not forwarded (it went through the read buffer, so its `arrive` is the clock
of its `send` and not the sentinel) the cycle is at least `arrive + nCL + nBL`. -/
theorem callback_after_arrival (sched : IScheduler) (rowpolicy : IRowPolicy)
    (c0 : Controller) (trace : List CtrlEvent)
    (hclk : 0 ≤ c0.m_clk) (hpending : c0.pending = [])
    (hbufs : ∀ b : BufId, (c0.getBuf b).buffer = [])
    (hfresh : ∀ req : Request, CtrlEvent.send req ∈ trace → req.arrive = -1)
    (hrp : ∀ (d : Mono3D) (r : Request), (rowpolicy.update d r).arrive = r.arrive) :
    ∀ p ∈ Controller.fired_along sched rowpolicy c0 trace,
      p.2.arrive ≤ p.1 ∧
      (p.2.type_id = Request.Type.Read → p.2.arrive ≠ -1 →
        p.2.arrive + (c0.m_dram.m_timing_vals.nCL + c0.m_dram.m_timing_vals.nBL) ≤ p.1) := by
  apply fired_along_ok sched rowpolicy c0.m_dram.m_timing_vals hrp trace c0 ?_ hfresh
  refine ⟨hclk, rfl, fun b r hr => ?_, fun r hr => ?_⟩
  · rw [hbufs b] at hr; simp at hr
  · rw [hpending] at hr; simp at hr

/-- Witness for C18: on the idle controller the read that follows a write to its address
is forwarded and its callback runs in the first tick, at cycle 1, with `arrive = -1`. -/
theorem callback_after_arrival_witness :
    Controller.fired_along fcfs keep_row_open idle_ctrl write_then_read_trace =
      [(1, { read_b3_r7 with final_command := .RD, depart := 1 })] ∧
    (-1 : Int) ≤ 1 :=
  ⟨by decide,
    (callback_after_arrival fcfs keep_row_open idle_ctrl write_then_read_trace (by decide) rfl
      (fun b => by cases b <;> rfl)
      (fun req hm => by
        simp only [write_then_read_trace, List.mem_cons, CtrlEvent.send.injEq,
          List.mem_singleton, List.not_mem_nil, or_false, reduceCtorEq] at hm
        rcases hm with h | h <;> rw [h] <;> rfl)
      (fun _ _ => rfl)
      (1, { read_b3_r7 with final_command := .RD, depart := 1 }) (by decide)).1⟩

/-! ## Configuration -/

theorem init_error_of_org (m : Organization) (j : ℚ → Int → Int) (po : OrgParams)
    (pt : TimingParams) (e : String) (h : set_organization m po = .error e) :
    ∃ msg : String, Mono3D.init m j po pt = .error msg := by
  unfold Mono3D.init
  rw [h]
  exact ⟨e, rfl⟩

theorem init_error_of_timing (m : Organization) (j : ℚ → Int → Int) (po : OrgParams)
    (pt : TimingParams) (e : String) (h : set_timing_vals j pt = .error e) :
    ∃ msg : String, Mono3D.init m j po pt = .error msg := by
  unfold Mono3D.init
  rw [h]
  cases set_organization m po with
  | error e1 => exact ⟨e1, rfl⟩
  | ok org => exact ⟨e, rfl⟩

theorem timing_after_rate_unknown_preset (pt : TimingParams) (name : String)
    (hp : pt.preset = some name) (hn : timing_presets name = none) :
    ∃ e : String, timing_after_rate pt = .error e := by
  unfold timing_after_rate
  rw [hp]
  dsimp only
  rw [hn]
  exact ⟨_, rfl⟩

theorem timing_after_rate_with_preset (pt : TimingParams) (name : String) (r : Int)
    (hp : pt.preset = some name) (hr : pt.rate = some r) :
    ∃ e : String, timing_after_rate pt = .error e := by
  unfold timing_after_rate
  rw [hp, hr]
  dsimp only
  cases timing_presets name with
  | none => exact ⟨_, rfl⟩
  | some v => exact ⟨_, rfl⟩

theorem set_timing_vals_error_of_rate (j : ℚ → Int → Int) (pt : TimingParams) (e : String)
    (h : timing_after_rate pt = .error e) : set_timing_vals j pt = .error e := by
  unfold set_timing_vals
  rw [h]

theorem set_timing_vals_tCK_override (j : ℚ → Int → Int) (pt : TimingParams) (v : Int)
    (vals : List Int) (hn : pt.tCK_ps = none) (hv : v ≠ -1)
    (h : set_timing_vals j pt = .ok vals) :
    set_timing_vals j { pt with tCK_ps := some v } = .ok (vals.set 15 v) := by
  unfold set_timing_vals at h ⊢
  have h1 : timing_after_rate { pt with tCK_ps := some v } = timing_after_rate pt := rfl
  rw [h1]
  cases hr : timing_after_rate pt with
  | error e => rw [hr] at h; exact Except.noConfusion h
  | ok vals0 =>
    rw [hr] at h
    dsimp only at h ⊢
    have h2 : timing_after_overrides j { pt with tCK_ps := some v } vals0 =
        (timing_after_overrides j pt vals0).set 15 v := by
      unfold timing_after_overrides
      simp only [hn]
    rw [h2]
    by_cases hany : (timing_after_overrides j pt vals0).any (fun v => v == -1) = true
    · rw [if_pos hany] at h
      exact Except.noConfusion h
    · rw [if_neg hany] at h
      have e := Except.ok.inj h
      have hany2 : ¬ (((timing_after_overrides j pt vals0).set 15 v).any
          (fun v => v == -1) = true) := by
        intro hc
        rw [List.any_eq_true] at hc
        obtain ⟨x, hx, hx1⟩ := hc
        rcases List.mem_or_eq_of_mem_set hx with h3 | h3
        · exact hany (List.any_eq_true.mpr ⟨x, h3, hx1⟩)
        · rw [h3] at hx1
          exact hv (by simpa using hx1)
      rw [if_neg hany2, e]

/-- C19: initialisation ends in a configuration error when the organization preset or
the timing preset is not in its table, when a level count or a timing entry is still
`-1` after presets and overrides, when a positive density differs from the calculated
one, and when `timing.rate` comes with a timing preset. A `timing.tCK_ps` given with a
timing preset is no error by itself: where `set_timing_vals` succeeds without it, it
succeeds with it (for a value other than `-1`) and stores it. -/
theorem init_configuration_errors (m : Organization) (j : ℚ → Int → Int) (po : OrgParams)
    (pt : TimingParams) :
    (∀ name : String, po.preset = some name → org_presets name = none →
      ∃ msg : String, Mono3D.init m j po pt = .error msg) ∧
    (∀ name : String, pt.preset = some name → timing_presets name = none →
      ∃ msg : String, Mono3D.init m j po pt = .error msg) ∧
    (∀ org : Organization, org_after_overrides m po = .ok org →
      (∃ i : Nat, i < 6 ∧ org.count.getD i (-1) = -1) →
      ∃ msg : String, Mono3D.init m j po pt = .error msg) ∧
    (∀ vals : List Int, timing_after_rate pt = .ok vals →
      (-1 : Int) ∈ timing_after_overrides j pt vals →
      ∃ msg : String, Mono3D.init m j po pt = .error msg) ∧
    (∀ org : Organization, org_after_overrides m po = .ok org → 0 < org.density →
      to_size_t org.density ≠ calc_density_mb org →
      ∃ msg : String, Mono3D.init m j po pt = .error msg) ∧
    (∀ (name : String) (rate : Int), pt.preset = some name → pt.rate = some rate →
      ∃ msg : String, Mono3D.init m j po pt = .error msg) ∧
    (∀ (name : String) (v : Int) (vals : List Int), pt.preset = some name →
      pt.tCK_ps = none → v ≠ -1 → set_timing_vals j pt = .ok vals →
      set_timing_vals j { pt with tCK_ps := some v } = .ok (vals.set 15 v)) := by
  refine ⟨fun name hp hn => ?_, fun name hp hn => ?_, fun org ho hi => ?_,
    fun vals hr hm => ?_, fun org ho hd hne => ?_, fun name rate hp hr => ?_,
    fun name v vals _ hn hv h => set_timing_vals_tCK_override j pt v vals hn hv h⟩
  · apply init_error_of_org m j po pt "Unrecognized organization preset!"
    unfold set_organization org_after_overrides
    rw [hp]
    dsimp only
    rw [hn]
  · obtain ⟨e, he⟩ := timing_after_rate_unknown_preset pt name hp hn
    exact init_error_of_timing m j po pt e (set_timing_vals_error_of_rate j pt e he)
  · apply init_error_of_org m j po pt "organization is not specified!"
    unfold set_organization
    rw [ho]
    dsimp only
    have hany : (List.range 6).any (fun i => org.count.getD i (-1) == -1) = true := by
      rw [List.any_eq_true]
      obtain ⟨i, hi1, hi2⟩ := hi
      exact ⟨i, List.mem_range.mpr hi1, by simpa using hi2⟩
    rw [if_pos hany]
  · apply init_error_of_timing m j po pt "timing is not specified!"
    unfold set_timing_vals
    rw [hr]
    dsimp only
    have hany : (timing_after_overrides j pt vals).any (fun v => v == -1) = true := by
      rw [List.any_eq_true]
      exact ⟨-1, hm, by simp⟩
    rw [if_pos hany]
  · unfold Mono3D.init set_organization
    rw [ho]
    dsimp only
    by_cases hany : (List.range 6).any (fun i => org.count.getD i (-1) == -1) = true
    · rw [if_pos hany]
      exact ⟨_, rfl⟩
    · rw [if_neg hany, if_neg (not_le.mpr hd), if_pos hne]
      exact ⟨_, rfl⟩
  · obtain ⟨e, he⟩ := timing_after_rate_with_preset pt name rate hp hr
    exact init_error_of_timing m j po pt e (set_timing_vals_error_of_rate j pt e he)

/-- Witness for C19: the default presets with `timing.rate = 1600` added end in an error,
and with `timing.tCK_ps = 1250` added instead the timing vector is the preset with
`tCK_ps = 1250`. -/
theorem init_configuration_errors_witness :
    (∃ msg : String,
      Mono3D.init organization_unset (fun _ _ => 0) org_params_default
        { timing_params_default with rate := some 1600 } = .error msg) ∧
    set_timing_vals (fun _ _ => 0) { timing_params_default with tCK_ps := some 1250 } =
      .ok [2000, 1, 10, 10, 10, 24, 34, 10, 5, 8, 5, 5, 1, 4, 16, 1250] :=
  ⟨(init_configuration_errors organization_unset (fun _ _ => 0) org_params_default
      { timing_params_default with rate := some 1600 }).2.2.2.2.2.1
      "Mono3D_Default" 1600 rfl rfl,
    (init_configuration_errors organization_unset (fun _ _ => 0) org_params_default
      timing_params_default).2.2.2.2.2.2
      "Mono3D_Default" 1250 _ rfl rfl (by decide) rfl⟩

theorem getD_set_other (v : List Int) (i k : Nat) (x d : Int) (h : i ≠ k) :
    (v.set i x).getD k d = v.getD k d := by
  simp only [List.getD_eq_getElem?_getD, List.getElem?_set_ne h]

theorem foldl_overrides_getD (cycles : Nat → Option Int) (ns : Nat → Option ℚ)
    (j : ℚ → Int → Int) (t : Int) (k : Nat) (d : Int) (is : List Nat)
    (hk : ∀ i ∈ is, i ≠ k) (v : List Int) :
    (is.foldl
      (fun v i =>
        match cycles i with
        | some provided_cycles => v.set i provided_cycles
        | none =>
          if t ≠ -1 then
            match ns i with
            | some provided_ns => v.set i (j provided_ns t)
            | none => v
          else v) v).getD k d = v.getD k d := by
  induction is generalizing v with
  | nil => rfl
  | cons i rest ih =>
    rw [List.foldl_cons, ih (fun x hx => hk x (List.mem_cons_of_mem _ hx))]
    have hi : i ≠ k := hk i (List.mem_cons_self _ _)
    cases cycles i with
    | some c => exact getD_set_other v i k c d hi
    | none =>
      dsimp only
      by_cases ht : t ≠ -1
      · rw [if_pos ht]
        cases ns i with
        | some q => exact getD_set_other v i k _ d hi
        | none => rfl
      · rw [if_neg ht]

theorem timing_after_rate_no_preset (p : TimingParams) (r : Int) (hp : p.preset = none)
    (hr : p.rate = some r) :
    timing_after_rate p = .ok ((List.replicate 16 (-1)).set 0 r) := by
  unfold timing_after_rate
  rw [hp, hr]
  rfl

theorem timing_after_overrides_rate (j : ℚ → Int → Int) (p : TimingParams) (r : Int)
    (ht : p.tCK_ps = none) (hr1 : r ≠ -1) :
    (timing_after_overrides j p ((List.replicate 16 (-1)).set 0 r)).getD 15 (-1) =
        rate_to_tCK_ps r ∧
      (timing_after_overrides j p ((List.replicate 16 (-1)).set 0 r)).getD 0 (-1) = r := by
  have h0 : ((List.replicate 16 (-1 : Int)).set 0 r).getD 0 (-1) = r := rfl
  have hmem : ∀ k : Nat, (k = 0 ∨ k = 15) → ∀ i ∈ List.range' 1 14, i ≠ k := by
    intro k hk i hi
    rw [List.mem_range'_1] at hi
    omega
  unfold timing_after_overrides
  rw [ht, h0, if_pos hr1]
  dsimp only
  rw [foldl_overrides_getD p.cycles p.ns j _ 15 (-1) _ (hmem 15 (Or.inr rfl)),
    foldl_overrides_getD p.cycles p.ns j _ 0 (-1) _ (hmem 0 (Or.inl rfl))]
  exact ⟨rfl, rfl⟩

/-- C20: in a configuration without a timing preset, with `timing.rate = r` given and
`timing.tCK_ps` not overridden, the vector that `set_timing_vals` returns holds `r` as
its rate (entry 0) and `10^6 / (r / 2)` as its `tCK_ps` (entry 15), both divisions truncating as the
source's do (`r / 2` is nonzero, the case in which the source's division is defined).
Where `r` is even and `r / 2` divides `10^6` this is the exact quotient. -/
theorem set_timing_vals_rate_tCK (j : ℚ → Int → Int) (p : TimingParams) (r : Int)
    (vals : List Int) (hp : p.preset = none) (hr : p.rate = some r)
    (ht : p.tCK_ps = none) (hdiv : Int.tdiv r 2 ≠ 0)
    (hok : set_timing_vals j p = .ok vals) :
    vals.getD 15 (-1) = Int.tdiv 1000000 (Int.tdiv r 2) ∧
    vals.getD 0 (-1) = r ∧
    (2 ∣ r → Int.tdiv r 2 ∣ 1000000 →
      ((vals.getD 15 (-1) : Int) : ℚ) = 1000000 / ((r : ℚ) / 2)) := by
  have hr1 : r ≠ -1 := by
    intro h
    rw [h] at hdiv
    exact hdiv (by decide)
  obtain ⟨h15, h0⟩ := timing_after_overrides_rate j p r ht hr1
  unfold set_timing_vals at hok
  rw [timing_after_rate_no_preset p r hp hr] at hok
  dsimp only at hok
  split_ifs at hok
  have e := Except.ok.inj hok
  rw [← e]
  refine ⟨h15, h0, fun h2 hd => ?_⟩
  change ((List.getD _ 15 (-1) : Int) : ℚ) = _
  rw [h15]
  unfold rate_to_tCK_ps
  obtain ⟨k, rfl⟩ := h2
  have hk : Int.tdiv (2 * k) 2 = k := Int.mul_tdiv_cancel_left k (by decide)
  rw [hk] at hd hdiv ⊢
  obtain ⟨m, hm⟩ := hd
  rw [hm, Int.mul_tdiv_cancel_left m hdiv]
  have hkq : (k : ℚ) ≠ 0 := by exact_mod_cast hdiv
  have hq : (1000000 : ℚ) = (k : ℚ) * (m : ℚ) := by exact_mod_cast hm
  push_cast
  field_simp
  rw [hq]
  ring

/-- Witness for C20: no preset, `rate = 2000`, every other entry given as 5 cycles:
`tCK_ps` is 1000. -/
theorem set_timing_vals_rate_tCK_witness :
    set_timing_vals (fun _ _ => 0) timing_params_rate =
        .ok [2000, 5, 5, 5, 5, 5, 5, 5, 5, 5, 5, 5, 5, 5, 5, 1000] ∧
      ([2000, 5, 5, 5, 5, 5, 5, 5, 5, 5, 5, 5, 5, 5, 5, 1000] : List Int).getD
        15 (-1) = Int.tdiv 1000000 (Int.tdiv 2000 2) :=
  ⟨rfl, (set_timing_vals_rate_tCK (fun _ _ => 0) timing_params_rate 2000
    [2000, 5, 5, 5, 5, 5, 5, 5, 5, 5, 5, 5, 5, 5, 5, 1000] rfl rfl rfl (by decide) rfl).1⟩

/-! ## The timing vector and the organization after configuration -/

theorem set_ge_neg_one (l : List Int) (i : Nat) (x : Int) (hl : ∀ v ∈ l, -1 ≤ v)
    (hx : -1 ≤ x) : ∀ v ∈ l.set i x, -1 ≤ v := by
  intro v hv
  rcases List.mem_or_eq_of_mem_set hv with h | h
  · exact hl v h
  · rw [h]
    exact hx

theorem foldl_overrides_ge (cycles : Nat → Option Int) (ns : Nat → Option ℚ)
    (j : ℚ → Int → Int) (t : Int) (is : List Nat)
    (hc : ∀ (i : Nat) (x : Int), cycles i = some x → 0 ≤ x)
    (hj : ∀ (q : ℚ) (t : Int), 0 ≤ j q t) (v : List Int) (hv : ∀ x ∈ v, -1 ≤ x) :
    (∀ x ∈ is.foldl
      (fun v i =>
        match cycles i with
        | some provided_cycles => v.set i provided_cycles
        | none =>
          if t ≠ -1 then
            match ns i with
            | some provided_ns => v.set i (j provided_ns t)
            | none => v
          else v) v, -1 ≤ x) := by
  induction is generalizing v with
  | nil => exact hv
  | cons i rest ih =>
    rw [List.foldl_cons]
    apply ih
    cases hci : cycles i with
    | some c => exact set_ge_neg_one v i c hv (by linarith [hc i c hci])
    | none =>
      dsimp only
      by_cases ht : t ≠ -1
      · rw [if_pos ht]
        cases ns i with
        | some q => exact set_ge_neg_one v i _ hv (by linarith [hj q t])
        | none => exact hv
      · rw [if_neg ht]
        exact hv

theorem foldl_overrides_length (cycles : Nat → Option Int) (ns : Nat → Option ℚ)
    (j : ℚ → Int → Int) (t : Int) (is : List Nat) (v : List Int) :
    (is.foldl
      (fun v i =>
        match cycles i with
        | some provided_cycles => v.set i provided_cycles
        | none =>
          if t ≠ -1 then
            match ns i with
            | some provided_ns => v.set i (j provided_ns t)
            | none => v
          else v) v).length = v.length := by
  induction is generalizing v with
  | nil => rfl
  | cons i rest ih =>
    rw [List.foldl_cons, ih]
    cases cycles i with
    | some c => exact List.length_set _ _ _
    | none =>
      dsimp only
      by_cases ht : t ≠ -1
      · rw [if_pos ht]
        cases ns i with
        | some q => exact List.length_set _ _ _
        | none => rfl
      · rw [if_neg ht]

theorem timing_after_rate_spec (p : TimingParams) (vals : List Int)
    (h : timing_after_rate p = .ok vals) :
    vals.length = 16 ∧
    ((∀ r : Int, p.rate = some r → 0 ≤ r) → ∀ v ∈ vals, -1 ≤ v) := by
  unfold timing_after_rate at h
  cases hp : p.preset with
  | some name =>
    rw [hp] at h
    dsimp only at h
    unfold timing_presets at h
    by_cases hn : name = "Mono3D_Default"
    · rw [if_pos hn] at h
      cases hr : p.rate with
      | some r => rw [hr] at h; exact Except.noConfusion h
      | none =>
        rw [hr] at h
        have e := Except.ok.inj h
        rw [← e]
        exact ⟨rfl, fun _ => by decide⟩
    · rw [if_neg hn] at h
      exact Except.noConfusion h
  | none =>
    rw [hp] at h
    dsimp only at h
    cases hr : p.rate with
    | some r =>
      rw [hr] at h
      have e := Except.ok.inj h
      rw [← e]
      refine ⟨rfl, fun h0 => set_ge_neg_one _ 0 r (by decide) (by linarith [h0 r rfl])⟩
    | none =>
      rw [hr] at h
      have e := Except.ok.inj h
      rw [← e]
      exact ⟨rfl, fun _ => by decide⟩

theorem timing_after_overrides_spec (j : ℚ → Int → Int) (p : TimingParams) (vals : List Int) :
    (timing_after_overrides j p vals).length = vals.length ∧
    ((∀ v ∈ vals, -1 ≤ v) →
      (∀ (i : Nat) (x : Int), p.cycles i = some x → 0 ≤ x) →
      (∀ (q : ℚ) (t : Int), 0 ≤ j q t) →
      (∀ t : Int, p.tCK_ps = some t → 0 ≤ t) →
      ∀ v ∈ timing_after_overrides j p vals, -1 ≤ v) := by
  unfold timing_after_overrides
  dsimp only
  constructor
  · cases p.tCK_ps with
    | some t =>
      dsimp only
      rw [List.length_set, foldl_overrides_length]
      split_ifs
      · exact List.length_set _ _ _
      · rfl
    | none =>
      dsimp only
      rw [foldl_overrides_length]
      split_ifs
      · exact List.length_set _ _ _
      · rfl
  · intro hv hc hj ht
    have hg : -1 ≤ vals.getD 0 (-1) := by
      cases vals with
      | nil => decide
      | cons x rest => exact hv x (List.mem_cons_self _ _)
    have h1 : ∀ x ∈ (if vals.getD 0 (-1) ≠ -1 then
        vals.set 15 (rate_to_tCK_ps (vals.getD 0 (-1))) else vals), -1 ≤ x := by
      split_ifs with hne
      · refine set_ge_neg_one vals 15 _ hv ?_
        unfold rate_to_tCK_ps
        have h0 : 0 ≤ vals.getD 0 (-1) := by omega
        have : 0 ≤ Int.tdiv 1000000 (Int.tdiv (vals.getD 0 (-1)) 2) :=
          Int.tdiv_nonneg (by decide) (Int.tdiv_nonneg h0 (by decide))
        linarith
      · exact hv
    have h2 := foldl_overrides_ge p.cycles p.ns j
      ((if vals.getD 0 (-1) ≠ -1 then
        vals.set 15 (rate_to_tCK_ps (vals.getD 0 (-1))) else vals).getD 15 (-1))
      (List.range' 1 14) hc hj _ h1
    cases hp : p.tCK_ps with
    | some t => exact set_ge_neg_one _ 15 t h2 (by linarith [ht t hp])
    | none => exact h2

/-- Counterexample to C21 as stated: the default preset with `nCL = -5` given in cycles
passes `set_timing_vals`, and the resulting vector holds the entry `-5`. -/
theorem set_timing_vals_negative_counterexample :
    set_timing_vals (fun _ _ => 0) timing_params_negative =
      .ok [2000, 1, -5, 10, 10, 24, 34, 10, 5, 8, 5, 5, 1, 4, 16, 1000] ∧
    ¬ (∀ v ∈ ([2000, 1, -5, 10, 10, 24, 34, 10, 5, 8, 5, 5, 1, 4, 16, 1000] : List Int),
      0 ≤ v) :=
  ⟨rfl, by decide⟩

/-- C21 (amended): a timing vector that `set_timing_vals` returns has sixteen entries and
none of them is `-1`. Its entries are all `≥ 0` when the values the configuration
supplies are: the rate (at least 2), every entry given in cycles, `tCK_ps`, and every value that
`JEDEC_rounding` returns. -/
theorem set_timing_vals_entries (j : ℚ → Int → Int) (p : TimingParams) (vals : List Int)
    (hok : set_timing_vals j p = .ok vals) :
    vals.length = 16 ∧ (∀ v ∈ vals, v ≠ -1) ∧
    ((∀ r : Int, p.rate = some r → 2 ≤ r) →
      (∀ (i : Nat) (x : Int), p.cycles i = some x → 0 ≤ x) →
      (∀ t : Int, p.tCK_ps = some t → 0 ≤ t) →
      (∀ (q : ℚ) (t : Int), 0 ≤ j q t) →
      ∀ v ∈ vals, 0 ≤ v) := by
  unfold set_timing_vals at hok
  cases hr : timing_after_rate p with
  | error e => rw [hr] at hok; exact Except.noConfusion hok
  | ok vals0 =>
    rw [hr] at hok
    dsimp only at hok
    by_cases hany : (timing_after_overrides j p vals0).any (fun v => v == -1) = true
    · rw [if_pos hany] at hok
      exact Except.noConfusion hok
    · rw [if_neg hany] at hok
      have e := Except.ok.inj hok
      obtain ⟨hlen, hge⟩ := timing_after_rate_spec p vals0 hr
      obtain ⟨hlen2, hge2⟩ := timing_after_overrides_spec j p vals0
      have hne : ∀ v ∈ vals, v ≠ -1 := by
        intro v hv hv1
        apply hany
        rw [List.any_eq_true]
        exact ⟨v, by rw [e]; exact hv, by simp [hv1]⟩
      rw [← e]
      refine ⟨by rw [hlen2, hlen], by rw [e]; exact hne, fun h1 h2 h3 h4 v hv => ?_⟩
      have hv0 := hge (fun r hr => by linarith [h1 r hr])
      have := hge2 hv0 h2 h4 h3 v hv
      have := hne v (by rw [← e]; exact hv)
      omega

/-- Witness for C21 (amended): without a preset, rate 2000 and five cycles for every entry
from `nBL` to `nFAW` give a vector of sixteen entries, all `≥ 0`. -/
theorem set_timing_vals_entries_witness :
    set_timing_vals (fun _ _ => 0) timing_params_rate =
      .ok [2000, 5, 5, 5, 5, 5, 5, 5, 5, 5, 5, 5, 5, 5, 5, 1000] ∧
    ∀ v ∈ ([2000, 5, 5, 5, 5, 5, 5, 5, 5, 5, 5, 5, 5, 5, 5, 1000] : List Int), 0 ≤ v :=
  ⟨rfl, (set_timing_vals_entries (fun _ _ => 0) timing_params_rate
    [2000, 5, 5, 5, 5, 5, 5, 5, 5, 5, 5, 5, 5, 5, 5, 1000] rfl).2.2
    (fun r hr => by cases hr; decide) (fun i x hx => by cases hx; decide)
    (fun t ht => by cases ht) (fun _ _ => le_refl 0)⟩

theorem to_size_t_of_nonneg (x : Int) (h0 : 0 ≤ x) (h1 : x < 2 ^ 31) :
    ((to_size_t x : Nat) : Int) = x := by
  unfold to_size_t
  have h2 : x % 2 ^ 64 = x := Int.emod_eq_of_lt h0 (by omega)
  rw [h2]
  exact Int.toNat_of_nonneg h0

theorem to_int_of_small (n : Nat) (h : n < 2 ^ 31) : to_int n = (n : Int) := by
  unfold to_int
  have h1 : n % 2 ^ 32 = n := Nat.mod_eq_of_lt (by omega)
  rw [h1, if_pos h]

theorem calc_density_mb_eq (org : Organization)
    (hc : ∀ i : Nat, 1 ≤ i → i < 6 → 0 ≤ org.count.getD i 0 ∧ org.count.getD i 0 < 2 ^ 31)
    (hdq : 0 ≤ org.dq ∧ org.dq < 2 ^ 31) (hb : density_bits org < 2 ^ 64) :
    ((calc_density_mb org : Nat) : Int) = density_bits org / 2 ^ 20 := by
  unfold calc_density_mb
  have e1 := to_size_t_of_nonneg _ (hc 1 (by decide) (by decide)).1 (hc 1 (by decide) (by decide)).2
  have e2 := to_size_t_of_nonneg _ (hc 2 (by decide) (by decide)).1 (hc 2 (by decide) (by decide)).2
  have e3 := to_size_t_of_nonneg _ (hc 3 (by decide) (by decide)).1 (hc 3 (by decide) (by decide)).2
  have e4 := to_size_t_of_nonneg _ (hc 4 (by decide) (by decide)).1 (hc 4 (by decide) (by decide)).2
  have e5 := to_size_t_of_nonneg _ (hc 5 (by decide) (by decide)).1 (hc 5 (by decide) (by decide)).2
  have e6 := to_size_t_of_nonneg _ hdq.1 hdq.2
  have hp : ((to_size_t (org.count.getD Level.rank.idx 0) *
      to_size_t (org.count.getD Level.bankgroup.idx 0) *
      to_size_t (org.count.getD Level.bank.idx 0) * to_size_t (org.count.getD Level.row.idx 0) *
      to_size_t (org.count.getD Level.column.idx 0) * to_size_t org.dq : Nat) : Int) =
      density_bits org := by
    unfold density_bits
    push_cast
    simp only [Level.idx] at e1 e2 e3 e4 e5 ⊢
    rw [e1, e2, e3, e4, e5, e6]
  have hnn : 0 ≤ density_bits org := by
    rw [← hp]
    positivity
  push_cast at hp ⊢
  rw [hp]
  omega

/-- Counterexample to C22 as stated: the default organization with 100 rows and 100
columns passes `set_organization` with a density of 19 Mb, and `19 * 2^20` is not the
product `1 * 1 * 8 * 100 * 100 * 256 = 20480000`. -/
theorem set_organization_density_counterexample :
    set_organization organization_unset org_params_hundred =
      .ok ⟨19, 256, [1, 1, 1, 8, 100, 100]⟩ ∧
    density_bits ⟨19, 256, [1, 1, 1, 8, 100, 100]⟩ = 20480000 ∧
    (19 : Int) * 2 ^ 20 ≠ density_bits ⟨19, 256, [1, 1, 1, 8, 100, 100]⟩ :=
  ⟨rfl, by decide, by decide⟩

/-- C22 (amended): for an organization that `set_organization` returns, with counts and
`dq` that are not negative and a product `rank * bankgroup * bank * row * column * dq`
that fits `size_t` (and a density in Mb that fits `int`), the stored density is that
product divided by `2^20` and rounded down: `density * 2^20 ≤ product <
(density + 1) * 2^20`, with `density * 2^20 = product` exactly when `2^20` divides the
product. -/
theorem set_organization_density (m : Organization) (p : OrgParams) (org0 org : Organization)
    (h0 : org_after_overrides m p = .ok org0)
    (hc : ∀ i : Nat, 1 ≤ i → i < 6 → 0 ≤ org0.count.getD i 0 ∧ org0.count.getD i 0 < 2 ^ 31)
    (hdq : 0 ≤ org0.dq ∧ org0.dq < 2 ^ 31) (hd : org0.density < 2 ^ 31)
    (hb : density_bits org0 < 2 ^ 64) (hmb : density_bits org0 / 2 ^ 20 < 2 ^ 31)
    (hok : set_organization m p = .ok org) :
    org.count = org0.count ∧ org.dq = org0.dq ∧
    org.density = density_bits org / 2 ^ 20 ∧
    org.density * 2 ^ 20 ≤ density_bits org ∧
    density_bits org < (org.density + 1) * 2 ^ 20 ∧
    (org.density * 2 ^ 20 = density_bits org ↔ (2 ^ 20 : Int) ∣ density_bits org) := by
  have hcalc := calc_density_mb_eq org0 hc hdq hb
  have key : org.count = org0.count ∧ org.dq = org0.dq ∧
      org.density = density_bits org0 / 2 ^ 20 := by
    unfold set_organization at hok
    rw [h0] at hok
    dsimp only at hok
    split_ifs at hok with h1 h2 h3
    · have e := Except.ok.inj hok
      rw [← e]
      refine ⟨rfl, rfl, ?_⟩
      dsimp only
      rw [to_int_of_small _ (by omega), hcalc]
    · have e := Except.ok.inj hok
      rw [← e]
      refine ⟨rfl, rfl, ?_⟩
      have h4 : to_size_t org0.density = calc_density_mb org0 := not_not.mp h3
      have h5 := to_size_t_of_nonneg org0.density (by omega) hd
      rw [h4, hcalc] at h5
      exact h5.symm
  obtain ⟨k1, k2, k3⟩ := key
  have hbits : density_bits org = density_bits org0 := by
    unfold density_bits
    rw [k1, k2]
  rw [hbits]
  refine ⟨k1, k2, k3, ?_, ?_, ?_⟩ <;> rw [k3] <;> norm_num <;> omega

/-- Witness for C22 (amended): the default organization preset gets the density 512 Mb,
and `512 * 2^20` is the product `1 * 1 * 8 * 1024 * 256 * 256`. -/
theorem set_organization_density_witness :
    set_organization organization_unset org_params_default =
      .ok ⟨512, 256, [1, 1, 1, 8, 1024, 256]⟩ ∧
    (512 : Int) * 2 ^ 20 = density_bits ⟨512, 256, [1, 1, 1, 8, 1024, 256]⟩ :=
  ⟨rfl, (set_organization_density organization_unset org_params_default
    ⟨0, 256, [1, 1, 1, 8, 1024, 256]⟩ ⟨512, 256, [1, 1, 1, 8, 1024, 256]⟩ rfl
    (by decide) (by decide) (by decide) (by decide) (by decide) rfl).2.2.2.2.2.2
    (by decide)⟩

theorem set_timing_vals_default (j : ℚ → Int → Int) :
    set_timing_vals j timing_params_default =
      .ok [2000, 1, 10, 10, 10, 24, 34, 10, 5, 8, 5, 5, 1, 4, 16, 1000] := by
  have e : Int.tdiv 1000000 (Int.tdiv 2000 2) = 1000 := by decide
  simp [set_timing_vals, timing_after_rate, timing_after_overrides, timing_params_default,
    timing_presets, rate_to_tCK_ps, List.range', e]

theorem set_timing_vals_roundtrip (j : ℚ → Int → Int) (ns : Nat → Option ℚ) :
    set_timing_vals j (timing_params_roundtrip ns) =
      .ok [2000, 1, 10, 10, 10, 24, 34, 10, 5, 8, 5, 5, 1, 4, 16, 1000] := by
  simp [set_timing_vals, timing_after_rate, timing_after_overrides, timing_params_roundtrip,
    timing_presets, default_cycles, rate_to_tCK_ps, List.range']

theorem set_timing_vals_explicit (j : ℚ → Int → Int) (ns : Nat → Option ℚ) :
    set_timing_vals j (timing_params_explicit ns) =
      .ok [2000, 1, 10, 10, 10, 24, 34, 10, 5, 8, 5, 5, 1, 4, 16, 1000] := by
  simp [set_timing_vals, timing_after_rate, timing_after_overrides, timing_params_explicit,
    default_cycles, rate_to_tCK_ps, List.range']

/-- Counterexample to C23 as stated: the default preset with every parameter overridden by
its default value, `rate = 2000` included, makes `set_timing_vals` throw, whereas the
preset alone gives the default vector. -/
theorem timing_roundtrip_rate_counterexample :
    set_timing_vals (fun _ _ => 0) (timing_params_roundtrip_rate (fun _ => none)) =
      .error "Cannot change the transfer rate when using a timing preset!" ∧
    set_timing_vals (fun _ _ => 0) timing_params_default =
      .ok [2000, 1, 10, 10, 10, 24, 34, 10, 5, 8, 5, 5, 1, 4, 16, 1000] ∧
    set_timing_vals (fun _ _ => 0) (timing_params_roundtrip_rate (fun _ => none)) ≠
      set_timing_vals (fun _ _ => 0) timing_params_default :=
  ⟨rfl, rfl, fun h => Except.noConfusion h⟩

/-- C23 (amended): the default timing preset with every parameter other than the rate
overridden by its default value (`nBL` to `nFAW` in cycles, and `tCK_ps`) gives the
same timing vector as the preset alone, whatever nanosecond options are present; so do
all sixteen default values given without a preset. -/
theorem timing_roundtrip (j : ℚ → Int → Int) (ns : Nat → Option ℚ) :
    set_timing_vals j (timing_params_roundtrip ns) = set_timing_vals j timing_params_default ∧
    set_timing_vals j (timing_params_explicit ns) = set_timing_vals j timing_params_default ∧
    set_timing_vals j timing_params_default =
      .ok [2000, 1, 10, 10, 10, 24, 34, 10, 5, 8, 5, 5, 1, 4, 16, 1000] := by
  rw [set_timing_vals_roundtrip, set_timing_vals_explicit, set_timing_vals_default]
  exact ⟨rfl, rfl, rfl⟩

/-! ## Five successive activations -/

/-- C24: on a trace from initialisation whose commands are issued only when `check_ready`
holds, the fifth of any five successive ACTs on one channel is issued no earlier than
the first plus `nFAW`; and an ACT is ready on a channel whose history holds four ACTs
only at a cycle `t` with `t - oldest ≥ nFAW`. -/
theorem fifth_act_after_nFAW (tv : TimingVals) (clk0 : Int) (trace : List DeviceEvent)
    (ch : List Int)
    (hrun : ((⟨clk0, tv, create_nodes⟩ : Mono3D).run trace).isSome = true) :
    (∀ (k : Nat) (first fifth : Int), (act_cycles ch clk0 trace)[k]? = some first →
      (act_cycles ch clk0 trace)[k + 4]? = some fifth → first + tv.nFAW ≤ fifth) ∧
    (∀ (d : Mono3D) (a : AddrVec) (oldest : Int), d.check_ready .ACT a = true →
      ((d.nodes (nodeKey .channel a)).history .ACT)[3]? = some oldest →
      d.m_timing_vals.nFAW ≤ d.m_clk - oldest) := by
  constructor
  · intro k first fifth h1 h5
    obtain ⟨_, h2⟩ := run_act_cycles ch trace ⟨clk0, tv, create_nodes⟩ [] rfl
      List.Pairwise.nil (fun x hx => by simp at hx) (fun i x y hx => by simp at hx) hrun
    simp only [List.append_nil] at h2
    have hk : k + 4 < (act_cycles ch clk0 trace).length := by
      by_contra hn
      rw [List.getElem?_eq_none (Nat.le_of_not_lt hn)] at h5
      exact Option.noConfusion h5
    refine le_of_lt (h2 ((act_cycles ch clk0 trace).length - 1 - (k + 4)) fifth first ?_ ?_)
    · rw [List.getElem?_reverse (by omega)]
      rw [← h5]
      congr 1
      omega
    · rw [List.getElem?_reverse (by omega)]
      rw [← h1]
      congr 1
      omega
  · intro d a oldest hr ho
    have := check_ready_act_window d a hr oldest ho
    omega

/-- Witness for C24: with the default timings the five ACTs at cycles 0, 16, 32, 48 and 64
form a run, the fifth no earlier than sixteen cycles after the first; a fifth ACT tried
at cycle 63 is not ready. -/
theorem fifth_act_after_nFAW_witness :
    (fresh_dram.run five_act_trace).isSome = true ∧
    act_cycles [0] 0 five_act_trace = [0, 16, 32, 48, 64] ∧
    (0 : Int) + Mono3D_Default.nFAW ≤ 64 ∧
    (fresh_dram.run early_fifth_act_trace).isSome = false :=
  ⟨by decide, by decide,
    (fifth_act_after_nFAW Mono3D_Default 0 five_act_trace [0] (by decide)).1 0 0 64
      (by decide) (by decide),
    by decide⟩

/-! ## Closing commands from the active buffer -/

theorem is_matching_self (c : Controller) (a : AddrVec) : c.is_matching a a = true :=
  (is_matching_iff c a a).mpr (fun _ _ => Or.inl rfl)

theorem select_active_closing_rejected (sched : IScheduler) (c : Controller)
    (used : List (List Int)) (s : Selected)
    (hs : (c.select_active sched used).1 = some s)
    (hc : (m_command_meta s.req.command).is_closing = true) :
    c.schedule_request_filtered sched used = (none, (c.select_active sched used).2) := by
  have hget := ((select_active_spec sched c used).2 s hs).2.1
  have hact := ((select_active_spec sched c used).2 s hs).1
  rw [hact] at hget
  have hm : s.req ∈ (c.select_active sched used).2.m_active_buffer.buffer :=
    List.getElem?_mem hget
  rw [schedule_of_active sched c (c.select_active sched used).2 used s
    (Prod.ext hs rfl)]
  rw [hazard_filter_reject _ s hc ⟨s.req, hm, is_matching_self _ _⟩]

/-- C28: `schedule_request_filtered` never returns a request from the active buffer whose
command is closing. When the active-buffer step accepts such a request, its own entry
in the active buffer matches it in the hazard filter, the call returns no request, the
issue slot issues nothing and the issue loop stops there; the priority, read and write
buffers and the write mode are left exactly as they were. -/
theorem active_closing_never_accepted (sched : IScheduler) (rowpolicy : IRowPolicy)
    (c : Controller) (used : List (List Int)) :
    (∀ s : Selected, (c.schedule_request_filtered sched used).1 = some s →
      s.req_buffer = .active → (m_command_meta s.req.command).is_closing = false) ∧
    (∀ s : Selected, (c.select_active sched used).1 = some s →
      (m_command_meta s.req.command).is_closing = true →
      (c.schedule_request_filtered sched used).1 = none ∧
      (c.issue_slot sched rowpolicy used).issued = none ∧
      (∀ budget : Nat,
        (Controller.issue_loop sched rowpolicy (budget + 1) c used).2 = [] ∧
        (Controller.issue_loop sched rowpolicy (budget + 1) c used).1 =
          (c.issue_slot sched rowpolicy used).ctrl) ∧
      (c.issue_slot sched rowpolicy used).ctrl.m_priority_buffer = c.m_priority_buffer ∧
      (c.issue_slot sched rowpolicy used).ctrl.m_read_buffer = c.m_read_buffer ∧
      (c.issue_slot sched rowpolicy used).ctrl.m_write_buffer = c.m_write_buffer ∧
      (c.issue_slot sched rowpolicy used).ctrl.m_is_write_mode = c.m_is_write_mode) := by
  constructor
  · intro s hs hb
    by_contra hcl
    have hcl2 : (m_command_meta s.req.command).is_closing = true := by
      cases h : (m_command_meta s.req.command).is_closing
      · exact absurd h hcl
      · rfl
    cases hsa : (c.select_active sched used).1 with
    | some s0 =>
      have hs0 := hs
      rw [schedule_of_active sched c (c.select_active sched used).2 used s0
        (Prod.ext hsa rfl)] at hs
      dsimp only at hs
      obtain ⟨e, _⟩ := hazard_filter_some _ _ s hs
      have e0 : s0 = s := Option.some.inj e
      subst e0
      rw [select_active_closing_rejected sched c used s0 hsa hcl2] at hs0
      exact Option.noConfusion hs0
    | none =>
      cases hp : (c.select_active sched used).2.m_priority_buffer.buffer with
      | cons head rest =>
        rw [schedule_of_priority sched c (c.select_active sched used).2 used head _ rest
          (Prod.ext hsa rfl) hp rfl] at hs
        split_ifs at hs
        dsimp only at hs
        obtain ⟨e, _⟩ := hazard_filter_some _ _ s hs
        have e0 := Option.some.inj e
        rw [← e0] at hb
        exact BufId.noConfusion hb
      | nil =>
        rw [schedule_of_read_write sched c (c.select_active sched used).2 used
          (Prod.ext hsa rfl) hp] at hs
        dsimp only at hs
        obtain ⟨e, _⟩ := hazard_filter_some _ _ s hs
        have h1 := ((select_read_write_spec sched _ used).2 s e).1
        rw [hb] at h1
        rcases h1 with h1 | h1 <;> exact BufId.noConfusion h1
  · intro s hs hc
    have hsch := select_active_closing_rejected sched c used s hs hc
    have h1 : (c.schedule_request_filtered sched used).1 = none := by rw [hsch]
    obtain ⟨k1, k2⟩ := issue_slot_of_none sched rowpolicy c used h1
    have k3 : (c.issue_slot sched rowpolicy used).ctrl = (c.select_active sched used).2 := by
      rw [k1, hsch]
    refine ⟨h1, k2, fun budget => ?_, ?_, ?_, ?_, ?_⟩
    · unfold Controller.issue_loop
      rw [k2]
      exact ⟨rfl, rfl⟩
    all_goals rw [k3, select_active_snd]

/-! ## Reads issued in one tick -/

theorem issue_command_fence_mono (d : Mono3D) (c : Command) (a : AddrVec) (key : List Int)
    (f : Command) :
    (d.nodes key).next_valid_cycle f ≤ ((d.issue_command c a).nodes key).next_valid_cycle f := by
  unfold Mono3D.issue_command
  rw [update_states_fence]
  exact foldl_timing_mono c a d.m_clk (timing_cons d.m_timing_vals) d.nodes key f

theorem issue_read_blocks (d : Mono3D) (c : Command) (a : AddrVec) (hc : c = .RD ∨ c = .RDA)
    (hgap : 0 < d.m_timing_vals.nBL ∨ 0 < d.m_timing_vals.nCCDS) (f : Command)
    (hf : f = .RD ∨ f = .RDA) :
    d.m_clk < ((d.issue_command c a).nodes (nodeKey .channel a)).next_valid_cycle f := by
  unfold Mono3D.issue_command
  rw [update_states_fence]
  have hcp : c ∈ [Command.RD, Command.RDA] := by
    rcases hc with h | h <;> subst h <;> simp
  have hff : f ∈ [Command.RD, Command.RDA] := by
    rcases hf with h | h <;> subst h <;> simp
  rcases hgap with hg | hg
  · have := foldl_timing_ge c a d.m_clk (timing_cons d.m_timing_vals) d.nodes
      ⟨.channel, [.RD, .RDA], [.RD, .RDA], d.m_timing_vals.nBL, 1⟩ (by simp [timing_cons])
      hcp f hff
    have e : (d.update_timing c a d.m_clk).nodes =
        (timing_cons d.m_timing_vals).foldl (apply_timing_rule c a d.m_clk) d.nodes := rfl
    rw [e]
    simp only at this
    omega
  · have := foldl_timing_ge c a d.m_clk (timing_cons d.m_timing_vals) d.nodes
      ⟨.channel, [.RD, .RDA], [.RD, .RDA], d.m_timing_vals.nCCDS, 1⟩ (by simp [timing_cons])
      hcp f hff
    have e : (d.update_timing c a d.m_clk).nodes =
        (timing_cons d.m_timing_vals).foldl (apply_timing_rule c a d.m_clk) d.nodes := rfl
    rw [e]
    simp only at this
    omega

theorem check_ready_read_blocked (d : Mono3D) (a : AddrVec) (f : Command)
    (hf : f = .RD ∨ f = .RDA)
    (h : d.m_clk < (d.nodes (nodeKey .channel a)).next_valid_cycle f) :
    d.check_ready f a = false := by
  cases hr : d.check_ready f a with
  | false => rfl
  | true =>
    exfalso
    unfold Mono3D.check_ready at hr
    rw [List.all_eq_true] at hr
    have h2 := hr ⟨.channel, [.RD, .RDA], [.RD, .RDA], d.m_timing_vals.nBL, 1⟩
      (by simp [timing_cons])
    have hff : f ∈ [Command.RD, Command.RDA] := by
      rcases hf with h | h <;> subst h <;> simp
    simp only [rule_admits, hff, if_true, le_refl, Bool.and_true, decide_eq_true_eq] at h2
    omega

theorem issue_selected_device (c : Controller) (used : List (List Int)) (b : BufId) (it : Nat)
    (req : Request) :
    (c.issue_selected used b it req).1.m_dram = c.m_dram.issue_command req.command req.addr_vec := by
  unfold Controller.issue_selected
  dsimp only
  have g1 := stat_step_fst c req
  obtain ⟨_, g2, _⟩ := stat_step_snd c req
  generalize (if req.is_stat_updated = false then c.update_request_stats req else (req, c)) =
    su at g1 g2
  obtain ⟨r1, cs⟩ := su
  simp only at g1 g2
  subst g1
  split_ifs <;> simp only [(setBuf_fields _ _ _).2.2.2.1, g2]

theorem issue_slot_device (sched : IScheduler) (rowpolicy : IRowPolicy) (c : Controller)
    (used : List (List Int))
    (hrp : ∀ (d : Mono3D) (r : Request), (rowpolicy.update d r).command = r.command ∧
      (rowpolicy.update d r).addr_vec = r.addr_vec) :
    ((c.issue_slot sched rowpolicy used).issued = none →
      (c.issue_slot sched rowpolicy used).ctrl.m_dram = c.m_dram) ∧
    ∀ (cmd : Command) (a : AddrVec), (c.issue_slot sched rowpolicy used).issued = some (cmd, a) →
      c.m_dram.check_ready cmd a = true ∧
      (c.issue_slot sched rowpolicy used).ctrl.m_dram = c.m_dram.issue_command cmd a := by
  obtain ⟨hframe, hspec⟩ := schedule_request_filtered_spec sched c used
  cases hsel : (c.schedule_request_filtered sched used).1 with
  | none =>
    obtain ⟨k1, k2⟩ := issue_slot_of_none sched rowpolicy c used hsel
    refine ⟨fun _ => by rw [k1]; exact hframe.2.1, fun cmd a hi => ?_⟩
    rw [k2] at hi
    exact Option.noConfusion hi
  | some s =>
    obtain ⟨k1, k2⟩ := issue_slot_of_some sched rowpolicy c used s hsel
    refine ⟨fun hn => ?_, fun cmd a hi => ?_⟩
    · rw [k2] at hn
      exact Option.noConfusion hn
    · rw [k2, issue_selected_issued] at hi
      have e := Option.some.inj hi
      simp only [Prod.mk.injEq] at e
      obtain ⟨e1, e2⟩ := e
      obtain ⟨r1, r2⟩ := hrp (c.schedule_request_filtered sched used).2.m_dram s.req
      rw [r1] at e1
      rw [r2] at e2
      have hready := (hspec s hsel).2.2.1
      rw [e1, e2] at hready
      refine ⟨hready, ?_⟩
      rw [k1, issue_selected_device, r1, r2, e1, e2, hframe.2.1]

theorem issue_loop_read_blocked (sched : IScheduler) (rowpolicy : IRowPolicy)
    (hrp : ∀ (d : Mono3D) (r : Request), (rowpolicy.update d r).command = r.command ∧
      (rowpolicy.update d r).addr_vec = r.addr_vec) (ch : List Int) :
    ∀ (budget : Nat) (c : Controller) (used : List (List Int)),
      (∀ f : Command, f = .RD ∨ f = .RDA →
        c.m_dram.m_clk < (c.m_dram.nodes ch).next_valid_cycle f) →
      ∀ x ∈ (Controller.issue_loop sched rowpolicy budget c used).2,
        x.1 = .RD ∨ x.1 = .RDA → nodeKey .channel x.2 ≠ ch := by
  intro budget
  induction budget with
  | zero => intro c used _ x hx; simp [Controller.issue_loop] at hx
  | succ n ih =>
    intro c used hb x hx hrd hk
    unfold Controller.issue_loop at hx
    obtain ⟨_, hsome⟩ := issue_slot_device sched rowpolicy c used hrp
    cases hi : (c.issue_slot sched rowpolicy used).issued with
    | none => rw [hi] at hx; simp at hx
    | some p =>
      rw [hi] at hx
      obtain ⟨cmd, a⟩ := p
      obtain ⟨hready, hdev⟩ := hsome cmd a hi
      rcases List.mem_cons.mp hx with h1 | h1
      · rw [h1] at hrd hk
        have hnot := check_ready_read_blocked c.m_dram a cmd hrd (by
          have := hb cmd hrd
          rw [← hk] at this
          exact this)
        rw [hnot] at hready
        exact Bool.noConfusion hready
      · refine ih _ _ (fun f hf => ?_) x h1 hrd hk
        rw [hdev, (issue_command_timing_vals _ _ _).2]
        exact lt_of_lt_of_le (hb f hf) (issue_command_fence_mono _ _ _ _ _)

theorem issue_loop_one_read (sched : IScheduler) (rowpolicy : IRowPolicy)
    (hrp : ∀ (d : Mono3D) (r : Request), (rowpolicy.update d r).command = r.command ∧
      (rowpolicy.update d r).addr_vec = r.addr_vec) :
    ∀ (budget : Nat) (c : Controller) (used : List (List Int)),
      (0 < c.m_dram.m_timing_vals.nBL ∨ 0 < c.m_dram.m_timing_vals.nCCDS) →
      (Controller.issue_loop sched rowpolicy budget c used).2.Pairwise
        (fun x y => (x.1 = .RD ∨ x.1 = .RDA) → (y.1 = .RD ∨ y.1 = .RDA) →
          nodeKey .channel x.2 ≠ nodeKey .channel y.2) := by
  intro budget
  induction budget with
  | zero => intro c used _; simp [Controller.issue_loop]
  | succ n ih =>
    intro c used hgap
    unfold Controller.issue_loop
    obtain ⟨_, hsome⟩ := issue_slot_device sched rowpolicy c used hrp
    cases hi : (c.issue_slot sched rowpolicy used).issued with
    | none => exact List.Pairwise.nil
    | some p =>
      obtain ⟨cmd, a⟩ := p
      obtain ⟨_, hdev⟩ := hsome cmd a hi
      dsimp only
      refine List.pairwise_cons.mpr ⟨fun y hy hx hyr => ?_, ?_⟩
      · have := issue_loop_read_blocked sched rowpolicy hrp (nodeKey .channel a) n
          (c.issue_slot sched rowpolicy used).ctrl
          (c.issue_slot sched rowpolicy used).used_access_banks
          (fun f hf => by
            rw [hdev, (issue_command_timing_vals _ _ _).2]
            exact issue_read_blocks c.m_dram cmd a hx hgap f hf) y hy hyr
        exact fun e => this e.symm
      · apply ih
        rw [hdev, (issue_command_timing_vals _ _ _).1]
        exact hgap

theorem serve_completed_pending_dram (c : Controller) :
    c.serve_completed_pending.1.m_dram = c.m_dram := by
  unfold Controller.serve_completed_pending
  split
  · rfl
  · dsimp only
    split_ifs <;> rfl

/-- Counterexample to C25 as stated: in the scenario (default timings, two ports, four
reads of open rows that are all ready, two of them to bank 3 and the others to banks
1 and 2) one tick issues one command, not two. -/
theorem tick_four_reads_counterexample :
    (∀ r ∈ (ctrl_four_reads Mono3D_Default).m_read_buffer.buffer,
      (ctrl_four_reads Mono3D_Default).m_dram.get_preq_command .RD r.addr_vec = .RD ∧
      (ctrl_four_reads Mono3D_Default).m_dram.check_ready .RD r.addr_vec = true) ∧
    ((ctrl_four_reads Mono3D_Default).tick fcfs keep_row_open).issued =
      [(.RD, [0, 0, 0, 3, 5, 0])] ∧
    ((ctrl_four_reads Mono3D_Default).tick fcfs keep_row_open).issued.length ≠ 2 := by
  decide

/-- C25 (amended): on a device whose timing vector has `nBL > 0` or `nCCDS > 0` (the
default has both at 1), the commands of one tick hold at most one read (RD or RDA) per
channel, whatever the number of ports: a read issued in the tick raises the channel
fence of the reads past the current cycle. The row policy is one that leaves the
command and the address of a request alone. -/
theorem tick_one_read_per_channel (sched : IScheduler) (rowpolicy : IRowPolicy)
    (c : Controller)
    (hrp : ∀ (d : Mono3D) (r : Request), (rowpolicy.update d r).command = r.command ∧
      (rowpolicy.update d r).addr_vec = r.addr_vec)
    (hgap : 0 < c.m_dram.m_timing_vals.nBL ∨ 0 < c.m_dram.m_timing_vals.nCCDS) :
    (c.tick sched rowpolicy).issued.Pairwise
      (fun x y => (x.1 = .RD ∨ x.1 = .RDA) → (y.1 = .RD ∨ y.1 = .RDA) →
        nodeKey .channel x.2 ≠ nodeKey .channel y.2) := by
  unfold Controller.tick
  dsimp only
  apply issue_loop_one_read sched rowpolicy hrp
  rw [serve_completed_pending_dram]
  exact hgap

/-- Witness for C25 (amended): in the scenario with the default timings the tick issues
the one RD of the oldest read; with `nBL = nCCDS = 0` the same tick issues two RDs, to
banks 3 and 1, and passes over the second read of bank 3. -/
theorem tick_one_read_per_channel_witness :
    ((ctrl_four_reads Mono3D_Default).tick fcfs keep_row_open).issued.Pairwise
      (fun x y => (x.1 = .RD ∨ x.1 = .RDA) → (y.1 = .RD ∨ y.1 = .RDA) →
        nodeKey .channel x.2 ≠ nodeKey .channel y.2) ∧
    ((ctrl_four_reads Mono3D_Default).tick fcfs keep_row_open).issued =
      [(.RD, [0, 0, 0, 3, 5, 0])] ∧
    ((ctrl_four_reads timing_zero_gap).tick fcfs keep_row_open).issued =
      [(.RD, [0, 0, 0, 3, 5, 0]), (.RD, [0, 0, 0, 1, 5, 0])] :=
  ⟨tick_one_read_per_channel fcfs keep_row_open (ctrl_four_reads Mono3D_Default)
      (fun _ _ => ⟨rfl, rfl⟩) (Or.inl (by decide)),
    by decide, by decide⟩

/-! ## The issue loop does not read `pending` or the counters -/

theorem same_issue_state_refl (c : Controller) : c.same_issue_state c :=
  ⟨rfl, rfl, rfl, rfl, rfl, rfl, rfl, rfl, rfl, rfl, rfl⟩

theorem same_issue_state_getBuf {c c1 : Controller} (h : c.same_issue_state c1) (b : BufId) :
    c1.getBuf b = c.getBuf b := by
  obtain ⟨_, _, h3, h4, h5, h6, _⟩ := h
  cases b
  · exact h3
  · exact h4
  · exact h5
  · exact h6

theorem same_issue_state_setBuf {c c1 : Controller} (h : c.same_issue_state c1) (b : BufId)
    (v : ReqBuffer) : (c.setBuf b v).same_issue_state (c1.setBuf b v) := by
  obtain ⟨h1, h2, h3, h4, h5, h6, h7, h8, h9, h10, h11⟩ := h
  cases b <;> exact ⟨h1, h2, by first | rfl | exact h3, by first | rfl | exact h4,
    by first | rfl | exact h5, by first | rfl | exact h6, h7, h8, h9, h10, h11⟩

theorem get_best_same {c c1 : Controller} (h : c.same_issue_state c1) (sched : IScheduler)
    (b : ReqBuffer) (used : List (List Int)) :
    c1.get_best_request_filtered sched b used = c.get_best_request_filtered sched b used := by
  obtain ⟨_, h2, _, _, _, _, h7, _⟩ := h
  unfold Controller.get_best_request_filtered Controller.refresh_commands
    Controller.violates_access_bank_parallelism Controller.bank_key
  rw [h2, h7]

theorem hazard_filter_same {c c1 : Controller} (h : c.same_issue_state c1)
    (found : Option Selected) : c1.hazard_filter found = c.hazard_filter found := by
  obtain ⟨_, _, h3, _, _, _, h7, _⟩ := h
  unfold Controller.hazard_filter Controller.is_matching
  rw [h3, h7]

theorem select_active_same {c c1 : Controller} (h : c.same_issue_state c1) (sched : IScheduler)
    (used : List (List Int)) :
    (c1.select_active sched used).1 = (c.select_active sched used).1 ∧
    (c.select_active sched used).2.same_issue_state (c1.select_active sched used).2 := by
  have hg := get_best_same h sched c.m_active_buffer used
  obtain ⟨h1, h2, h3, h4, h5, h6, h7, h8, h9, h10, h11⟩ := h
  unfold Controller.select_active
  dsimp only
  rw [h3, hg, h2]
  split
  · split <;>
      (refine ⟨rfl, ?_, ?_, ?_, ?_, ?_, ?_, ?_, ?_, ?_, ?_, ?_⟩ <;> first | rfl | assumption)
  · refine ⟨rfl, ?_, ?_, ?_, ?_, ?_, ?_, ?_, ?_, ?_, ?_, ?_⟩ <;> first | rfl | assumption

theorem set_write_mode_same {c c1 : Controller} (h : c.same_issue_state c1) :
    c.set_write_mode.same_issue_state c1.set_write_mode := by
  obtain ⟨h1, h2, h3, h4, h5, h6, h7, h8, h9, h10, h11⟩ := h
  unfold Controller.set_write_mode
  rw [h5, h6, h8, h9, h10]
  split_ifs <;>
    (refine ⟨?_, ?_, ?_, ?_, ?_, ?_, ?_, ?_, ?_, ?_, ?_⟩ <;> first | rfl | assumption)

theorem select_read_write_same {c c1 : Controller} (h : c.same_issue_state c1)
    (sched : IScheduler) (used : List (List Int)) :
    (c1.select_read_write sched used).1 = (c.select_read_write sched used).1 ∧
    (c.select_read_write sched used).2.same_issue_state (c1.select_read_write sched used).2 := by
  have hm := set_write_mode_same h
  have hg := fun b => get_best_same hm sched b used
  have hb := same_issue_state_getBuf hm
  have hmode : c1.set_write_mode.m_is_write_mode = c.set_write_mode.m_is_write_mode :=
    hm.2.2.2.2.2.2.2.2.2.1
  unfold Controller.select_read_write
  dsimp only
  rw [hmode, hb, hg]
  generalize (if c.set_write_mode.m_is_write_mode = true then BufId.write else BufId.read) = B
  generalize c.set_write_mode.get_best_request_filtered sched (c.set_write_mode.getBuf B) used = r
  obtain ⟨r1, r2⟩ := r
  have hs := same_issue_state_setBuf hm B r1
  cases r2 with
  | none => exact ⟨rfl, hs⟩
  | some p =>
    obtain ⟨it, req⟩ := p
    dsimp only
    rw [hs.2.1]
    split_ifs
    · exact ⟨rfl, hs⟩
    · exact ⟨rfl, hs⟩

theorem schedule_same {c c1 : Controller} (h : c.same_issue_state c1) (sched : IScheduler)
    (used : List (List Int)) :
    (c1.schedule_request_filtered sched used).1 = (c.schedule_request_filtered sched used).1 ∧
    (c.schedule_request_filtered sched used).2.same_issue_state
      (c1.schedule_request_filtered sched used).2 := by
  obtain ⟨ha1, ha2⟩ := select_active_same h sched used
  have hp : (c1.select_active sched used).2.m_priority_buffer =
      (c.select_active sched used).2.m_priority_buffer := ha2.2.2.2.1
  have hd : (c1.select_active sched used).2.m_dram = (c.select_active sched used).2.m_dram :=
    ha2.2.1
  cases hsa : (c.select_active sched used).1 with
  | some s =>
    rw [schedule_of_active sched c _ used s (Prod.ext hsa rfl),
      schedule_of_active sched c1 _ used s (Prod.ext (ha1.trans hsa) rfl)]
    dsimp only
    exact ⟨hazard_filter_same ha2 _, ha2⟩
  | none =>
    cases hb : (c.select_active sched used).2.m_priority_buffer.buffer with
    | nil =>
      rw [schedule_of_read_write sched c _ used (Prod.ext hsa rfl) hb,
        schedule_of_read_write sched c1 _ used (Prod.ext (ha1.trans hsa) rfl)
          (by rw [hp]; exact hb)]
      obtain ⟨w1, w2⟩ := select_read_write_same ha2 sched used
      dsimp only
      rw [w1, hazard_filter_same w2]
      exact ⟨rfl, w2⟩
    | cons head rest =>
      rw [schedule_of_priority sched c _ used head _ rest (Prod.ext hsa rfl) hb rfl,
        schedule_of_priority sched c1 _ used head _ rest (Prod.ext (ha1.trans hsa) rfl)
          (by rw [hp]; exact hb) rfl]
      rw [hd, hp]
      have hs := fun v => same_issue_state_setBuf ha2 .priority v
      split_ifs
      · dsimp only
        rw [hazard_filter_same (hs _)]
        exact ⟨rfl, hs _⟩
      · exact ⟨rfl, hs _⟩

theorem update_request_stats_same {c c1 : Controller} (h : c.same_issue_state c1)
    (req : Request) :
    (c1.update_request_stats req).1 = (c.update_request_stats req).1 ∧
    (c.update_request_stats req).2.same_issue_state (c1.update_request_stats req).2 := by
  obtain ⟨h1, h2, h3, h4, h5, h6, h7, h8, h9, h10, h11⟩ := h
  unfold Controller.update_request_stats
  dsimp only
  rw [h2]
  split_ifs <;>
    (refine ⟨rfl, ?_, ?_, ?_, ?_, ?_, ?_, ?_, ?_, ?_, ?_, ?_⟩ <;> first | rfl | assumption)

theorem issue_selected_same {c c1 : Controller} (h : c.same_issue_state c1)
    (used : List (List Int)) (b : BufId) (it : Nat) (req : Request) :
    (c1.issue_selected used b it req).2 = (c.issue_selected used b it req).2 ∧
    (c.issue_selected used b it req).1.same_issue_state (c1.issue_selected used b it req).1 := by
  have hsu : (if req.is_stat_updated = false then c1.update_request_stats req
        else (req, c1)).1 =
      (if req.is_stat_updated = false then c.update_request_stats req else (req, c)).1 ∧
      (if req.is_stat_updated = false then c.update_request_stats req
        else (req, c)).2.same_issue_state
      (if req.is_stat_updated = false then c1.update_request_stats req else (req, c1)).2 := by
    split_ifs
    · exact update_request_stats_same h req
    · exact ⟨rfl, h⟩
  unfold Controller.issue_selected
  dsimp only
  generalize (if req.is_stat_updated = false then c.update_request_stats req else (req, c)) =
    su at hsu
  generalize (if req.is_stat_updated = false then c1.update_request_stats req else (req, c1)) =
    su1 at hsu
  obtain ⟨r, cs⟩ := su
  obtain ⟨r1, cs1⟩ := su1
  obtain ⟨e, hs⟩ := hsu
  simp only at e hs
  subst e
  obtain ⟨h1, h2, h3, h4, h5, h6, h7, h8, h9, h10, h11⟩ := hs
  cases b <;>
    simp only [Controller.getBuf, Controller.setBuf, Controller.bank_key, h1, h2, h3, h4, h5,
      h6, h7] <;>
    split_ifs <;>
    (refine ⟨rfl, ?_, ?_, ?_, ?_, ?_, ?_, ?_, ?_, ?_, ?_, ?_⟩ <;> first | rfl | assumption)

theorem same_issue_state_symm {c c1 : Controller} (h : c.same_issue_state c1) :
    c1.same_issue_state c := by
  obtain ⟨h1, h2, h3, h4, h5, h6, h7, h8, h9, h10, h11⟩ := h
  exact ⟨h1.symm, h2.symm, h3.symm, h4.symm, h5.symm, h6.symm, h7.symm, h8.symm, h9.symm,
    h10.symm, h11.symm⟩

theorem same_issue_state_trans {c c1 c2 : Controller} (h : c.same_issue_state c1)
    (k : c1.same_issue_state c2) : c.same_issue_state c2 := by
  obtain ⟨h1, h2, h3, h4, h5, h6, h7, h8, h9, h10, h11⟩ := h
  obtain ⟨k1, k2, k3, k4, k5, k6, k7, k8, k9, k10, k11⟩ := k
  exact ⟨k1.trans h1, k2.trans h2, k3.trans h3, k4.trans h4, k5.trans h5, k6.trans h6,
    k7.trans h7, k8.trans h8, k9.trans h9, k10.trans h10, k11.trans h11⟩

theorem issue_slot_same {c c1 : Controller} (h : c.same_issue_state c1) (sched : IScheduler)
    (rowpolicy : IRowPolicy) (used : List (List Int)) :
    (c1.issue_slot sched rowpolicy used).issued = (c.issue_slot sched rowpolicy used).issued ∧
    (c1.issue_slot sched rowpolicy used).used_access_banks =
      (c.issue_slot sched rowpolicy used).used_access_banks ∧
    (c.issue_slot sched rowpolicy used).ctrl.same_issue_state
      (c1.issue_slot sched rowpolicy used).ctrl := by
  obtain ⟨s1, s2⟩ := schedule_same h sched used
  unfold Controller.issue_slot
  dsimp only
  rw [s1]
  cases (c.schedule_request_filtered sched used).1 with
  | none => exact ⟨rfl, rfl, s2⟩
  | some s =>
    dsimp only
    rw [s2.2.1]
    obtain ⟨e, hs⟩ := issue_selected_same s2 used s.req_buffer s.req_it
      (rowpolicy.update (c.schedule_request_filtered sched used).2.m_dram s.req)
    rw [e]
    exact ⟨rfl, rfl, hs⟩

theorem issue_loop_same (sched : IScheduler) (rowpolicy : IRowPolicy) :
    ∀ (budget : Nat) (c c1 : Controller) (used : List (List Int)), c.same_issue_state c1 →
      (Controller.issue_loop sched rowpolicy budget c1 used).2 =
        (Controller.issue_loop sched rowpolicy budget c used).2 ∧
      (Controller.issue_loop sched rowpolicy budget c used).1.same_issue_state
        (Controller.issue_loop sched rowpolicy budget c1 used).1 := by
  intro budget
  induction budget with
  | zero => intro c c1 used h; exact ⟨rfl, h⟩
  | succ n ih =>
    intro c c1 used h
    obtain ⟨e1, e2, hs⟩ := issue_slot_same h sched rowpolicy used
    unfold Controller.issue_loop
    rw [e1, e2]
    cases (c.issue_slot sched rowpolicy used).issued with
    | none => exact ⟨rfl, hs⟩
    | some cmd =>
      dsimp only
      obtain ⟨i1, i2⟩ := ih _ _ (c.issue_slot sched rowpolicy used).used_access_banks hs
      rw [i1]
      exact ⟨rfl, i2⟩

theorem serve_completed_pending_same (c : Controller) :
    c.same_issue_state c.serve_completed_pending.1 := by
  unfold Controller.serve_completed_pending
  split
  · exact same_issue_state_refl c
  · dsimp only
    split_ifs <;> exact ⟨rfl, rfl, rfl, rfl, rfl, rfl, rfl, rfl, rfl, rfl, rfl⟩

theorem tick_same {c c1 : Controller} (h : c.same_issue_state c1) (sched : IScheduler)
    (rowpolicy : IRowPolicy) :
    (c1.tick sched rowpolicy).issued = (c.tick sched rowpolicy).issued ∧
    (c.tick sched rowpolicy).ctrl.same_issue_state (c1.tick sched rowpolicy).ctrl := by
  unfold Controller.tick
  dsimp only
  have hs0 : Controller.same_issue_state
      { c with
        m_clk := c.m_clk + 1,
        s_queue_len := c.s_queue_len + (c.m_read_buffer.size + c.m_write_buffer.size +
          c.m_priority_buffer.size + c.pending.length),
        s_read_queue_len := c.s_read_queue_len + (c.m_read_buffer.size + c.pending.length),
        s_write_queue_len := c.s_write_queue_len + c.m_write_buffer.size,
        s_priority_queue_len := c.s_priority_queue_len + c.m_priority_buffer.size }
      { c1 with
        m_clk := c1.m_clk + 1,
        s_queue_len := c1.s_queue_len + (c1.m_read_buffer.size + c1.m_write_buffer.size +
          c1.m_priority_buffer.size + c1.pending.length),
        s_read_queue_len := c1.s_read_queue_len + (c1.m_read_buffer.size + c1.pending.length),
        s_write_queue_len := c1.s_write_queue_len + c1.m_write_buffer.size,
        s_priority_queue_len := c1.s_priority_queue_len + c1.m_priority_buffer.size } := by
    obtain ⟨h1, h2, h3, h4, h5, h6, h7, h8, h9, h10, h11⟩ := h
    exact ⟨by show c1.m_clk + 1 = c.m_clk + 1; rw [h1], h2, h3, h4, h5, h6, h7, h8, h9, h10,
      h11⟩
  have hs1 := same_issue_state_trans
    (same_issue_state_trans (same_issue_state_symm (serve_completed_pending_same _)) hs0)
    (serve_completed_pending_same _)
  have hb := hs1.2.2.2.2.2.2.2.2.2.2
  rw [hb]
  exact issue_loop_same sched rowpolicy _ _ _ [] hs1

/-! ## Write-to-read forwarding, end to end -/

/-- Counterexample to C26 as stated: a write to address 1792 waits in the write buffer and
`pending` holds a read that departs at cycle 20. A read of address 1792 sent at clock 5
is forwarded with `depart = 6`, but no callback runs in the tick of cycle 6: the
callbacks run at cycle 20 (the earlier read) and at cycle 21 (the forwarded read). -/
theorem bypass_behind_pending_counterexample :
    (∃ w ∈ ctrl_write_and_pending.m_write_buffer.buffer, w.addr = read_b3_r7.addr) ∧
    ctrl_write_and_pending.m_clk = 5 ∧
    Controller.fired_along fcfs keep_row_open ctrl_write_and_pending
      [.send read_b3_r7, .tick] = [] ∧
    (Controller.fired_along fcfs keep_row_open ctrl_write_and_pending
      (.send read_b3_r7 :: cycles 20)).map (fun p => (p.1, p.2.addr, p.2.type_id, p.2.depart)) =
      [(20, 256, 0, 20), (21, 1792, 0, 6), (22, 1792, 1, 17)] := by
  decide!

/-- C26 (amended): a Read of an address that a Write in the write buffer holds, sent at
controller clock `clk`, is accepted with `depart = clk + 1` and put at the back of
`pending`; the state that the issue loop reads is unchanged, so the next tick gives the
device the same commands as it would without the read and leaves the same buffers.
When `pending` was empty at the send, that tick, at cycle `clk + 1`, invokes the
callback of the read (if one is installed). -/
theorem bypass_read_next_tick (sched : IScheduler) (rowpolicy : IRowPolicy) (c : Controller)
    (req : Request) (hty : req.type_id = Request.Type.Read)
    (hw : ∃ w ∈ c.m_write_buffer.buffer, w.addr = req.addr) :
    ∃ (r : Request) (c1 : Controller),
      c.send req = .ok (true, r, c1) ∧
      r = { req with final_command := .RD, depart := c.m_clk + 1 } ∧
      c1.pending = c.pending ++ [r] ∧
      c.same_issue_state c1 ∧
      (c1.tick sched rowpolicy).issued = (c.tick sched rowpolicy).issued ∧
      (c.tick sched rowpolicy).ctrl.same_issue_state (c1.tick sched rowpolicy).ctrl ∧
      (c1.tick sched rowpolicy).ctrl.m_clk = c.m_clk + 1 ∧
      (c.pending = [] →
        (c1.tick sched rowpolicy).fired = (if req.callback then some r else none)) := by
  have hsame : c.same_issue_state { c with
      s_num_read_reqs := c.s_num_read_reqs + 1,
      pending := c.pending ++ [{ req with final_command := .RD, depart := c.m_clk + 1 }] } :=
    ⟨rfl, rfl, rfl, rfl, rfl, rfl, rfl, rfl, rfl, rfl, rfl⟩
  obtain ⟨t1, t2⟩ := tick_same hsame sched rowpolicy
  refine ⟨{ req with final_command := .RD, depart := c.m_clk + 1 },
    { c with
      s_num_read_reqs := c.s_num_read_reqs + 1,
      pending := c.pending ++ [{ req with final_command := .RD, depart := c.m_clk + 1 }] },
    ?_, rfl, rfl, hsame, t1, t2, ?_, fun hp => ?_⟩
  · simp [Controller.send, Controller.count_request, hty, m_request_translations,
      Request.Type.Read, hw]
  · rw [tick_clk]
  · unfold Controller.tick
    dsimp only
    simp [Controller.serve_completed_pending, hp]

/-- Witness for C26 (amended): on `ctrl_with_write` (clock 5, empty `pending`) the read of
the address of the waiting write has its callback invoked in the next tick, at cycle 6,
its `depart`. -/
theorem bypass_read_next_tick_witness :
    ∃ (r : Request) (c1 : Controller),
      ctrl_with_write.send read_b3_r7 = .ok (true, r, c1) ∧ r.depart = 6 ∧
      (c1.tick fcfs keep_row_open).ctrl.m_clk = 6 ∧
      (c1.tick fcfs keep_row_open).fired = some r ∧
      (c1.tick fcfs keep_row_open).issued = (ctrl_with_write.tick fcfs keep_row_open).issued := by
  obtain ⟨r, c1, h1, h2, _, _, h5, _, h7, h8⟩ :=
    bypass_read_next_tick fcfs keep_row_open ctrl_with_write read_b3_r7 rfl
      ⟨_, List.mem_cons_self _ _, rfl⟩
  exact ⟨r, c1, h1, by rw [h2]; rfl, h7, by rw [h8 rfl]; rfl, h5⟩

/-! ## The cold read -/

theorem cycles_add (m n : Nat) : cycles (m + n) = cycles m ++ cycles n := by
  induction m with
  | zero => simp [cycles]
  | succ k ih =>
    rw [Nat.succ_add]
    simp only [cycles, ih, List.cons_append]

theorem outputs_along_append (sched : IScheduler) (rowpolicy : IRowPolicy) :
    ∀ (es1 es2 : List CtrlEvent) (c : Controller),
      Controller.outputs_along sched rowpolicy c (es1 ++ es2) =
        Controller.outputs_along sched rowpolicy c es1 ++
          match Controller.run_along sched rowpolicy c es1 with
          | some c1 => Controller.outputs_along sched rowpolicy c1 es2
          | none => [] := by
  intro es1
  induction es1 with
  | nil => intro es2 c; simp [Controller.outputs_along, Controller.run_along]
  | cons e es ih =>
    intro es2 c
    cases e with
    | send req =>
      simp only [List.cons_append, Controller.outputs_along, Controller.run_along]
      cases c.send req with
      | error msg => simp
      | ok r => exact ih es2 r.2.2
    | tick =>
      simp only [List.cons_append, Controller.outputs_along, Controller.run_along]
      have e := ih es2 (c.tick sched rowpolicy).ctrl
      show (_ ++ _) ++ Controller.outputs_along sched rowpolicy _ (es ++ es2) = _
      rw [e]
      simp only [List.append_assoc]
    | dram_tick =>
      simp only [List.cons_append, Controller.outputs_along, Controller.run_along]
      exact ih es2 _

theorem drained_schedule_none (sched : IScheduler) (c : Controller) (used : List (List Int))
    (h : c.drained) :
    (c.schedule_request_filtered sched used).1 = none ∧
    (c.schedule_request_filtered sched used).2.drained := by
  obtain ⟨hframe, hspec⟩ := schedule_request_filtered_spec sched c used
  have hbuf : ∀ b : BufId, ((c.schedule_request_filtered sched used).2.getBuf b).buffer = [] := by
    intro b
    have e := (hframe.2.2.2.2.2 b).1
    unfold ReqBuffer.entries at e
    rw [h.2 b] at e
    exact List.map_eq_nil_iff.mp e
  refine ⟨?_, by rw [Controller.drained, hframe.2.2.1]; exact ⟨h.1, hbuf⟩⟩
  cases hs : (c.schedule_request_filtered sched used).1 with
  | none => rfl
  | some s =>
    have := (hspec s hs).1
    rw [hbuf] at this
    simp at this

theorem drained_of_fields (c c1 : Controller) (h : c.drained) (hp : c1.pending = c.pending)
    (hb : ∀ b : BufId, c1.getBuf b = c.getBuf b) : c1.drained :=
  ⟨hp.trans h.1, fun b => by rw [hb b]; exact h.2 b⟩

theorem drained_issue_loop (sched : IScheduler) (rowpolicy : IRowPolicy) (budget : Nat)
    (c : Controller) (used : List (List Int)) (h : c.drained) :
    (Controller.issue_loop sched rowpolicy budget c used).2 = [] ∧
    (Controller.issue_loop sched rowpolicy budget c used).1.drained := by
  cases budget with
  | zero => exact ⟨rfl, h⟩
  | succ n =>
    obtain ⟨s1, s2⟩ := drained_schedule_none sched c used h
    obtain ⟨k1, k2⟩ := issue_slot_of_none sched rowpolicy c used s1
    unfold Controller.issue_loop
    rw [k2]
    dsimp only
    rw [k1]
    exact ⟨rfl, s2⟩

theorem serve_drained (c : Controller) (h : c.pending = []) :
    c.serve_completed_pending = (c, none) := by
  unfold Controller.serve_completed_pending
  rw [h]

theorem drained_tick (sched : IScheduler) (rowpolicy : IRowPolicy) (c : Controller)
    (h : c.drained) :
    (c.tick sched rowpolicy).issued = [] ∧ (c.tick sched rowpolicy).fired = none ∧
    (c.tick sched rowpolicy).ctrl.drained := by
  unfold Controller.tick
  dsimp only
  rw [serve_drained]
  · have hd := drained_issue_loop sched rowpolicy
      (max 1 c.m_bank_parallel_ports) _ []
      (drained_of_fields c
        { c with
          m_clk := c.m_clk + 1,
          s_queue_len := c.s_queue_len + (c.m_read_buffer.size + c.m_write_buffer.size +
            c.m_priority_buffer.size + c.pending.length),
          s_read_queue_len := c.s_read_queue_len + (c.m_read_buffer.size + c.pending.length),
          s_write_queue_len := c.s_write_queue_len + c.m_write_buffer.size,
          s_priority_queue_len := c.s_priority_queue_len + c.m_priority_buffer.size }
        h rfl (fun b => by cases b <;> rfl))
    exact ⟨hd.1, rfl, hd.2⟩
  · exact h.1

theorem drained_outputs (sched : IScheduler) (rowpolicy : IRowPolicy) :
    ∀ (n : Nat) (c : Controller), c.drained →
      Controller.outputs_along sched rowpolicy c (cycles n) = [] := by
  intro n
  induction n with
  | zero => intro c _; rfl
  | succ k ih =>
    intro c h
    obtain ⟨t1, t2, t3⟩ := drained_tick sched rowpolicy c h
    simp only [cycles, Controller.outputs_along, t1, t2, List.map_nil, List.append_nil,
      List.nil_append]
    exact ih _ (drained_of_fields _ _ t3 rfl (fun b => by cases b <;> rfl))

theorem cycles_device_first_add (m n : Nat) :
    cycles_device_first (m + n) = cycles_device_first m ++ cycles_device_first n := by
  induction m with
  | zero => simp [cycles_device_first]
  | succ k ih =>
    rw [Nat.succ_add]
    simp only [cycles_device_first, ih, List.cons_append]

theorem drained_outputs_device_first (sched : IScheduler) (rowpolicy : IRowPolicy) :
    ∀ (n : Nat) (c : Controller), c.drained →
      Controller.outputs_along sched rowpolicy c (cycles_device_first n) = [] := by
  intro n
  induction n with
  | zero => intro c _; rfl
  | succ k ih =>
    intro c h
    obtain ⟨t1, t2, t3⟩ := drained_tick sched rowpolicy { c with m_dram := c.m_dram.tick }
      (drained_of_fields _ _ h rfl (fun b => by cases b <;> rfl))
    simp only [cycles_device_first, Controller.outputs_along, t1, t2, List.map_nil,
      List.append_nil, List.nil_append]
    exact ih _ t3

theorem drained_after (c : Option Controller)
    (hq : c.map (fun c => decide (c.pending = [] ∧ c.m_active_buffer.buffer = [] ∧
      c.m_priority_buffer.buffer = [] ∧ c.m_read_buffer.buffer = [] ∧
      c.m_write_buffer.buffer = [])) = some true) :
    ∃ c1 : Controller, c = some c1 ∧ c1.drained := by
  cases c with
  | none => exact Option.noConfusion hq
  | some c1 =>
    have hq2 := of_decide_eq_true (Option.some.inj hq)
    exact ⟨c1, rfl, hq2.1, fun b => by
      cases b
      · exact hq2.2.1
      · exact hq2.2.2.1
      · exact hq2.2.2.2.1
      · exact hq2.2.2.2.2⟩

theorem cold_read_fcfs (n : Nat) :
    Controller.outputs_along fcfs keep_row_open idle_ctrl
        (.send read_b3_r7 :: cycles (22 + n)) =
      [.issued 0 .ACT addr_b3_r7, .issued 10 .RD addr_b3_r7, .fired 21 read_b3_r7_served] := by
  have h1 : Controller.outputs_along fcfs keep_row_open idle_ctrl
      (.send read_b3_r7 :: cycles 22) =
      [.issued 0 .ACT addr_b3_r7, .issued 10 .RD addr_b3_r7, .fired 21 read_b3_r7_served] := by
    decide!
  obtain ⟨c1, r1, r2⟩ := drained_after
    (Controller.run_along fcfs keep_row_open idle_ctrl (.send read_b3_r7 :: cycles 22))
    (by decide!)
  have e : (CtrlEvent.send read_b3_r7 :: cycles (22 + n)) =
      (CtrlEvent.send read_b3_r7 :: cycles 22) ++ cycles n := by
    rw [cycles_add]
    rfl
  rw [e, outputs_along_append, h1, r1]
  dsimp only
  rw [drained_outputs fcfs keep_row_open n c1 r2]
  rfl

theorem cold_read_fcfs_device_first (n : Nat) :
    Controller.outputs_along fcfs keep_row_open idle_ctrl
        (.send read_b3_r7 :: cycles_device_first (22 + n)) =
      [.issued 0 .ACT addr_b3_r7, .issued 10 .RD addr_b3_r7, .fired 21 read_b3_r7_served] := by
  have h1 : Controller.outputs_along fcfs keep_row_open idle_ctrl
      (.send read_b3_r7 :: cycles_device_first 22) =
      [.issued 0 .ACT addr_b3_r7, .issued 10 .RD addr_b3_r7, .fired 21 read_b3_r7_served] := by
    decide!
  obtain ⟨c1, r1, r2⟩ := drained_after
    (Controller.run_along fcfs keep_row_open idle_ctrl
      (.send read_b3_r7 :: cycles_device_first 22))
    (by decide!)
  have e : (CtrlEvent.send read_b3_r7 :: cycles_device_first (22 + n)) =
      (CtrlEvent.send read_b3_r7 :: cycles_device_first 22) ++ cycles_device_first n := by
    rw [cycles_device_first_add]
    rfl
  rw [e, outputs_along_append, h1, r1]
  dsimp only
  rw [drained_outputs_device_first fcfs keep_row_open n c1 r2]
  rfl

/-! ## With at most one request the scheduler is not consulted -/

theorem scan_short (cmp cmp1 : Request → Request → Bool) (viol : Request → Bool)
    (l : List (Nat × Request)) (h : l.length ≤ 1) :
    scan_candidates cmp viol l none = scan_candidates cmp1 viol l none := by
  match l, h with
  | [], _ => rfl
  | [p], _ =>
    obtain ⟨it, req⟩ := p
    simp only [scan_candidates]
  | p :: q :: rest, h => simp at h

theorem get_best_short (sched sched1 : IScheduler) (c : Controller) (b : ReqBuffer)
    (used : List (List Int)) (h : b.size ≤ 1) :
    c.get_best_request_filtered sched b used = c.get_best_request_filtered sched1 b used := by
  unfold Controller.get_best_request_filtered
  split_ifs
  · rfl
  · rw [scan_short (sched.compare c.m_dram) (sched1.compare c.m_dram)]
    simp only [Controller.refresh_commands, List.enum_length, List.length_map]
    exact h

theorem select_active_short (sched sched1 : IScheduler) (c : Controller)
    (used : List (List Int)) (h : c.m_active_buffer.size ≤ 1) :
    c.select_active sched used = c.select_active sched1 used := by
  unfold Controller.select_active
  dsimp only
  rw [get_best_short sched sched1 c _ used h]

theorem set_write_mode_getBuf (c : Controller) (b : BufId) :
    c.set_write_mode.getBuf b = c.getBuf b := by
  unfold Controller.set_write_mode
  split_ifs <;> cases b <;> rfl

theorem select_read_write_short (sched sched1 : IScheduler) (c : Controller)
    (used : List (List Int)) (hr : c.m_read_buffer.size ≤ 1) (hw : c.m_write_buffer.size ≤ 1) :
    c.select_read_write sched used = c.select_read_write sched1 used := by
  unfold Controller.select_read_write
  dsimp only
  have hb : (c.set_write_mode.getBuf
      (if c.set_write_mode.m_is_write_mode = true then BufId.write else BufId.read)).size ≤ 1 := by
    rw [set_write_mode_getBuf]
    split_ifs
    · exact hw
    · exact hr
  rw [get_best_short sched sched1 _ _ used hb]

theorem schedule_short (sched sched1 : IScheduler) (c : Controller) (used : List (List Int))
    (h : c.held ≤ 1) :
    c.schedule_request_filtered sched used = c.schedule_request_filtered sched1 used := by
  have h4 : (c.getBuf .active).size ≤ 1 ∧ (c.getBuf .read).size ≤ 1 ∧
      (c.getBuf .write).size ≤ 1 := by
    unfold Controller.held at h
    omega
  have ha := select_active_short sched sched1 c used h4.1
  have hsnd := select_active_snd sched c used
  cases hsa : (c.select_active sched used).1 with
  | some s =>
    rw [schedule_of_active sched c _ used s (Prod.ext hsa rfl),
      schedule_of_active sched1 c (c.select_active sched used).2 used s
        (by rw [← ha]; exact Prod.ext hsa rfl)]
  | none =>
    cases hb : (c.select_active sched used).2.m_priority_buffer.buffer with
    | nil =>
      rw [schedule_of_read_write sched c _ used (Prod.ext hsa rfl) hb,
        schedule_of_read_write sched1 c (c.select_active sched used).2 used
          (by rw [← ha]; exact Prod.ext hsa rfl) hb]
      have hr := congrArg (fun x : Controller => x.m_read_buffer.size) hsnd
      have hw := congrArg (fun x : Controller => x.m_write_buffer.size) hsnd
      rw [select_read_write_short sched sched1 _ used (le_trans (le_of_eq hr) h4.2.1)
        (le_trans (le_of_eq hw) h4.2.2)]
    | cons head rest =>
      rw [schedule_of_priority sched c _ used head _ rest (Prod.ext hsa rfl) hb rfl,
        schedule_of_priority sched1 c (c.select_active sched used).2 used head _ rest
          (by rw [← ha]; exact Prod.ext hsa rfl) hb rfl]

theorem issue_slot_short (sched sched1 : IScheduler) (rowpolicy : IRowPolicy) (c : Controller)
    (used : List (List Int)) (h : c.held ≤ 1) :
    c.issue_slot sched rowpolicy used = c.issue_slot sched1 rowpolicy used := by
  unfold Controller.issue_slot
  dsimp only
  rw [schedule_short sched sched1 c used h]

theorem held_frame {c c1 : Controller} (h : c.selection_frame c1) : c1.held = c.held := by
  unfold Controller.held
  rw [frame_size h .active, frame_size h .priority, frame_size h .read, frame_size h .write]

theorem issue_selected_held (c : Controller) (used : List (List Int)) (b : BufId) (it : Nat)
    (req : Request) (hit : it < (c.getBuf b).buffer.length) :
    (c.issue_selected used b it req).1.held ≤ c.held := by
  by_cases hfin : req.command = req.final_command
  · obtain ⟨e1, e2⟩ := issue_selected_final_bufs c used b it req hfin
    have hle : ∀ b1 : BufId,
        ((c.issue_selected used b it req).1.getBuf b1).size ≤ (c.getBuf b1).size := by
      intro b1
      by_cases hb : b1 = b
      · subst hb
        rw [e1]
        exact List.length_eraseIdx_le _ _
      · rw [e2 b1 hb]
    unfold Controller.held
    have := hle .active
    have := hle .priority
    have := hle .read
    have := hle .write
    omega
  · obtain ⟨_, hopen, hother⟩ := issue_selected_not_final c used b it req hfin hit
    unfold Controller.held
    simp only [ReqBuffer.size]
    by_cases hop : (m_command_meta req.command).is_opening = true ∧
        c.m_active_buffer.size < c.m_active_buffer.max_size
    · have hb := hopen hop
      have he := List.length_eraseIdx_of_lt hit
      rw [hb .active, hb .priority, hb .read, hb .write]
      cases b <;> simp only [Controller.getBuf] at hit he ⊢ <;> simp <;> omega
    · have hb := hother hop
      rw [hb .active, hb .priority, hb .read, hb .write]
      cases b <;> simp [Controller.getBuf]

theorem issue_slot_held (sched : IScheduler) (rowpolicy : IRowPolicy) (c : Controller)
    (used : List (List Int)) : (c.issue_slot sched rowpolicy used).ctrl.held ≤ c.held := by
  obtain ⟨hframe, hspec⟩ := schedule_request_filtered_spec sched c used
  cases hsel : (c.schedule_request_filtered sched used).1 with
  | none =>
    rw [(issue_slot_of_none sched rowpolicy c used hsel).1, held_frame hframe]
  | some s =>
    rw [(issue_slot_of_some sched rowpolicy c used s hsel).1]
    have hget := (hspec s hsel).1
    have hit : s.req_it <
        ((c.schedule_request_filtered sched used).2.getBuf s.req_buffer).buffer.length := by
      by_contra hcon
      rw [List.getElem?_eq_none (Nat.le_of_not_lt hcon)] at hget
      exact Option.noConfusion hget
    have := issue_selected_held (c.schedule_request_filtered sched used).2 used s.req_buffer
      s.req_it (rowpolicy.update (c.schedule_request_filtered sched used).2.m_dram s.req) hit
    rw [held_frame hframe] at this
    exact this

theorem issue_loop_short (sched sched1 : IScheduler) (rowpolicy : IRowPolicy) :
    ∀ (budget : Nat) (c : Controller) (used : List (List Int)), c.held ≤ 1 →
      Controller.issue_loop sched rowpolicy budget c used =
        Controller.issue_loop sched1 rowpolicy budget c used ∧
      (Controller.issue_loop sched rowpolicy budget c used).1.held ≤ c.held := by
  intro budget
  induction budget with
  | zero => intro c used _; exact ⟨rfl, le_refl _⟩
  | succ n ih =>
    intro c used h
    have e := issue_slot_short sched sched1 rowpolicy c used h
    have hh := issue_slot_held sched rowpolicy c used
    unfold Controller.issue_loop
    rw [← e]
    cases (c.issue_slot sched rowpolicy used).issued with
    | none => exact ⟨rfl, hh⟩
    | some cmd =>
      dsimp only
      obtain ⟨i1, i2⟩ := ih (c.issue_slot sched rowpolicy used).ctrl
        (c.issue_slot sched rowpolicy used).used_access_banks (le_trans hh h)
      rw [← i1]
      exact ⟨rfl, le_trans i2 hh⟩

theorem held_same {c c1 : Controller} (h : c.same_issue_state c1) : c1.held = c.held := by
  unfold Controller.held
  rw [same_issue_state_getBuf h .active, same_issue_state_getBuf h .priority,
    same_issue_state_getBuf h .read, same_issue_state_getBuf h .write]

theorem tick_short (sched sched1 : IScheduler) (rowpolicy : IRowPolicy) (c : Controller)
    (h : c.held ≤ 1) :
    c.tick sched rowpolicy = c.tick sched1 rowpolicy ∧
    (c.tick sched rowpolicy).ctrl.held ≤ c.held := by
  unfold Controller.tick
  dsimp only
  have hs := serve_completed_pending_same
    { c with
      m_clk := c.m_clk + 1,
      s_queue_len := c.s_queue_len + (c.m_read_buffer.size + c.m_write_buffer.size +
        c.m_priority_buffer.size + c.pending.length),
      s_read_queue_len := c.s_read_queue_len + (c.m_read_buffer.size + c.pending.length),
      s_write_queue_len := c.s_write_queue_len + c.m_write_buffer.size,
      s_priority_queue_len := c.s_priority_queue_len + c.m_priority_buffer.size }
  have hh := held_same hs
  have hh2 : (Controller.serve_completed_pending
    { c with
      m_clk := c.m_clk + 1,
      s_queue_len := c.s_queue_len + (c.m_read_buffer.size + c.m_write_buffer.size +
        c.m_priority_buffer.size + c.pending.length),
      s_read_queue_len := c.s_read_queue_len + (c.m_read_buffer.size + c.pending.length),
      s_write_queue_len := c.s_write_queue_len + c.m_write_buffer.size,
      s_priority_queue_len := c.s_priority_queue_len + c.m_priority_buffer.size }).1.held =
      c.held := hh
  obtain ⟨i1, i2⟩ := issue_loop_short sched sched1 rowpolicy
    (max 1 (Controller.serve_completed_pending
      { c with
        m_clk := c.m_clk + 1,
        s_queue_len := c.s_queue_len + (c.m_read_buffer.size + c.m_write_buffer.size +
          c.m_priority_buffer.size + c.pending.length),
        s_read_queue_len := c.s_read_queue_len + (c.m_read_buffer.size + c.pending.length),
        s_write_queue_len := c.s_write_queue_len + c.m_write_buffer.size,
        s_priority_queue_len :=
          c.s_priority_queue_len + c.m_priority_buffer.size }).1.m_bank_parallel_ports)
    _ [] (le_of_eq_of_le hh2 h)
  rw [← i1]
  exact ⟨rfl, le_of_le_of_eq i2 hh2⟩

theorem send_held (c : Controller) (req : Request) (r : Bool × Request × Controller)
    (h : c.send req = .ok r) : r.2.2.held ≤ c.held + 1 := by
  obtain ⟨_, _, _, k4⟩ := count_request_fields c req.type_id
  unfold Controller.send at h
  cases ht : m_request_translations req.type_id with
  | none => rw [ht] at h; exact Except.noConfusion h
  | some fc =>
    rw [ht] at h
    dsimp only at h
    generalize c.count_request req.type_id = cc at h k4
    have ka := k4 .active
    have kp := k4 .priority
    have kr := k4 .read
    have kw := k4 .write
    unfold Controller.held
    rw [← ka, ← kp, ← kr, ← kw]
    simp only [Controller.getBuf] at ka kp kr kw ⊢
    split_ifs at h <;>
      first
      | exact Except.noConfusion h
      | (have e := Except.ok.inj h
         rw [← e]
         simp only [ReqBuffer.enqueue, ReqBuffer.size]
         first
         | omega
         | (split_ifs <;> (simp; first | done | omega)))

theorem outputs_short (sched sched1 : IScheduler) (rowpolicy : IRowPolicy) :
    ∀ (trace : List CtrlEvent) (c : Controller), c.held + sends trace ≤ 1 →
      Controller.outputs_along sched rowpolicy c trace =
        Controller.outputs_along sched1 rowpolicy c trace := by
  intro trace
  induction trace with
  | nil => intro c _; rfl
  | cons e es ih =>
    intro c h
    cases e with
    | send req =>
      simp only [Controller.outputs_along]
      simp only [sends] at h
      cases hs : c.send req with
      | error msg => rfl
      | ok r =>
        dsimp only
        have := send_held c req r hs
        exact ih r.2.2 (by omega)
    | tick =>
      simp only [sends] at h
      obtain ⟨t1, t2⟩ := tick_short sched sched1 rowpolicy c (by omega)
      simp only [Controller.outputs_along]
      rw [← t1, ih (c.tick sched rowpolicy).ctrl (by omega)]
    | dram_tick =>
      simp only [sends] at h
      simp only [Controller.outputs_along]
      exact ih _ h

theorem sends_cycles (n : Nat) : sends (cycles n) = 0 := by
  induction n with
  | zero => rfl
  | succ k ih => simpa [cycles, sends] using ih

theorem sends_cycles_device_first (n : Nat) : sends (cycles_device_first n) = 0 := by
  induction n with
  | zero => rfl
  | succ k ih => simpa [cycles_device_first, sends] using ih

/-- C27: on the idle controller (default timings, every bank Closed) a Read of
`(0,0,0,3,7,0)` sent at clock 0 gives, with any scheduler and over any number of cycles
from 22 on, exactly the outputs: ACT in cycle 0, RD in cycle 10 (`nRCD` after the ACT)
and the callback in cycle 21, which is the cycle of the RD plus `nCL + nBL = 11`. No
other command is issued. This holds whether in each cycle the controller ticks before
the device or after it; the row policy leaves the request as it is. -/
theorem cold_read_sequence (sched : IScheduler) (n : Nat) :
    (idle_ctrl.m_dram.nodes (nodeKey .bank addr_b3_r7)).state = .Closed ∧
    idle_ctrl.m_clk = 0 ∧
    Controller.outputs_along sched keep_row_open idle_ctrl
        (.send read_b3_r7 :: cycles (22 + n)) =
      [.issued 0 .ACT addr_b3_r7, .issued 10 .RD addr_b3_r7, .fired 21 read_b3_r7_served] ∧
    Controller.outputs_along sched keep_row_open idle_ctrl
        (.send read_b3_r7 :: cycles_device_first (22 + n)) =
      [.issued 0 .ACT addr_b3_r7, .issued 10 .RD addr_b3_r7, .fired 21 read_b3_r7_served] ∧
    (0 : Int) + Mono3D_Default.nRCD ≤ 10 ∧
    (21 : Int) = 10 + (Mono3D_Default.nCL + Mono3D_Default.nBL) := by
  refine ⟨by decide, rfl, ?_, ?_, by decide, by decide⟩
  · rw [outputs_short sched fcfs keep_row_open _ idle_ctrl
      (by simp only [sends, sends_cycles]; decide), cold_read_fcfs n]
  · rw [outputs_short sched fcfs keep_row_open _ idle_ctrl
      (by simp only [sends, sends_cycles_device_first]; decide),
      cold_read_fcfs_device_first n]

/-- Witness for C28: in `ctrl_active_conflict` the active-buffer step accepts the read of
row 8 with the command PRE, and the slot, and the whole tick, issue nothing. -/
theorem active_closing_never_accepted_witness :
    (ctrl_active_conflict.select_active fcfs []).1 = some ⟨.active, 0, read_b3_r8_pre⟩ ∧
    (ctrl_active_conflict.issue_slot fcfs keep_row_open []).issued = none ∧
    (ctrl_active_conflict.tick fcfs keep_row_open).issued = [] :=
  ⟨by decide,
    ((active_closing_never_accepted fcfs keep_row_open ctrl_active_conflict []).2
      ⟨.active, 0, read_b3_r8_pre⟩ (by decide) (by decide)).2.1,
    by decide⟩

/-! ## Row classification over the lifetime of a request -/

theorem countP_set_of_getElem? {α : Type} (p : α → Bool) :
    ∀ (l : List α) (i : Nat) (e x : α), l[i]? = some e →
      (l.set i x).countP p + (if p e then 1 else 0) = l.countP p + (if p x then 1 else 0) := by
  intro l
  induction l with
  | nil => intro i e x h; simp at h
  | cons a rest ih =>
    intro i e x h
    cases i with
    | zero =>
      simp only [List.getElem?_cons_zero, Option.some.injEq] at h
      subst h
      simp only [List.set_cons_zero, List.countP_cons]
      omega
    | succ n =>
      simp only [List.getElem?_cons_succ] at h
      have := ih n e x h
      simp only [List.set_cons_succ, List.countP_cons]
      omega

theorem countP_eraseIdx_of_getElem? {α : Type} (p : α → Bool) :
    ∀ (l : List α) (i : Nat) (e : α), l[i]? = some e →
      (l.eraseIdx i).countP p + (if p e then 1 else 0) = l.countP p := by
  intro l
  induction l with
  | nil => intro i e h; simp at h
  | cons a rest ih =>
    intro i e h
    cases i with
    | zero =>
      simp only [List.getElem?_cons_zero, Option.some.injEq] at h
      subst h
      simp only [List.eraseIdx_cons_zero, List.countP_cons]
    | succ n =>
      simp only [List.getElem?_cons_succ] at h
      have := ih n e h
      simp only [List.eraseIdx_cons_succ, List.countP_cons]
      omega

theorem unlatched_entries (b : ReqBuffer) :
    b.unlatched = b.entries.countP (fun r => !r.is_stat_updated) := by
  unfold ReqBuffer.unlatched ReqBuffer.entries
  rw [List.countP_map]
  rfl

theorem unlatched_frame {c c1 : Controller} (h : c.selection_frame c1) :
    c1.unlatched = c.unlatched := by
  unfold Controller.unlatched
  simp only [unlatched_entries]
  rw [(h.2.2.2.2.2 .active).1, (h.2.2.2.2.2 .priority).1, (h.2.2.2.2.2 .read).1,
    (h.2.2.2.2.2 .write).1]

theorem issue_selected_unlatched (c : Controller) (used : List (List Int)) (b : BufId)
    (it : Nat) (req e : Request) (he : (c.getBuf b).buffer[it]? = some e) :
    (c.issue_selected used b it req).1.unlatched +
      (if e.is_stat_updated = false then 1 else 0) = c.unlatched := by
  have hit : it < (c.getBuf b).buffer.length := by
    by_contra hcon
    rw [List.getElem?_eq_none (Nat.le_of_not_lt hcon)] at he
    exact Option.noConfusion he
  have hp : (if (!e.is_stat_updated) = true then 1 else 0) =
      (if e.is_stat_updated = false then 1 else 0) := by
    cases e.is_stat_updated <;> rfl
  have herase := countP_eraseIdx_of_getElem? (fun r : Request => !r.is_stat_updated)
    (c.getBuf b).buffer it e he
  have hset := countP_set_of_getElem? (fun r : Request => !r.is_stat_updated)
    (c.getBuf b).buffer it e { req with is_stat_updated := true } he
  simp only [hp, Bool.not_true, Bool.false_eq_true, if_false, Nat.add_zero] at herase hset
  by_cases hfin : req.command = req.final_command
  · obtain ⟨e1, e2⟩ := issue_selected_final_bufs c used b it req hfin
    have hsame : ((c.issue_selected used b it req).1.getBuf b).unlatched +
        (if e.is_stat_updated = false then 1 else 0) = (c.getBuf b).unlatched := by
      rw [e1]
      exact herase
    have hoth : ∀ b1 : BufId, b1 ≠ b →
        ((c.issue_selected used b it req).1.getBuf b1).unlatched = (c.getBuf b1).unlatched := by
      intro b1 hb1
      rw [e2 b1 hb1]
    unfold Controller.unlatched
    cases b
    · rw [hoth .priority (by decide), hoth .read (by decide), hoth .write (by decide)]
      omega
    · rw [hoth .active (by decide), hoth .read (by decide), hoth .write (by decide)]
      omega
    · rw [hoth .active (by decide), hoth .priority (by decide), hoth .write (by decide)]
      omega
    · rw [hoth .active (by decide), hoth .priority (by decide), hoth .read (by decide)]
      omega
  · obtain ⟨_, hopen, hother⟩ := issue_selected_not_final c used b it req hfin hit
    unfold Controller.unlatched ReqBuffer.unlatched
    by_cases hop : (m_command_meta req.command).is_opening = true ∧
        c.m_active_buffer.size < c.m_active_buffer.max_size
    · have hb := hopen hop
      rw [hb .active, hb .priority, hb .read, hb .write]
      cases b <;> simp [List.countP_append] at herase ⊢ <;> omega
    · have hb := hother hop
      rw [hb .active, hb .priority, hb .read, hb .write]
      cases b <;> simp at hset ⊢ <;> omega

theorem update_request_stats_classified (c : Controller) (req : Request) :
    (c.update_request_stats req).2.classified ≤ c.classified + 1 := by
  unfold Controller.update_request_stats Controller.classified
  dsimp only
  split_ifs <;> simp <;> omega

theorem issue_selected_classified (c : Controller) (used : List (List Int)) (b : BufId)
    (it : Nat) (req : Request) :
    (c.issue_selected used b it req).1.classified ≤
      c.classified + (if req.is_stat_updated = false then 1 else 0) := by
  obtain ⟨q1, q2, q3⟩ := issue_selected_row_counters c used b it req
  by_cases hl : req.is_stat_updated = false
  · rw [if_pos hl] at q1 q2 q3
    rw [if_pos hl]
    have := update_request_stats_classified c req
    unfold Controller.classified at this ⊢
    rw [q1, q2, q3]
    exact this
  · rw [if_neg hl] at q1 q2 q3
    rw [if_neg hl]
    unfold Controller.classified
    rw [q1, q2, q3]
    exact le_refl _

theorem schedule_classified (sched : IScheduler) (c : Controller) (used : List (List Int)) :
    (c.schedule_request_filtered sched used).2.classified = c.classified := by
  obtain ⟨k1, k2, k3⟩ := schedule_row_counters sched c used
  unfold Controller.classified
  rw [k1, k2, k3]

theorem issue_slot_potential (sched : IScheduler) (rowpolicy : IRowPolicy)
    (hpol : ∀ (d : Mono3D) (r : Request), r.is_stat_updated = true →
      (rowpolicy.update d r).is_stat_updated = true)
    (c : Controller) (used : List (List Int)) :
    (c.issue_slot sched rowpolicy used).ctrl.classified +
        (c.issue_slot sched rowpolicy used).ctrl.unlatched ≤
      c.classified + c.unlatched := by
  obtain ⟨hframe, hspec⟩ := schedule_request_filtered_spec sched c used
  have hcl := schedule_classified sched c used
  have hun := unlatched_frame hframe
  cases hsel : (c.schedule_request_filtered sched used).1 with
  | none =>
    rw [(issue_slot_of_none sched rowpolicy c used hsel).1, hcl, hun]
  | some s =>
    rw [(issue_slot_of_some sched rowpolicy c used s hsel).1]
    have hget := (hspec s hsel).1
    have h1 := issue_selected_unlatched (c.schedule_request_filtered sched used).2 used
      s.req_buffer s.req_it
      (rowpolicy.update (c.schedule_request_filtered sched used).2.m_dram s.req) s.req hget
    have h2 := issue_selected_classified (c.schedule_request_filtered sched used).2 used
      s.req_buffer s.req_it
      (rowpolicy.update (c.schedule_request_filtered sched used).2.m_dram s.req)
    rw [hcl] at h2
    rw [hun] at h1
    have h3 : (if (rowpolicy.update (c.schedule_request_filtered sched used).2.m_dram
          s.req).is_stat_updated = false then 1 else 0) ≤
        (if s.req.is_stat_updated = false then 1 else 0) := by
      by_cases hl : s.req.is_stat_updated = false
      · simp only [hl, if_true]
        split_ifs <;> omega
      · have ht : s.req.is_stat_updated = true := by simpa using hl
        have := hpol (c.schedule_request_filtered sched used).2.m_dram s.req ht
        simp [this]
    omega

theorem issue_loop_potential (sched : IScheduler) (rowpolicy : IRowPolicy)
    (hpol : ∀ (d : Mono3D) (r : Request), r.is_stat_updated = true →
      (rowpolicy.update d r).is_stat_updated = true) :
    ∀ (budget : Nat) (c : Controller) (used : List (List Int)),
      (Controller.issue_loop sched rowpolicy budget c used).1.classified +
          (Controller.issue_loop sched rowpolicy budget c used).1.unlatched ≤
        c.classified + c.unlatched := by
  intro budget
  induction budget with
  | zero => intro c used; exact le_refl _
  | succ n ih =>
    intro c used
    have hs := issue_slot_potential sched rowpolicy hpol c used
    unfold Controller.issue_loop
    cases hi : (c.issue_slot sched rowpolicy used).issued with
    | none => exact hs
    | some cmd =>
      dsimp only
      exact le_trans (ih _ _) hs

theorem serve_completed_pending_potential (c : Controller) :
    c.serve_completed_pending.1.classified = c.classified ∧
    c.serve_completed_pending.1.unlatched = c.unlatched := by
  unfold Controller.serve_completed_pending
  split
  · exact ⟨rfl, rfl⟩
  · dsimp only
    split_ifs <;> exact ⟨rfl, rfl⟩

theorem tick_potential (sched : IScheduler) (rowpolicy : IRowPolicy)
    (hpol : ∀ (d : Mono3D) (r : Request), r.is_stat_updated = true →
      (rowpolicy.update d r).is_stat_updated = true) (c : Controller) :
    (c.tick sched rowpolicy).ctrl.classified + (c.tick sched rowpolicy).ctrl.unlatched ≤
      c.classified + c.unlatched := by
  unfold Controller.tick
  dsimp only
  refine le_trans (issue_loop_potential sched rowpolicy hpol _ _ _) ?_
  obtain ⟨h1, h2⟩ := serve_completed_pending_potential
    { c with
      m_clk := c.m_clk + 1,
      s_queue_len := c.s_queue_len + (c.m_read_buffer.size + c.m_write_buffer.size +
        c.m_priority_buffer.size + c.pending.length),
      s_read_queue_len := c.s_read_queue_len + (c.m_read_buffer.size + c.pending.length),
      s_write_queue_len := c.s_write_queue_len + c.m_write_buffer.size,
      s_priority_queue_len := c.s_priority_queue_len + c.m_priority_buffer.size }
  rw [h1, h2]
  exact le_refl _

theorem count_request_classified (c : Controller) (type_id : Int) :
    (c.count_request type_id).classified = c.classified := by
  unfold Controller.count_request Controller.classified
  split_ifs <;> rfl

theorem send_potential (c : Controller) (req : Request) (r : Bool × Request × Controller)
    (h : c.send req = .ok r) :
    r.2.2.classified = c.classified ∧ r.2.2.unlatched ≤ c.unlatched + 1 := by
  obtain ⟨_, _, _, k4⟩ := count_request_fields c req.type_id
  have kc := count_request_classified c req.type_id
  unfold Controller.send at h
  cases ht : m_request_translations req.type_id with
  | none => rw [ht] at h; exact Except.noConfusion h
  | some fc =>
    rw [ht] at h
    dsimp only at h
    generalize c.count_request req.type_id = cc at h k4 kc
    have ka := k4 .active
    have kp := k4 .priority
    have kr := k4 .read
    have kw := k4 .write
    unfold Controller.unlatched
    rw [← ka, ← kp, ← kr, ← kw, ← kc]
    simp only [Controller.getBuf] at ka kp kr kw ⊢
    split_ifs at h <;>
      first
      | exact Except.noConfusion h
      | (have e := Except.ok.inj h
         rw [← e]
         simp only [ReqBuffer.enqueue, ReqBuffer.size, ReqBuffer.unlatched, Controller.classified]
         refine ⟨trivial, ?_⟩
         first
         | omega
         | (split_ifs <;>
              simp only [List.countP_append, List.countP_cons, List.countP_nil] <;>
              (try split_ifs) <;> omega))

theorem run_along_potential (sched : IScheduler) (rowpolicy : IRowPolicy)
    (hpol : ∀ (d : Mono3D) (r : Request), r.is_stat_updated = true →
      (rowpolicy.update d r).is_stat_updated = true) :
    ∀ (trace : List CtrlEvent) (c c1 : Controller),
      Controller.run_along sched rowpolicy c trace = some c1 →
      c1.classified + c1.unlatched ≤ c.classified + c.unlatched + sends trace := by
  intro trace
  induction trace with
  | nil =>
    intro c c1 h
    simp only [Controller.run_along, Option.some.injEq] at h
    subst h
    simp [sends]
  | cons ev es ih =>
    intro c c1 h
    cases ev with
    | send req =>
      simp only [Controller.run_along] at h
      cases hs : c.send req with
      | error msg => rw [hs] at h; exact Option.noConfusion h
      | ok r =>
        rw [hs] at h
        have h1 := ih _ _ h
        obtain ⟨h2, h3⟩ := send_potential c req r hs
        simp only [sends]
        omega
    | tick =>
      simp only [Controller.run_along] at h
      have h1 := ih _ _ h
      have h2 := tick_potential sched rowpolicy hpol c
      simp only [sends]
      omega
    | dram_tick =>
      simp only [Controller.run_along] at h
      have h1 := ih _ _ h
      simp only [sends]
      exact h1

theorem issue_slot_latch (sched : IScheduler) (rowpolicy : IRowPolicy)
    (c : Controller) (used : List (List Int)) (s : Selected)
    (hsel : (c.schedule_request_filtered sched used).1 = some s)
    (hty : (rowpolicy.update c.m_dram s.req).type_id = Request.Type.Read ∨
      (rowpolicy.update c.m_dram s.req).type_id = Request.Type.Write) :
    (∀ b : BufId, ((c.issue_slot sched rowpolicy used).ctrl.getBuf b).entries =
        if b = s.req_buffer then
          (c.getBuf b).entries.set s.req_it
            ({ (rowpolicy.update c.m_dram s.req) with
              is_stat_updated := true } : Request).forget_command
        else (c.getBuf b).entries) ∨
    (∀ b : BufId, ((c.issue_slot sched rowpolicy used).ctrl.getBuf b).entries =
        (if b = s.req_buffer then (c.getBuf b).entries.eraseIdx s.req_it
          else (c.getBuf b).entries) ++
        (if b = .active then
          [({ (rowpolicy.update c.m_dram s.req) with
              is_stat_updated := true } : Request).forget_command]
          else [])) ∨
    ((∀ b : BufId, ((c.issue_slot sched rowpolicy used).ctrl.getBuf b).entries =
        if b = s.req_buffer then (c.getBuf b).entries.eraseIdx s.req_it
        else (c.getBuf b).entries) ∧
      ∃ depart : Int, (c.issue_slot sched rowpolicy used).ctrl.pending =
        c.pending ++ [{ (rowpolicy.update c.m_dram s.req) with
          is_stat_updated := true, depart := depart }]) := by
  obtain ⟨hfr, hs⟩ := schedule_request_filtered_spec sched c used
  have hget := (hs s hsel).1
  rw [(issue_slot_of_some sched rowpolicy c used s hsel).1]
  generalize (c.schedule_request_filtered sched used).2 = c1 at hfr hget
  have hsz := frame_size hfr
  obtain ⟨f1, f2, f3, f4, f5, f6⟩ := hfr
  rw [f2]
  have hit : s.req_it < (c1.getBuf s.req_buffer).buffer.length := by
    by_contra hcon
    rw [List.getElem?_eq_none (Nat.le_of_not_lt hcon)] at hget
    exact Option.noConfusion hget
  by_cases hfin : (rowpolicy.update c.m_dram s.req).command =
      (rowpolicy.update c.m_dram s.req).final_command
  · right; right
    obtain ⟨p1, p2, p3⟩ := issue_selected_final c1 used s.req_buffer s.req_it
      (rowpolicy.update c.m_dram s.req) hfin hty
    refine ⟨fun b => ?_, _, by rw [p1, f3]⟩
    by_cases hb : b = s.req_buffer
    · subst hb
      rw [if_pos rfl, p2, ← (f6 s.req_buffer).1]
      simp only [ReqBuffer.entries, ReqBuffer.remove]
      exact map_eraseIdx_eq _ _ _
    · rw [if_neg hb, p3 b hb, (f6 b).1]
  · obtain ⟨p1, p2, p3⟩ := issue_selected_not_final c1 used s.req_buffer s.req_it
      (rowpolicy.update c.m_dram s.req) hfin hit
    by_cases hop : (m_command_meta (rowpolicy.update c.m_dram s.req).command).is_opening = true ∧
        c1.m_active_buffer.size < c1.m_active_buffer.max_size
    · right; left
      intro b
      rw [ReqBuffer.entries, p2 hop b, List.map_append, ← (f6 b).1]
      congr 1
      · split_ifs
        · exact map_eraseIdx_eq _ _ _
        · rfl
      · split_ifs <;> rfl
    · left
      intro b
      rw [ReqBuffer.entries, p3 hop b, ← (f6 b).1]
      split_ifs
      · simp only [ReqBuffer.entries, List.map_set]
      · rfl

theorem issue_slot_unlatched (sched : IScheduler) (rowpolicy : IRowPolicy)
    (c : Controller) (used : List (List Int)) (s : Selected)
    (hsel : (c.schedule_request_filtered sched used).1 = some s) :
    (c.issue_slot sched rowpolicy used).ctrl.unlatched +
      (if s.req.is_stat_updated = false then 1 else 0) = c.unlatched := by
  obtain ⟨hframe, hspec⟩ := schedule_request_filtered_spec sched c used
  have hun := unlatched_frame hframe
  rw [(issue_slot_of_some sched rowpolicy c used s hsel).1]
  have hget := (hspec s hsel).1
  have h1 := issue_selected_unlatched (c.schedule_request_filtered sched used).2 used
    s.req_buffer s.req_it
    (rowpolicy.update (c.schedule_request_filtered sched used).2.m_dram s.req) s.req hget
  rw [hun] at h1
  exact h1

/-- C14: for a Read or Write accepted in a slot whose statistics latch is false, exactly
one of `s_row_hits`, `s_row_conflicts`, `s_row_misses` grows by one: hits when
`check_rowbuffer_hit` holds on the device before the command is issued, conflicts when
it does not but `check_node_open` holds, misses otherwise. With the latch already true
none of the three changes. The latch is set: after the slot the accepted request is
either still at its place in its buffer, or at the back of the active buffer, or at the
back of `pending`, in each case with its latch true, and the number of buffered
requests with a false latch has dropped by one if its latch was false. Every other
buffered request is one that was there before, and every request new in `pending` has
its latch set: the latch travels with the request. Over a lifetime: with a row policy
that never clears a latch, along every trace of sends and ticks the classifications
credited plus the buffered requests still unlatched never exceed their initial number
plus the number of sends, so no request is classified twice. -/
theorem issue_slot_row_classification (sched : IScheduler) (rowpolicy : IRowPolicy)
    (c : Controller) (used : List (List Int)) (s : Selected)
    (hsel : (c.schedule_request_filtered sched used).1 = some s)
    (hty : (rowpolicy.update c.m_dram s.req).type_id = Request.Type.Read ∨
      (rowpolicy.update c.m_dram s.req).type_id = Request.Type.Write) :
    ((rowpolicy.update c.m_dram s.req).is_stat_updated = false →
      (c.m_dram.check_rowbuffer_hit (rowpolicy.update c.m_dram s.req).final_command
          (rowpolicy.update c.m_dram s.req).addr_vec = true →
        (c.issue_slot sched rowpolicy used).ctrl.s_row_hits = c.s_row_hits + 1 ∧
        (c.issue_slot sched rowpolicy used).ctrl.s_row_conflicts = c.s_row_conflicts ∧
        (c.issue_slot sched rowpolicy used).ctrl.s_row_misses = c.s_row_misses) ∧
      (c.m_dram.check_rowbuffer_hit (rowpolicy.update c.m_dram s.req).final_command
          (rowpolicy.update c.m_dram s.req).addr_vec = false →
        c.m_dram.check_node_open (rowpolicy.update c.m_dram s.req).final_command
          (rowpolicy.update c.m_dram s.req).addr_vec = true →
        (c.issue_slot sched rowpolicy used).ctrl.s_row_hits = c.s_row_hits ∧
        (c.issue_slot sched rowpolicy used).ctrl.s_row_conflicts = c.s_row_conflicts + 1 ∧
        (c.issue_slot sched rowpolicy used).ctrl.s_row_misses = c.s_row_misses) ∧
      (c.m_dram.check_rowbuffer_hit (rowpolicy.update c.m_dram s.req).final_command
          (rowpolicy.update c.m_dram s.req).addr_vec = false →
        c.m_dram.check_node_open (rowpolicy.update c.m_dram s.req).final_command
          (rowpolicy.update c.m_dram s.req).addr_vec = false →
        (c.issue_slot sched rowpolicy used).ctrl.s_row_hits = c.s_row_hits ∧
        (c.issue_slot sched rowpolicy used).ctrl.s_row_conflicts = c.s_row_conflicts ∧
        (c.issue_slot sched rowpolicy used).ctrl.s_row_misses = c.s_row_misses + 1)) ∧
    ((rowpolicy.update c.m_dram s.req).is_stat_updated = true →
      (c.issue_slot sched rowpolicy used).ctrl.s_row_hits = c.s_row_hits ∧
      (c.issue_slot sched rowpolicy used).ctrl.s_row_conflicts = c.s_row_conflicts ∧
      (c.issue_slot sched rowpolicy used).ctrl.s_row_misses = c.s_row_misses) ∧
    (∀ (b : BufId) (r : Request),
      r ∈ ((c.issue_slot sched rowpolicy used).ctrl.getBuf b).entries →
        r ∈ (c.getBuf b).entries ∨
        r = ({ (rowpolicy.update c.m_dram s.req) with
          is_stat_updated := true } : Request).forget_command) ∧
    (∀ r ∈ (c.issue_slot sched rowpolicy used).ctrl.pending,
      r ∈ c.pending ∨ r.is_stat_updated = true) ∧
    ((c.getBuf s.req_buffer).entries[s.req_it]? = some s.req.forget_command ∧
      ((∀ b : BufId, ((c.issue_slot sched rowpolicy used).ctrl.getBuf b).entries =
          if b = s.req_buffer then
            (c.getBuf b).entries.set s.req_it
              ({ (rowpolicy.update c.m_dram s.req) with
                is_stat_updated := true } : Request).forget_command
          else (c.getBuf b).entries) ∨
        (∀ b : BufId, ((c.issue_slot sched rowpolicy used).ctrl.getBuf b).entries =
          (if b = s.req_buffer then (c.getBuf b).entries.eraseIdx s.req_it
            else (c.getBuf b).entries) ++
          (if b = .active then
            [({ (rowpolicy.update c.m_dram s.req) with
                is_stat_updated := true } : Request).forget_command]
            else [])) ∨
        ((∀ b : BufId, ((c.issue_slot sched rowpolicy used).ctrl.getBuf b).entries =
            if b = s.req_buffer then (c.getBuf b).entries.eraseIdx s.req_it
            else (c.getBuf b).entries) ∧
          ∃ depart : Int, (c.issue_slot sched rowpolicy used).ctrl.pending =
            c.pending ++ [{ (rowpolicy.update c.m_dram s.req) with
              is_stat_updated := true, depart := depart }])) ∧
      (c.issue_slot sched rowpolicy used).ctrl.unlatched +
        (if s.req.is_stat_updated = false then 1 else 0) = c.unlatched) ∧
    ((∀ (d : Mono3D) (r : Request), r.is_stat_updated = true →
        (rowpolicy.update d r).is_stat_updated = true) →
      ∀ (trace : List CtrlEvent) (c0 c1 : Controller),
        Controller.run_along sched rowpolicy c0 trace = some c1 →
        c1.classified + c1.unlatched ≤ c0.classified + c0.unlatched + sends trace) := by
  have hlatch := issue_slot_latch sched rowpolicy c used s hsel hty
  have hunl := issue_slot_unlatched sched rowpolicy c used s hsel
  have hlife := run_along_potential sched rowpolicy
  obtain ⟨hfr, hs⟩ := schedule_request_filtered_spec sched c used
  have hget := (hs s hsel).1
  obtain ⟨k1, k2, k3⟩ := schedule_row_counters sched c used
  rw [(issue_slot_of_some sched rowpolicy c used s hsel).1] at hlatch hunl
  rw [(issue_slot_of_some sched rowpolicy c used s hsel).1]
  generalize (c.schedule_request_filtered sched used).2 = c1 at hfr hget k1 k2 k3 hlatch hunl
  obtain ⟨f1, f2, f3, f4, f5, f6⟩ := hfr
  rw [f2] at hlatch hunl
  rw [f2]
  have hit : s.req_it < (c1.getBuf s.req_buffer).buffer.length := by
    by_contra hcon
    rw [List.getElem?_eq_none (Nat.le_of_not_lt hcon)] at hget
    exact Option.noConfusion hget
  obtain ⟨q1, q2, q3⟩ := issue_selected_row_counters c1 used s.req_buffer s.req_it
    (rowpolicy.update c.m_dram s.req)
  obtain ⟨u1, u2, u3⟩ := update_request_stats_row_counters c1
    (rowpolicy.update c.m_dram s.req) hty
  rw [f2, k1, k2, k3] at u1 u2 u3
  have hentry : (c.getBuf s.req_buffer).entries[s.req_it]? = some s.req.forget_command := by
    rw [← (f6 s.req_buffer).1]
    simp only [ReqBuffer.entries, List.getElem?_map, hget, Option.map_some']
  refine ⟨fun hl => ?_, fun hl => ?_, fun b r hr => ?_, fun r hr => ?_,
    ⟨hentry, hlatch, hunl⟩, fun hpol trace c0 c2 hrun => hlife hpol trace c0 c2 hrun⟩
  · simp only [hl, if_true] at q1 q2 q3
    rw [q1, q2, q3]
    exact ⟨u1, u2, u3⟩
  · have hnl : ¬ ((rowpolicy.update c.m_dram s.req).is_stat_updated = false) := by
      rw [hl]; decide
    simp only [hnl, if_false] at q1 q2 q3
    rw [q1, q2, q3]
    exact ⟨k1, k2, k3⟩
  · obtain ⟨r0, hr0, e⟩ := List.mem_map.mp hr
    rcases issue_selected_mem c1 used s.req_buffer s.req_it
      (rowpolicy.update c.m_dram s.req) hit b r0 hr0 with h | h
    · left
      rw [← (f6 b).1, ← e]
      exact List.mem_map_of_mem _ h
    · right
      rw [← e, h]
  · rcases issue_selected_pending_cases c1 used s.req_buffer s.req_it
      (rowpolicy.update c.m_dram s.req) with h | ⟨_, _, h⟩ | ⟨_, _, h⟩
    · left; rw [← f3, ← h]; exact hr
    · rw [h] at hr
      rcases List.mem_append.mp hr with h2 | h2
      · left; rw [← f3]; exact h2
      · right
        have e : r = _ := List.mem_singleton.mp h2
        rw [e]
    · rw [h] at hr
      rcases List.mem_append.mp hr with h2 | h2
      · left; rw [← f3]; exact h2
      · right
        have e : r = _ := List.mem_singleton.mp h2
        rw [e]

/-- Witness for C14: the queued read of `ctrl_row_hit` hits the open row 7, so its slot
credits one row hit and no conflict or miss; it was the one unlatched request, and
after the slot none is left. -/
theorem issue_slot_row_classification_witness :
    (ctrl_row_hit.schedule_request_filtered fcfs []).1 =
      some ⟨.read, 0, { read_b3_r7_queued with command := .RD }⟩ ∧
    ctrl_row_hit.m_dram.check_rowbuffer_hit .RD addr_b3_r7 = true ∧
    ((ctrl_row_hit.issue_slot fcfs keep_row_open []).ctrl.s_row_hits = 1 ∧
      (ctrl_row_hit.issue_slot fcfs keep_row_open []).ctrl.s_row_conflicts = 0 ∧
      (ctrl_row_hit.issue_slot fcfs keep_row_open []).ctrl.s_row_misses = 0) ∧
    ctrl_row_hit.unlatched = 1 ∧
    (ctrl_row_hit.issue_slot fcfs keep_row_open []).ctrl.unlatched + 1 = 1 :=
  ⟨by decide, by decide,
    ((issue_slot_row_classification fcfs keep_row_open ctrl_row_hit []
      ⟨.read, 0, { read_b3_r7_queued with command := .RD }⟩ (by decide)
      (Or.inl rfl)).1 rfl).1 (by decide),
    by decide,
    (issue_slot_row_classification fcfs keep_row_open ctrl_row_hit []
      ⟨.read, 0, { read_b3_r7_queued with command := .RD }⟩ (by decide)
      (Or.inl rfl)).2.2.2.2.1.2.2⟩


end Ramulator
